import Mathlib

/-!
# RISK-XVII virtual machine

A shallow embedding of `vm_riskxvii.c` / `vm_riskxvii.h` and the properties of
its instruction handlers, memory accessors and heap allocator.

Modelling conventions.

* `uint32_t` values are natural numbers, reduced `% 2 ^ 32` wherever the C
  arithmetic can leave the 32-bit range; `uint8_t` / `uint16_t` casts are
  `% 2 ^ 8` / `% 2 ^ 16`.
* Conversions to `int32_t` and `int32_t` additions wrap modulo `2 ^ 32`
  (the semantics CompCert C gives them).
* A shift by 32 or more and an array access outside the array are undefined
  behaviour in C; the model stops with `Exit.undefined_behaviour` there.
* `exit` is an `Except.error` carrying the machine state at that point, so
  the register dump printed before `exit(1)` can be read off the result.
* The linked list starting at the global `head` is the list of its nodes in
  link order (the C list always holds at least `head` itself); the host
  `malloc` that `vm_malloc` calls for a new node is taken to succeed.
* Standard input is a list of bytes; `scanf("%d", _)` is libc code and is a
  field of the state (`scanf_d`): it maps the unread input to the value read
  and the input left, or to `none` when no integer can be read.
* `fetch_instruct` reads a `uint32_t` through a pointer into `inst_mem`: the
  host is little-endian, so the word is made of the four bytes at `pc .. pc + 3`,
  and a byte outside `inst_mem` is an access outside the array. The `while`
  loop of `running_vm` is a step function, a bounded iteration of it, and the
  set of states in which the loop tests its condition.
-/

namespace RiskXVII

/-! ## Constants (vm_riskxvii.h) -/

abbrev INSTRUCT_BYTES : Nat := 4
abbrev INST_MEM_SIZE : Nat := 1024
abbrev DATA_MEM_SIZE : Nat := 1024
abbrev INST_MEM_END : Nat := 0x3ff
abbrev DATA_MEM_START : Nat := 0x0400
abbrev DATA_MEM_END : Nat := 0x7ff
abbrev VR_START : Nat := 0x0800
abbrev VR_END : Nat := 0x8ff
abbrev HEAP_START : Nat := 0xb700
abbrev HEAP_END : Nat := 0xd700
abbrev REG_NUM : Nat := 32
abbrev WORD_BITS : Nat := 32
abbrev VR_WRITE_CHAR : Nat := 0x0800
abbrev VR_WRITE_SINT : Nat := 0x0804
abbrev VR_WRITE_UINT : Nat := 0x0808
abbrev VR_HALT : Nat := 0x080C
abbrev VR_READ_CHAR : Nat := 0x0812
abbrev VR_READ_SINT : Nat := 0x0816
abbrev VR_DUMP_PC : Nat := 0x0820
abbrev VR_DUMP_REG : Nat := 0x0824
abbrev VR_DUMP_WORD : Nat := 0x0828
abbrev VR_MALLOC : Nat := 0x0830
abbrev VR_FREE : Nat := 0x0834
abbrev VIRTUAL_ROUTINE_END : Nat := 0x8ff
abbrev HEAP_BANK_NUM : Nat := 128
abbrev BANK_BLOCK_SIZE : Nat := 64

/-! Opcodes (`enum Opcode`). -/

abbrev R_TYPE : Nat := 0b0110011
abbrev I_TYPE_ONE : Nat := 0b0010011
abbrev I_TYPE_TWO : Nat := 0b0000011
abbrev I_TYPE_THREE : Nat := 0b1100111
abbrev S_TYPE : Nat := 0b0100011
abbrev SB_TYPE : Nat := 0b1100011
abbrev U_TYPE : Nat := 0b0110111
abbrev UJ_TYPE : Nat := 0b1101111

/-! ## Machine integers -/

/-- The value of `x` as a `uint32_t`. -/
def to_uint32 (x : Nat) : Nat := x % 2 ^ 32

/-- The value of the 32-bit pattern `x` read as an `int32_t`. -/
def to_int32 (x : Nat) : Int :=
  if x % 2 ^ 32 < 2 ^ 31 then (x % 2 ^ 32 : Nat) else ((x % 2 ^ 32 : Nat) : Int) - 2 ^ 32

/-- The `uint32_t` an `int` converts to. -/
def int_to_uint32 (i : Int) : Nat := (i % 2 ^ 32).toNat

/-- The byte `b` read as an `int8_t`. -/
def to_int8 (b : Nat) : Int :=
  if b % 2 ^ 8 < 2 ^ 7 then (b % 2 ^ 8 : Nat) else ((b % 2 ^ 8 : Nat) : Int) - 2 ^ 8

/-- The half-word `h` read as an `int16_t`. -/
def to_int16 (h : Nat) : Int :=
  if h % 2 ^ 16 < 2 ^ 15 then (h % 2 ^ 16 : Nat) else ((h % 2 ^ 16 : Nat) : Int) - 2 ^ 16

/-- The `uint32_t` difference `a - b`. -/
def sub32 (a b : Nat) : Nat := (a + (2 ^ 32 - b % 2 ^ 32)) % 2 ^ 32

/-- The bit-field of `width` bits starting at bit `lo` of the instruction word
(`union instruction`, fields allocated from the least significant bit). -/
def field (raw_instruct lo width : Nat) : Nat := (raw_instruct / 2 ^ lo) % 2 ^ width

/-! ## Data model -/

/-- A node of the heap management list (`struct heap_node` without `next`,
which is the position in the list). -/
structure heap_node where
  address : Nat
  bank_blocks : Nat
  allocated_size : Nat
deriving DecidableEq

/-- What the program wrote to standard output, one entry per call. -/
inductive Output where
  | putchar (c : Nat)
  | printf_d (v : Int)
  | printf_x (v : Nat)
  | halt_requested
  | register_dump (pc : Nat) (reg_bank : Nat → Nat)

/-- The file-scope state of the program together with the memory blob and the
console. -/
structure VM where
  pc : Nat
  reg_bank : Nat → Nat
  inst_mem : Nat → Nat
  data_mem : Nat → Nat
  virtual_routines : Nat → Nat
  heap_banks : Nat → Nat
  head : List heap_node
  stdin : List Nat
  scanf_d : List Nat → Option (Nat × List Nat)
  stdout : List Output

/-- The ways a run leaves the fetch/execute loop. The state is the one at the
call of `exit`. -/
inductive Exit where
  | not_implemented (raw_instruct : Nat) (s : VM)
  | illegal_operation (raw_instruct : Nat) (s : VM)
  | halt (s : VM)
  | input_error (s : VM)
  | undefined_behaviour

/-- The function `instruct_not_implement`: message, register dump, `exit(1)`. -/
def instruct_not_implement {α : Type} (instruct : Nat) (s : VM) : Except Exit α :=
  .error (.not_implemented instruct s)

/-- The function `illegal_operation`: message, register dump, `exit(1)`. -/
def illegal_operation {α : Type} (instruct : Nat) (s : VM) : Except Exit α :=
  .error (.illegal_operation instruct s)

/-- The assignment `reg_bank[rd] = v` (the stored value is a `uint32_t`). -/
def set_reg (s : VM) (rd v : Nat) : VM :=
  { s with reg_bank := fun r => if r = rd then v % 2 ^ 32 else s.reg_bank r }

/-- The function `increment_pc`. -/
def increment_pc (s : VM) : VM :=
  { s with pc := (s.pc + INSTRUCT_BYTES) % 2 ^ 32 }

/-- The 12-bit immediate after `if (imm & 0x800) imm |= 0xFFFFF000`. -/
def sign_extend_imm (imm : Nat) : Nat :=
  if imm &&& 0x800 ≠ 0 then imm ||| 0xFFFFF000 else imm

/-! ## Heap allocator -/

/-- The heap list `init_heap` builds: one free node of all 128 banks. -/
def init_heap_list : List heap_node :=
  [{ address := HEAP_START, bank_blocks := HEAP_BANK_NUM, allocated_size := 0 }]

/-- The function `init_heap`: zero the first `HEAP_BANK_NUM` bytes of
`heap_banks` and reset the list. -/
def init_heap (s : VM) : VM :=
  { s with
    heap_banks := fun i => if i < HEAP_BANK_NUM then 0 else s.heap_banks i
    head := init_heap_list }

/-- The `while (cursor)` loop of `vm_malloc`: `none` when the loop ends without
a fit, else the returned address and the list after the allocation. -/
def vm_malloc_loop (size required_blocks : Nat) :
    List heap_node → Option (Nat × List heap_node)
  | [] => none
  | cursor :: next =>
    if cursor.allocated_size = 0 ∧ cursor.bank_blocks ≥ required_blocks then
      let allocated_address := cursor.address
      let next1 :=
        if cursor.bank_blocks > required_blocks then
          { address := (cursor.address + required_blocks * BANK_BLOCK_SIZE) % 2 ^ 32
            bank_blocks := cursor.bank_blocks - required_blocks
            allocated_size := 0 } :: next
        else next
      some (allocated_address,
        { cursor with bank_blocks := required_blocks, allocated_size := size } :: next1)
    else
      match vm_malloc_loop size required_blocks next with
      | some (a, l) => some (a, cursor :: l)
      | none => none

/-- The function `vm_malloc`: the returned address and the heap list after
the call. -/
def vm_malloc (size : Nat) (head : List heap_node) : Nat × List heap_node :=
  let required_blocks := ((size + BANK_BLOCK_SIZE - 1) % 2 ^ 32) / BANK_BLOCK_SIZE
  if required_blocks = 0 then (0, head)
  else
    match vm_malloc_loop size required_blocks head with
    | some r => r
    | none => (0, head)

/-- The first `if` inside `vm_free`: absorb the next node when it is free.
Returns the freed node followed by what is linked after it. -/
def coalesce_next (cursor : heap_node) : List heap_node → List heap_node
  | [] => [cursor]
  | next_node :: rest =>
    if next_node.allocated_size = 0 then
      { cursor with bank_blocks := (cursor.bank_blocks + next_node.bank_blocks) % 2 ^ 32 } :: rest
    else cursor :: next_node :: rest

/-- The second `if` inside `vm_free`: merge the freed node (the head of
`freed`) into `prev_node` when that one is free. Returns the list from
`prev_node` on. -/
def coalesce_prev (prev_node : Option heap_node) (freed : List heap_node) : List heap_node :=
  match prev_node, freed with
  | some p, cursor :: rest =>
    if p.allocated_size = 0 then
      { p with bank_blocks := (p.bank_blocks + cursor.bank_blocks) % 2 ^ 32 } :: rest
    else p :: cursor :: rest
  | some p, [] => [p]
  | none, l => l

/-- The `while (cursor)` loop of `vm_free`, started at `cursor` with the given
`prev_node`: `none` when the loop ends without a match (return 0), else the list
from `prev_node` on after the free (return 1). -/
def vm_free_loop (address : Nat) : Option heap_node → List heap_node → Option (List heap_node)
  | _, [] => none
  | prev_node, cursor :: next =>
    if cursor.allocated_size > 0 ∧ address = cursor.address then
      some (coalesce_prev prev_node (coalesce_next { cursor with allocated_size := 0 } next))
    else
      match vm_free_loop address (some cursor) next with
      | some l => some (prev_node.toList ++ l)
      | none => none

/-- The function `vm_free`: the returned flag (1 freed, 0 invalid) and the heap
list after the call. -/
def vm_free (address : Nat) (head : List heap_node) : Nat × List heap_node :=
  match vm_free_loop address none head with
  | some l => (1, l)
  | none => (0, head)

/-- The `while (cursor)` loop of `is_valid_address`. -/
def is_valid_address_loop (address : Nat) : List heap_node → Bool
  | [] => false
  | cursor :: next =>
    if cursor.allocated_size > 0 ∧ address ≥ cursor.address ∧
        address < (cursor.address + cursor.allocated_size) % 2 ^ 32 then true
    else is_valid_address_loop address next

/-- The function `is_valid_address` (1 valid, 0 invalid), on the heap list
`head`. -/
def is_valid_address (head : List heap_node) (address : Nat) : Bool :=
  if address ≤ VIRTUAL_ROUTINE_END then true
  else is_valid_address_loop address head

/-! ## Memory accessors -/

/-- The element `a[i]` of an `unsigned char` array of `size` elements; an index
outside the array is undefined behaviour. -/
def array_read (size : Nat) (a : Nat → Nat) (i : Nat) : Except Exit Nat :=
  if i < size then .ok (a i % 2 ^ 8) else .error .undefined_behaviour

/-- The assignment `a[i] = v` to an `unsigned char` array of `size` elements. -/
def array_write (size : Nat) (a : Nat → Nat) (i v : Nat) : Except Exit (Nat → Nat) :=
  if i < size then .ok (fun j => if j = i then v % 2 ^ 8 else a j)
  else .error .undefined_behaviour

/-- The function `getchar`: the next input byte, or `EOF = -1` as a `uint32_t`. -/
def getchar (s : VM) : Nat × VM :=
  match s.stdin with
  | [] => (int_to_uint32 (-1), s)
  | c :: rest => (c % 2 ^ 8, { s with stdin := rest })

/-- The function `console_read_routine`. -/
def console_read_routine (address : Nat) (s : VM) : Except Exit (Nat × VM) :=
  if address = VR_READ_CHAR then .ok (getchar s)
  else if address = VR_READ_SINT then
    match s.scanf_d s.stdin with
    | some (sint, rest) => .ok (sint % 2 ^ 32, { s with stdin := rest })
    | none => .error (.input_error s)
  else
    let size := VR_END - VR_START + 1
    (array_read size s.virtual_routines (sub32 address VR_START)).bind fun first_byte =>
    (array_read size s.virtual_routines ((sub32 address VR_START + 1) % 2 ^ 32)).bind
      fun second_byte =>
    (array_read size s.virtual_routines ((sub32 address VR_START + 2) % 2 ^ 32)).bind
      fun third_byte =>
    (array_read size s.virtual_routines ((sub32 address VR_START + 3) % 2 ^ 32)).bind
      fun fourth_byte =>
    .ok ((first_byte ||| (second_byte <<< 8) ||| (third_byte <<< 16) ||| (fourth_byte <<< 24))
      % 2 ^ 32, s)

/-- The function `load_byte`: the loaded byte and the state after the read. -/
def load_byte (address : Nat) (s : VM) (instruct : Nat) : Except Exit (Nat × VM) :=
  if ¬ is_valid_address s.head address then illegal_operation instruct s
  else if address ≥ DATA_MEM_START ∧ address ≤ DATA_MEM_END then
    .ok (s.data_mem (address - DATA_MEM_START) % 2 ^ 8, s)
  else if address ≤ INST_MEM_END then
    .ok (s.inst_mem address % 2 ^ 8, s)
  else if address ≥ VR_START ∧ address ≤ VR_END then
    (console_read_routine address s).bind fun r => .ok (r.1 % 2 ^ 8, r.2)
  else
    (array_read (HEAP_BANK_NUM * BANK_BLOCK_SIZE) s.heap_banks (sub32 address HEAP_START)).bind
      fun b => .ok (b, s)

/-- The function `load_half_word`. -/
def load_half_word (address : Nat) (s : VM) (instruct : Nat) : Except Exit (Nat × VM) :=
  if ¬ is_valid_address s.head address ∨ ¬ is_valid_address s.head ((address + 1) % 2 ^ 32) then
    illegal_operation instruct s
  else if address ≥ DATA_MEM_START ∧ address < DATA_MEM_END then
    let first_byte := s.data_mem (address - DATA_MEM_START) % 2 ^ 8
    let second_byte := s.data_mem (address + 1 - DATA_MEM_START) % 2 ^ 8
    .ok ((first_byte ||| (second_byte <<< 8)) % 2 ^ 16, s)
  else if address < INST_MEM_END then
    let first_byte := s.inst_mem address % 2 ^ 8
    let second_byte := s.inst_mem (address + 1) % 2 ^ 8
    .ok ((first_byte ||| (second_byte <<< 8)) % 2 ^ 16, s)
  else if address ≥ VR_START ∧ address ≤ VR_END then
    (console_read_routine address s).bind fun r => .ok (r.1 % 2 ^ 16, r.2)
  else
    let size := HEAP_BANK_NUM * BANK_BLOCK_SIZE
    (array_read size s.heap_banks (sub32 address HEAP_START)).bind fun first_byte =>
    (array_read size s.heap_banks ((sub32 address HEAP_START + 1) % 2 ^ 32)).bind
      fun second_byte =>
    .ok ((first_byte ||| (second_byte <<< 8)) % 2 ^ 16, s)

/-- The function `load_word`. -/
def load_word (address : Nat) (s : VM) (instruct : Nat) : Except Exit (Nat × VM) :=
  if ¬ is_valid_address s.head address ∨
      ¬ is_valid_address s.head ((address + 1) % 2 ^ 32) ∨
      ¬ is_valid_address s.head ((address + 2) % 2 ^ 32) ∨
      ¬ is_valid_address s.head ((address + 3) % 2 ^ 32) then
    illegal_operation instruct s
  else if address ≥ DATA_MEM_START ∧ address ≤ DATA_MEM_END - 3 then
    let first_byte := s.data_mem (address - DATA_MEM_START) % 2 ^ 8
    let second_byte := s.data_mem (address + 1 - DATA_MEM_START) % 2 ^ 8
    let third_byte := s.data_mem (address + 2 - DATA_MEM_START) % 2 ^ 8
    let fourth_byte := s.data_mem (address + 3 - DATA_MEM_START) % 2 ^ 8
    .ok ((first_byte ||| (second_byte <<< 8) ||| (third_byte <<< 16) ||| (fourth_byte <<< 24))
      % 2 ^ 32, s)
  else if address ≤ INST_MEM_END - 3 then
    let first_byte := s.inst_mem address % 2 ^ 8
    let second_byte := s.inst_mem (address + 1) % 2 ^ 8
    let third_byte := s.inst_mem (address + 2) % 2 ^ 8
    let fourth_byte := s.inst_mem (address + 3) % 2 ^ 8
    .ok ((first_byte ||| (second_byte <<< 8) ||| (third_byte <<< 16) ||| (fourth_byte <<< 24))
      % 2 ^ 32, s)
  else if address ≥ VR_START ∧ address ≤ VR_END then
    console_read_routine address s
  else
    let size := HEAP_BANK_NUM * BANK_BLOCK_SIZE
    (array_read size s.heap_banks (sub32 address HEAP_START)).bind fun first_byte =>
    (array_read size s.heap_banks (sub32 ((address + 1) % 2 ^ 32) HEAP_START)).bind
      fun second_byte =>
    (array_read size s.heap_banks (sub32 ((address + 2) % 2 ^ 32) HEAP_START)).bind
      fun third_byte =>
    (array_read size s.heap_banks (sub32 ((address + 3) % 2 ^ 32) HEAP_START)).bind
      fun fourth_byte =>
    .ok ((first_byte ||| (second_byte <<< 8) ||| (third_byte <<< 16) ||| (fourth_byte <<< 24))
      % 2 ^ 32, s)

/-- The function `console_write_routine`: the returned flag (1 routine, 0 no
such routine) and the state after the routine. -/
def console_write_routine (address value : Nat) (s : VM) (instruct : Nat) :
    Except Exit (Nat × VM) :=
  if address = VR_WRITE_CHAR then
    .ok (1, { s with stdout := s.stdout ++ [.putchar (value % 2 ^ 8)] })
  else if address = VR_WRITE_SINT then
    .ok (1, { s with stdout := s.stdout ++ [.printf_d (to_int32 value)] })
  else if address = VR_WRITE_UINT then
    .ok (1, { s with stdout := s.stdout ++ [.printf_x (value % 2 ^ 32)] })
  else if address = VR_HALT then
    .error (.halt { s with stdout := s.stdout ++ [.halt_requested] })
  else if address = VR_DUMP_PC then
    .ok (1, { s with stdout := s.stdout ++ [.printf_x s.pc] })
  else if address = VR_DUMP_REG then
    .ok (1, { s with stdout := s.stdout ++ [.register_dump s.pc s.reg_bank] })
  else if address = VR_DUMP_WORD then
    (load_word (value % 2 ^ 32) s instruct).bind fun r =>
      .ok (1, { r.2 with stdout := r.2.stdout ++ [.printf_x r.1] })
  else if address = VR_MALLOC then
    let r := vm_malloc value s.head
    .ok (1, set_reg { s with head := r.2 } 28 r.1)
  else if address = VR_FREE then
    let r := vm_free value s.head
    if r.1 = 0 then illegal_operation instruct { s with head := r.2 }
    else .ok (1, { s with head := r.2 })
  else .ok (0, s)

/-- The assignment `vm_memory->data_mem[i] = v`. -/
def write_data (s : VM) (i v : Nat) : VM :=
  { s with data_mem := fun j => if j = i then v % 2 ^ 8 else s.data_mem j }

/-- The function `store_byte`. -/
def store_byte (address value : Nat) (s : VM) (instruct : Nat) : Except Exit VM :=
  if ¬ is_valid_address s.head address then illegal_operation instruct s
  else if address ≥ DATA_MEM_START ∧ address ≤ DATA_MEM_END then
    .ok (write_data s (address - DATA_MEM_START) value)
  else if address ≤ INST_MEM_END then illegal_operation instruct s
  else if address ≥ VR_START ∧ address ≤ VR_END then
    (console_write_routine address (value % 2 ^ 8) s instruct).bind fun r =>
      if r.1 = 0 then illegal_operation instruct r.2 else .ok r.2
  else
    (array_write (HEAP_BANK_NUM * BANK_BLOCK_SIZE) s.heap_banks
      (sub32 address HEAP_START) value).bind fun h =>
    .ok { s with heap_banks := h }

/-- The function `store_half_word`. -/
def store_half_word (address value : Nat) (s : VM) (instruct : Nat) : Except Exit VM :=
  if ¬ is_valid_address s.head address ∨ ¬ is_valid_address s.head ((address + 1) % 2 ^ 32) then
    illegal_operation instruct s
  else if address ≥ DATA_MEM_START ∧ address < DATA_MEM_END then
    let s1 := write_data s (address - DATA_MEM_START) (value &&& 0xFF)
    .ok (write_data s1 (address + 1 - DATA_MEM_START) ((value >>> 8) &&& 0xFF))
  else if address ≤ INST_MEM_END then illegal_operation instruct s
  else if address ≥ VR_START ∧ address ≤ VR_END then
    (console_write_routine address (value % 2 ^ 16) s instruct).bind fun r =>
      if r.1 = 0 then illegal_operation instruct r.2 else .ok r.2
  else
    let size := HEAP_BANK_NUM * BANK_BLOCK_SIZE
    (array_write size s.heap_banks (sub32 address HEAP_START) (value &&& 0xFF)).bind fun h1 =>
    (array_write size h1 (sub32 ((address + 1) % 2 ^ 32) HEAP_START)
      ((value >>> 8) &&& 0xFF)).bind fun h2 =>
    .ok { s with heap_banks := h2 }

/-- The function `store_word`. -/
def store_word (address value : Nat) (s : VM) (instruct : Nat) : Except Exit VM :=
  if ¬ is_valid_address s.head address ∨
      ¬ is_valid_address s.head ((address + 1) % 2 ^ 32) ∨
      ¬ is_valid_address s.head ((address + 2) % 2 ^ 32) ∨
      ¬ is_valid_address s.head ((address + 3) % 2 ^ 32) then
    illegal_operation instruct s
  else if address ≥ DATA_MEM_START ∧ address ≤ DATA_MEM_END - 3 then
    let s1 := write_data s (address - DATA_MEM_START) (value &&& 0xFF)
    let s2 := write_data s1 (address + 1 - DATA_MEM_START) ((value >>> 8) &&& 0xFF)
    let s3 := write_data s2 (address + 2 - DATA_MEM_START) ((value >>> 16) &&& 0xFF)
    .ok (write_data s3 (address + 3 - DATA_MEM_START) ((value >>> 24) &&& 0xFF))
  else if address ≤ INST_MEM_END then illegal_operation instruct s
  else if address ≥ VR_START ∧ address ≤ VR_END then
    (console_write_routine address (value % 2 ^ 32) s instruct).bind fun r =>
      if r.1 = 0 then illegal_operation instruct r.2 else .ok r.2
  else
    let size := HEAP_BANK_NUM * BANK_BLOCK_SIZE
    (array_write size s.heap_banks (sub32 address HEAP_START) (value &&& 0xFF)).bind fun h1 =>
    (array_write size h1 (sub32 ((address + 1) % 2 ^ 32) HEAP_START)
      ((value >>> 8) &&& 0xFF)).bind fun h2 =>
    (array_write size h2 (sub32 ((address + 2) % 2 ^ 32) HEAP_START)
      ((value >>> 16) &&& 0xFF)).bind fun h3 =>
    (array_write size h3 (sub32 ((address + 3) % 2 ^ 32) HEAP_START)
      ((value >>> 24) &&& 0xFF)).bind fun h4 =>
    .ok { s with heap_banks := h4 }

/-! ## Instruction handlers -/

/-- The function `handle_R_instruct`. -/
def handle_R_instruct (instruct : Nat) (s : VM) : Except Exit VM :=
  let rd := field instruct 7 5
  let func3 := field instruct 12 3
  let rs1 := field instruct 15 5
  let rs2 := field instruct 20 5
  let func7 := field instruct 25 7
  let checked : Except Exit VM :=
    if func3 = 0b000 ∧ func7 = 0b0000000 then
      .ok (set_reg s rd (s.reg_bank rs1 + s.reg_bank rs2))
    else if func3 = 0b000 ∧ func7 = 0b0100000 then
      .ok (set_reg s rd (sub32 (s.reg_bank rs1) (s.reg_bank rs2)))
    else if func3 = 0b100 ∧ func7 = 0b0000000 then
      .ok (set_reg s rd (s.reg_bank rs1 ^^^ s.reg_bank rs2))
    else if func3 = 0b110 ∧ func7 = 0b0000000 then
      .ok (set_reg s rd (s.reg_bank rs1 ||| s.reg_bank rs2))
    else if func3 = 0b111 ∧ func7 = 0b0000000 then
      .ok (set_reg s rd (s.reg_bank rs1 &&& s.reg_bank rs2))
    else if func3 = 0b001 ∧ func7 = 0b0000000 then
      if s.reg_bank rs2 < WORD_BITS then
        .ok (set_reg s rd (s.reg_bank rs1 <<< s.reg_bank rs2))
      else .error .undefined_behaviour
    else if func3 = 0b101 ∧ func7 = 0b0000000 then
      if s.reg_bank rs2 < WORD_BITS then
        .ok (set_reg s rd (s.reg_bank rs1 >>> s.reg_bank rs2))
      else .error .undefined_behaviour
    else if func3 = 0b101 ∧ func7 = 0b0100000 then
      let shifting_bits := s.reg_bank rs2 % WORD_BITS
      if WORD_BITS - shifting_bits < WORD_BITS then
        .ok (set_reg s rd ((s.reg_bank rs1 >>> shifting_bits) |||
          ((s.reg_bank rs1 <<< (WORD_BITS - shifting_bits)) % 2 ^ 32)))
      else .error .undefined_behaviour
    else if func3 = 0b010 ∧ func7 = 0b0000000 then
      .ok (set_reg s rd (if to_int32 (s.reg_bank rs1) < to_int32 (s.reg_bank rs2) then 1 else 0))
    else if func3 = 0b011 ∧ func7 = 0b0000000 then
      .ok (set_reg s rd (if s.reg_bank rs1 < s.reg_bank rs2 then 1 else 0))
    else instruct_not_implement instruct s
  checked.bind fun s1 => .ok (increment_pc s1)

/-- The function `handle_I1_instruct`. -/
def handle_I1_instruct (instruct : Nat) (s : VM) : Except Exit VM :=
  let rd := field instruct 7 5
  let func3 := field instruct 12 3
  let rs1 := field instruct 15 5
  let imm := sign_extend_imm (field instruct 20 12)
  let checked : Except Exit VM :=
    if func3 = 0b000 then .ok (set_reg s rd (s.reg_bank rs1 + imm))
    else if func3 = 0b100 then .ok (set_reg s rd (s.reg_bank rs1 ^^^ imm))
    else if func3 = 0b110 then .ok (set_reg s rd (s.reg_bank rs1 ||| imm))
    else if func3 = 0b111 then .ok (set_reg s rd (s.reg_bank rs1 &&& imm))
    else if func3 = 0b010 then
      .ok (set_reg s rd (if to_int32 (s.reg_bank rs1) < to_int32 imm then 1 else 0))
    else if func3 = 0b011 then
      .ok (set_reg s rd (if s.reg_bank rs1 < imm then 1 else 0))
    else instruct_not_implement instruct s
  checked.bind fun s1 => .ok (increment_pc s1)

/-- The function `handle_I2_instruct`. -/
def handle_I2_instruct (instruct : Nat) (s : VM) : Except Exit VM :=
  let rd := field instruct 7 5
  let func3 := field instruct 12 3
  let rs1 := field instruct 15 5
  let imm := sign_extend_imm (field instruct 20 12)
  let address := int_to_uint32 (to_int32 (s.reg_bank rs1) + to_int32 imm)
  let checked : Except Exit VM :=
    if func3 = 0b000 then
      (load_byte address s instruct).bind fun r =>
        .ok (set_reg r.2 rd (int_to_uint32 (to_int8 r.1)))
    else if func3 = 0b001 then
      (load_half_word address s instruct).bind fun r =>
        .ok (set_reg r.2 rd (int_to_uint32 (to_int16 r.1)))
    else if func3 = 0b010 then
      (load_word address s instruct).bind fun r => .ok (set_reg r.2 rd r.1)
    else if func3 = 0b100 then
      (load_byte address s instruct).bind fun r => .ok (set_reg r.2 rd r.1)
    else if func3 = 0b101 then
      (load_half_word address s instruct).bind fun r => .ok (set_reg r.2 rd r.1)
    else instruct_not_implement instruct s
  checked.bind fun s1 => .ok (increment_pc s1)

/-- The function `handle_I3_instruct`. -/
def handle_I3_instruct (instruct : Nat) (s : VM) : Except Exit VM :=
  let rd := field instruct 7 5
  let func3 := field instruct 12 3
  let rs1 := field instruct 15 5
  let imm := sign_extend_imm (field instruct 20 12)
  if func3 = 0b000 then
    let s1 := set_reg s rd (s.pc + INSTRUCT_BYTES)
    .ok { s1 with pc := int_to_uint32 (to_int32 (s1.reg_bank rs1) + to_int32 imm) }
  else instruct_not_implement instruct s

/-- The function `handle_S_instruct`. -/
def handle_S_instruct (instruct : Nat) (s : VM) : Except Exit VM :=
  let func3 := field instruct 12 3
  let rs1 := field instruct 15 5
  let rs2 := field instruct 20 5
  let imm4_0 := field instruct 7 5
  let imm11_5 := field instruct 25 7
  let imm := sign_extend_imm ((imm11_5 <<< 5) ||| imm4_0)
  let address := int_to_uint32 (to_int32 (s.reg_bank rs1) + to_int32 imm)
  let checked : Except Exit VM :=
    if func3 = 0b000 then store_byte address (s.reg_bank rs2 % 2 ^ 8) s instruct
    else if func3 = 0b001 then store_half_word address (s.reg_bank rs2 % 2 ^ 16) s instruct
    else if func3 = 0b010 then store_word address (s.reg_bank rs2) s instruct
    else instruct_not_implement instruct s
  checked.bind fun s1 => .ok (increment_pc s1)

/-- The function `handle_SB_instruct`. -/
def handle_SB_instruct (instruct : Nat) (s : VM) : Except Exit VM :=
  let imm11 := field instruct 7 1
  let imm4_1 := field instruct 8 4
  let func3 := field instruct 12 3
  let rs1 := field instruct 15 5
  let rs2 := field instruct 20 5
  let imm10_5 := field instruct 25 6
  let imm12 := field instruct 31 1
  let imm := sign_extend_imm ((imm12 <<< 11) ||| (imm11 <<< 10) ||| (imm10_5 <<< 4) ||| imm4_1)
  let checked : Except Exit Bool :=
    if func3 = 0b000 then .ok (decide (s.reg_bank rs1 = s.reg_bank rs2))
    else if func3 = 0b001 then .ok (decide (s.reg_bank rs1 ≠ s.reg_bank rs2))
    else if func3 = 0b100 then
      .ok (decide (to_int32 (s.reg_bank rs1) < to_int32 (s.reg_bank rs2)))
    else if func3 = 0b110 then .ok (decide (s.reg_bank rs1 < s.reg_bank rs2))
    else if func3 = 0b101 then
      .ok (decide (to_int32 (s.reg_bank rs1) ≥ to_int32 (s.reg_bank rs2)))
    else if func3 = 0b111 then .ok (decide (s.reg_bank rs1 ≥ s.reg_bank rs2))
    else instruct_not_implement instruct s
  checked.bind fun is_branch =>
    if is_branch then
      .ok { s with pc := (s.pc + int_to_uint32 (to_int32 ((imm <<< 1) % 2 ^ 32))) % 2 ^ 32 }
    else .ok (increment_pc s)

/-- The function `handle_U_instruct`. -/
def handle_U_instruct (instruct : Nat) (s : VM) : Except Exit VM :=
  let rd := field instruct 7 5
  let imm31_12 := field instruct 12 20
  let imm := (imm31_12 <<< 12) % 2 ^ 32
  .ok (increment_pc (set_reg s rd imm))

/-- The function `handle_UJ_instruct`. -/
def handle_UJ_instruct (instruct : Nat) (s : VM) : Except Exit VM :=
  let rd := field instruct 7 5
  let imm19_12 := field instruct 12 8
  let imm11 := field instruct 20 1
  let imm10_1 := field instruct 21 10
  let imm20 := field instruct 31 1
  let imm := (imm20 <<< 19) ||| (imm19_12 <<< 11) ||| (imm11 <<< 10) ||| imm10_1
  let imm1 := (imm <<< 1) % 2 ^ 32
  let imm2 := if imm1 &&& 0x80000 ≠ 0 then imm1 ||| 0xFFF00000 else imm1
  let s1 := set_reg s rd (s.pc + INSTRUCT_BYTES)
  .ok { s1 with pc := (s1.pc + int_to_uint32 (to_int32 imm2)) % 2 ^ 32 }

/-- The function `fetch_instruct`: the `uint32_t` stored at `inst_mem + pc`. -/
def fetch_instruct (s : VM) : Except Exit Nat :=
  (array_read INST_MEM_SIZE s.inst_mem s.pc).bind fun first_byte =>
  (array_read INST_MEM_SIZE s.inst_mem (s.pc + 1)).bind fun second_byte =>
  (array_read INST_MEM_SIZE s.inst_mem (s.pc + 2)).bind fun third_byte =>
  (array_read INST_MEM_SIZE s.inst_mem (s.pc + 3)).bind fun fourth_byte =>
  .ok ((first_byte ||| (second_byte <<< 8) ||| (third_byte <<< 16) ||| (fourth_byte <<< 24))
    % 2 ^ 32)

/-- The function `execute_instruct`. -/
def execute_instruct (instruct : Nat) (s : VM) : Except Exit VM :=
  let opcode := instruct &&& 0x7F
  let handled : Except Exit VM :=
    if opcode = R_TYPE then handle_R_instruct instruct s
    else if opcode = I_TYPE_ONE then handle_I1_instruct instruct s
    else if opcode = I_TYPE_TWO then handle_I2_instruct instruct s
    else if opcode = I_TYPE_THREE then handle_I3_instruct instruct s
    else if opcode = S_TYPE then handle_S_instruct instruct s
    else if opcode = SB_TYPE then handle_SB_instruct instruct s
    else if opcode = U_TYPE then handle_U_instruct instruct s
    else if opcode = UJ_TYPE then handle_UJ_instruct instruct s
    else instruct_not_implement instruct s
  handled.bind fun s1 => .ok (set_reg s1 0 0)

/-- The state `running_vm` starts the loop in, after `init_heap`: registers,
program counter and virtual routine space zeroed. -/
def startup (inst_mem data_mem : Nat → Nat) (stdin : List Nat)
    (scanf_d : List Nat → Option (Nat × List Nat)) : VM :=
  init_heap
    { pc := 0
      reg_bank := fun _ => 0
      inst_mem := inst_mem
      data_mem := data_mem
      virtual_routines := fun _ => 0
      heap_banks := fun _ => 0
      head := []
      stdin := stdin
      scanf_d := scanf_d
      stdout := [] }

/-- The body of the `while (pc < INST_MEM_SIZE)` loop of `running_vm`: fetch,
then execute. -/
def running_vm_step (s : VM) : Except Exit VM :=
  (fetch_instruct s).bind fun instruct => execute_instruct instruct s

/-- The `while (pc < INST_MEM_SIZE)` loop of `running_vm`, cut after `fuel`
passes: the state in which the loop condition is false, or the state after
`fuel` passes. -/
def running_vm_loop : Nat → VM → Except Exit VM
  | 0, s => .ok s
  | fuel + 1, s =>
    if s.pc < INST_MEM_SIZE then (running_vm_step s).bind (running_vm_loop fuel)
    else .ok s

/-- The function `running_vm` (the loop cut after `fuel` passes): registers,
program counter and virtual routine space are zeroed, then the loop runs. -/
def running_vm (fuel : Nat) (s : VM) : Except Exit VM :=
  running_vm_loop fuel
    { s with
      reg_bank := fun _ => 0
      pc := 0
      virtual_routines := fun j => if j ≤ VR_END - VR_START then 0 else s.virtual_routines j }

/-- The states in which the loop of `running_vm` tests its condition, when the
loop is entered in state `s0`. -/
inductive loop_state (s0 : VM) : VM → Prop
  | start : loop_state s0 s0
  | pass (s s' : VM) :
      loop_state s0 s → s.pc < INST_MEM_SIZE → running_vm_step s = .ok s' → loop_state s0 s'

/-- The startup state on an all-zero memory image with no console input. -/
def vm_zero : VM := startup (fun _ => 0) (fun _ => 0) [] (fun _ => none)

/-- The program counter a handler leaves, when it returns. -/
def result_pc (r : Except Exit VM) : Option Nat :=
  match r with
  | .ok s => some s.pc
  | .error _ => none

/-- The value of register `i` a handler leaves, when it returns. -/
def result_reg (r : Except Exit VM) (i : Nat) : Option Nat :=
  match r with
  | .ok s => some (s.reg_bank i)
  | .error _ => none

/-! ## Reference encodings of the branch and jump offsets -/

/-- The 21-bit `jal` offset as the encoding table gives it: instruction bits
31 | 19:12 | 20 | 30:21 and an implicit low zero bit. -/
def jal_offset (w : Nat) : Nat :=
  field w 31 1 * 2 ^ 20 + field w 12 8 * 2 ^ 12 + field w 20 1 * 2 ^ 11 + field w 21 10 * 2

/-- Sign extension of a 21-bit value (sign bit 20) to 32 bits. -/
def sext21 (x : Nat) : Nat := if x < 2 ^ 20 then x else x + (2 ^ 32 - 2 ^ 21)

/-- The 13-bit branch offset as the encoding table gives it: instruction bits
31 | 7 | 30:25 | 11:8 and an implicit low zero bit. -/
def sb_offset (w : Nat) : Nat :=
  field w 31 1 * 2 ^ 12 + field w 7 1 * 2 ^ 11 + field w 25 6 * 2 ^ 5 + field w 8 4 * 2

/-- Sign extension of a 13-bit value (sign bit 12) to 32 bits. -/
def sext13 (x : Nat) : Nat := if x < 2 ^ 12 then x else x + (2 ^ 32 - 2 ^ 13)

/-- Sign extension of a 12-bit value (sign bit 11) to 32 bits. -/
def sext12 (x : Nat) : Nat := if x < 2 ^ 11 then x else x + (2 ^ 32 - 2 ^ 12)

/-- The condition of the branch with the given `func3` on the operands `a`
(register rs1) and `b` (register rs2): beq, bne, blt, bge, bltu, bgeu. -/
def sb_condition (func3 a b : Nat) : Prop :=
  (func3 = 0b000 ∧ a = b) ∨ (func3 = 0b001 ∧ a ≠ b) ∨
  (func3 = 0b100 ∧ to_int32 a < to_int32 b) ∨ (func3 = 0b101 ∧ to_int32 b ≤ to_int32 a) ∨
  (func3 = 0b110 ∧ a < b) ∨ (func3 = 0b111 ∧ b ≤ a)

/-- Sign extension of a byte (sign bit 7) to 32 bits. -/
def sext8 (x : Nat) : Nat := if x < 2 ^ 7 then x else x + (2 ^ 32 - 2 ^ 8)

/-- Sign extension of a half-word (sign bit 15) to 32 bits. -/
def sext16 (x : Nat) : Nat := if x < 2 ^ 15 then x else x + (2 ^ 32 - 2 ^ 16)

/-- The 32-bit word `x` read as a two's-complement signed integer. -/
def signed32 (x : Nat) : Int := if x < 2 ^ 31 then (x : Int) else (x : Int) - 2 ^ 32

/-- The 32-bit rotate-right of `x` by `k` positions (`k` at most 32): the bits
above position `k` move down and the `k` bits shifted out of the low end
reappear at the high end. -/
def rotate_right (x k : Nat) : Nat := x / 2 ^ k + (x % 2 ^ k) * 2 ^ (32 - k)

/-- The result of the I-TYPE-ONE operation with the given `func3` on the
operands `a` (register rs1) and `b` (the extended immediate): addi, xori, ori,
andi, slti, sltiu. -/
def I1_result (func3 a b : Nat) : Nat :=
  if func3 = 0b000 then (a + b) % 2 ^ 32
  else if func3 = 0b100 then a ^^^ b
  else if func3 = 0b110 then a ||| b
  else if func3 = 0b111 then a &&& b
  else if func3 = 0b010 then (if signed32 a < signed32 b then 1 else 0)
  else (if a < b then 1 else 0)

/-- The state `vm_zero` with program counter `pc` and register `r` holding `v`. -/
def vm_with (pc r v : Nat) : VM :=
  { vm_zero with pc := pc, reg_bank := fun i => if i = r then v else 0 }

/-- The state `vm_zero` with register `r1` holding `v1` and register `r2`
holding `v2`. -/
def vm_with_two (r1 v1 r2 v2 : Nat) : VM :=
  { vm_zero with reg_bank := fun i => if i = r1 then v1 else if i = r2 then v2 else 0 }

/-- The state `vm_zero` with the byte `b` at data address 0x0400 and register 1
holding 0x0400. -/
def vm_data_byte (b : Nat) : VM :=
  { vm_zero with
    data_mem := fun i => if i = 0 then b else 0
    reg_bank := fun i => if i = 1 then 0x0400 else 0 }

/-- The instruction memory holding the 32-bit words `words` from address 0 on,
little-endian, and zero behind them. -/
def image_of_words (words : List Nat) : Nat → Nat :=
  fun i => (words.getD (i / 4) 0 / 2 ^ (8 * (i % 4))) % 2 ^ 8

/-- The startup state on the program `words`, with zeroed data memory and no
console input. -/
def vm_program (words : List Nat) : VM :=
  startup (image_of_words words) (fun _ => 0) [] (fun _ => none)

/-- The state after `a = malloc(100)` on the startup heap. -/
def vm_malloc_100 : VM := { vm_zero with head := (vm_malloc 100 vm_zero.head).2 }

/-! ## Heap list invariants -/

/-- The nodes of `l` cover the addresses from `a` to `HEAP_END` in order,
each node starting where the one before ends and holding at least one bank. -/
def heap_chain (a : Nat) : List heap_node → Prop
  | [] => a = HEAP_END
  | n :: rest =>
    n.address = a ∧ 1 ≤ n.bank_blocks ∧ heap_chain (a + n.bank_blocks * BANK_BLOCK_SIZE) rest

/-- The partition invariant of the heap list: the nodes cover the heap region
`HEAP_START .. HEAP_END` contiguously, in ascending order, without overlap or
gap. -/
def heap_partition (l : List heap_node) : Prop := heap_chain HEAP_START l

/-- The number of banks a request of `size` bytes needs: `ceil(size / 64)` over
the natural numbers. -/
def ceil_banks (size : Nat) : Nat := (size + 63) / 64

/-- The sum of the bank counts of a heap list. -/
def total_banks (l : List heap_node) : Nat := (l.map heap_node.bank_blocks).sum

/-- The heap lists `vm_malloc` and `vm_free` calls lead to from `init_heap`. -/
inductive heap_reachable : List heap_node → Prop
  | init : heap_reachable init_heap_list
  | malloc (l : List heap_node) (size : Nat) :
      heap_reachable l → size < 2 ^ 32 → heap_reachable (vm_malloc size l).2
  | free (l : List heap_node) (address : Nat) :
      heap_reachable l → address < 2 ^ 32 → heap_reachable (vm_free address l).2

/-- Each node's successor starts where the node's banks end. -/
def contiguous : List heap_node → Prop
  | [] => True
  | [_] => True
  | x :: y :: rest =>
    y.address = x.address + BANK_BLOCK_SIZE * x.bank_blocks ∧ contiguous (y :: rest)

/-- The heap after `malloc(100)` and `malloc(64)` on the startup heap. -/
def heap_two_allocations : List heap_node :=
  (vm_malloc 64 (vm_malloc 100 init_heap_list).2).2

/-- The heap after three `malloc(64)` calls on the startup heap; the nodes are
at 0xB700, 0xB740, 0xB780 and the free rest at 0xB7C0. -/
def heap_three_allocations : List heap_node :=
  (vm_malloc 64 (vm_malloc 64 (vm_malloc 64 init_heap_list).2).2).2

/-- The heap `heap_three_allocations` after `free(0xB700)` and `free(0xB780)`:
a free bank, the allocation at 0xB740, 126 free banks. -/
def heap_fragmented : List heap_node :=
  (vm_free 0xB780 (vm_free 0xB700 heap_three_allocations).2).2

/-- The heap lists reached from `init_heap` by `vm_malloc` and `vm_free` calls,
together with the addresses that `vm_malloc` has returned (non-zero) and
`vm_free` has not yet freed (returned 1 for). -/
inductive heap_trace : List heap_node → List Nat → Prop
  | init : heap_trace init_heap_list []
  | malloc (l : List heap_node) (outstanding : List Nat) (size : Nat) :
      heap_trace l outstanding → size < 2 ^ 32 →
      heap_trace (vm_malloc size l).2
        (if (vm_malloc size l).1 = 0 then outstanding
          else (vm_malloc size l).1 :: outstanding)
  | free (l : List heap_node) (outstanding : List Nat) (address : Nat) :
      heap_trace l outstanding → address < 2 ^ 32 →
      heap_trace (vm_free address l).2
        (if (vm_free address l).1 = 1 then outstanding.erase address else outstanding)

/-- Every `vm_malloc` of the requests `sizes`, made one after the other on the
heap list `l`, returns a non-zero address. -/
def all_mallocs_succeed : List Nat → List heap_node → Prop
  | [], _ => True
  | size :: rest, l => (vm_malloc size l).1 ≠ 0 ∧ all_mallocs_succeed rest (vm_malloc size l).2

/-- The heap list after allocations only: the allocated nodes `allocs`, which
take `used` banks, and behind them the free rest, when there is one. -/
def heap_after_mallocs (allocs : List heap_node) (used : Nat) : List heap_node :=
  allocs ++
    (if used < HEAP_BANK_NUM then
      [{ address := HEAP_START + BANK_BLOCK_SIZE * used
         bank_blocks := HEAP_BANK_NUM - used
         allocated_size := 0 }]
    else [])

/-- The heap after a = malloc(4096), b = malloc(64), c = malloc(4032), free(a),
free(c): 64 free banks, the allocation b of one bank, 63 free banks. -/
def heap_two_holes : List heap_node :=
  (vm_free 0xC740 (vm_free 0xB700
    (vm_malloc 4032 (vm_malloc 64 (vm_malloc 4096 init_heap_list).2).2).2).2).2

/-- The ten (func3, func7) combinations of the R family: add, sub, xor, or,
and, sll, srl, sra, slt, sltu. -/
def R_listed (w : Nat) : Prop :=
  (field w 12 3 = 0b000 ∧ field w 25 7 = 0b0000000) ∨
  (field w 12 3 = 0b000 ∧ field w 25 7 = 0b0100000) ∨
  (field w 12 3 = 0b100 ∧ field w 25 7 = 0b0000000) ∨
  (field w 12 3 = 0b110 ∧ field w 25 7 = 0b0000000) ∨
  (field w 12 3 = 0b111 ∧ field w 25 7 = 0b0000000) ∨
  (field w 12 3 = 0b001 ∧ field w 25 7 = 0b0000000) ∨
  (field w 12 3 = 0b101 ∧ field w 25 7 = 0b0000000) ∨
  (field w 12 3 = 0b101 ∧ field w 25 7 = 0b0100000) ∨
  (field w 12 3 = 0b010 ∧ field w 25 7 = 0b0000000) ∨
  (field w 12 3 = 0b011 ∧ field w 25 7 = 0b0000000)

/-- The instruction words the opcode table lists: one of the eight opcodes in
the low 7 bits and, within the family, a listed (func3, func7) combination
(R: ten; I-TYPE-ONE: six; I-TYPE-TWO: five; jalr: func3 = 0; S: three; SB: six;
U and UJ: all). -/
def recognised (w : Nat) : Prop :=
  (field w 0 7 = R_TYPE ∧ R_listed w) ∨
  (field w 0 7 = I_TYPE_ONE ∧ field w 12 3 ∈ [0b000, 0b100, 0b110, 0b111, 0b010, 0b011]) ∨
  (field w 0 7 = I_TYPE_TWO ∧ field w 12 3 ∈ [0b000, 0b001, 0b010, 0b100, 0b101]) ∨
  (field w 0 7 = I_TYPE_THREE ∧ field w 12 3 = 0b000) ∨
  (field w 0 7 = S_TYPE ∧ field w 12 3 ∈ [0b000, 0b001, 0b010]) ∨
  (field w 0 7 = SB_TYPE ∧ field w 12 3 ∈ [0b000, 0b001, 0b100, 0b101, 0b110, 0b111]) ∨
  field w 0 7 = U_TYPE ∨
  field w 0 7 = UJ_TYPE

/-- The call does not end in `instruct_not_implement`. -/
def no_not_implemented {α : Type} (r : Except Exit α) : Prop :=
  ∀ w s, r ≠ .error (.not_implemented w s)

/-- Every value the call returns satisfies `P`; nothing is asked of a call
that ends in `exit`. -/
def returns_only {α : Type} (P : α → Prop) (r : Except Exit α) : Prop :=
  ∀ a, r = .ok a → P a

/-- What a load leaves: a value of at most `bits` bits and the state `s` with
at most the console input consumed. -/
def load_frame (bits : Nat) (s : VM) (r : Nat × VM) : Prop :=
  r.1 < 2 ^ bits ∧ r.2 = { s with stdin := r.2.stdin }

/-- The nine addresses of the write routines. -/
def write_routine_addresses : List Nat :=
  [VR_WRITE_CHAR, VR_WRITE_SINT, VR_WRITE_UINT, VR_HALT, VR_DUMP_PC, VR_DUMP_REG, VR_DUMP_WORD,
    VR_MALLOC, VR_FREE]

/-- No two neighbours of the heap list are both free. -/
def no_adjacent_free : List heap_node → Prop
  | [] => True
  | [_] => True
  | x :: y :: rest =>
    ¬ (x.allocated_size = 0 ∧ y.allocated_size = 0) ∧ no_adjacent_free (y :: rest)

/-- Every allocated node holds its size in whole banks, with less than one
bank to spare. -/
def allocated_bounds (l : List heap_node) : Prop :=
  ∀ n ∈ l, 0 < n.allocated_size →
    n.allocated_size ≤ n.bank_blocks * BANK_BLOCK_SIZE ∧
    n.bank_blocks * BANK_BLOCK_SIZE < n.allocated_size + BANK_BLOCK_SIZE

/-! ## Arithmetic lemmas -/

theorem lor_shiftLeft (x a i : Nat) (h : x < 2 ^ i) : x ||| (a <<< i) = x + a * 2 ^ i := by
  rw [Nat.or_comm, Nat.shiftLeft_eq, Nat.mul_comm a, ← Nat.mul_add_lt_is_or h, Nat.add_comm]

theorem and_two_pow_ne_zero (x i : Nat) : x &&& 2 ^ i ≠ 0 ↔ x / 2 ^ i % 2 = 1 := by
  rw [Nat.and_two_pow, Nat.testBit_to_div_mod]
  by_cases h : x / 2 ^ i % 2 = 1 <;> simp [h]

theorem int_to_uint32_to_int32 (x : Nat) : int_to_uint32 (to_int32 x) = x % 2 ^ 32 := by
  unfold int_to_uint32 to_int32
  split <;> omega

theorem int_to_uint32_add (a b : Nat) :
    int_to_uint32 (to_int32 a + to_int32 b) = (a + b) % 2 ^ 32 := by
  unfold int_to_uint32 to_int32
  split <;> split <;> omega

theorem sign_extend_imm_eq (imm : Nat) (h : imm < 2 ^ 12) :
    sign_extend_imm imm = if imm < 2 ^ 11 then imm else imm + 0xFFFFF000 := by
  unfold sign_extend_imm
  have h1 : imm &&& 0x800 ≠ 0 ↔ imm / 2 ^ 11 % 2 = 1 := and_two_pow_ne_zero imm 11
  have h2 : imm ||| 0xFFFFF000 = imm + 0xFFFFF000 := lor_shiftLeft imm 0xFFFFF 12 h
  by_cases h3 : imm < 2 ^ 11
  · have : ¬ (imm / 2 ^ 11 % 2 = 1) := by omega
    rw [if_neg (by rw [h1]; exact this), if_pos h3]
  · have : imm / 2 ^ 11 % 2 = 1 := by omega
    rw [if_pos (by rw [h1]; exact this), if_neg h3, h2]

theorem lor_eq_add_of_mul (i k b : Nat) (h : b < 2 ^ i) : (2 ^ i * k) ||| b = 2 ^ i * k + b :=
  (Nat.mul_add_lt_is_or h k).symm

/-- The branch immediate the handler builds, sign-extended and doubled, is the
sign-extended 13-bit offset of the encoding table. -/
theorem sb_imm_eq (w : Nat) :
    int_to_uint32 (to_int32 ((sign_extend_imm ((field w 31 1 <<< 11) ||| (field w 7 1 <<< 10) |||
      (field w 25 6 <<< 4) ||| field w 8 4) <<< 1) % 2 ^ 32)) = sext13 (sb_offset w) := by
  unfold sext13 sb_offset
  have ha : field w 31 1 < 2 ^ 1 := Nat.mod_lt _ (by decide)
  have hb : field w 7 1 < 2 ^ 1 := Nat.mod_lt _ (by decide)
  have hc : field w 25 6 < 2 ^ 6 := Nat.mod_lt _ (by decide)
  have hd : field w 8 4 < 2 ^ 4 := Nat.mod_lt _ (by decide)
  generalize field w 31 1 = a at *
  generalize field w 7 1 = b at *
  generalize field w 25 6 = c at *
  generalize field w 8 4 = d at *
  have e1 : (a <<< 11) ||| (b <<< 10) = 2 ^ 10 * (2 * a + b) := by
    have := lor_eq_add_of_mul 11 a (b <<< 10) (by rw [Nat.shiftLeft_eq]; omega)
    rw [Nat.shiftLeft_eq, Nat.mul_comm a, this, Nat.shiftLeft_eq]; omega
  have e2 : (2 ^ 10 * (2 * a + b)) ||| (c <<< 4) = 2 ^ 4 * (128 * a + 64 * b + c) := by
    rw [lor_eq_add_of_mul 10 (2 * a + b) (c <<< 4) (by rw [Nat.shiftLeft_eq]; omega),
      Nat.shiftLeft_eq]; omega
  have e3 : (2 ^ 4 * (128 * a + 64 * b + c)) ||| d = 2048 * a + 1024 * b + 16 * c + d := by
    rw [lor_eq_add_of_mul 4 _ d hd]; omega
  rw [e1, e2, e3, int_to_uint32_to_int32, Nat.mod_mod,
    sign_extend_imm_eq _ (by omega), Nat.shiftLeft_eq]
  split <;> split <;> omega

theorem and_0xFF (x : Nat) : x &&& 0xFF = x % 2 ^ 8 :=
  Nat.and_pow_two_sub_one_eq_mod x 8

/-- Four bytes combined little-endian as the loads do it are their sum by
place value. -/
theorem combine_word (b0 b1 b2 b3 : Nat) (h0 : b0 < 2 ^ 8) (h1 : b1 < 2 ^ 8) (h2 : b2 < 2 ^ 8)
    (h3 : b3 < 2 ^ 8) :
    (b0 ||| (b1 <<< 8) ||| (b2 <<< 16) ||| (b3 <<< 24)) % 2 ^ 32
      = b0 + b1 * 2 ^ 8 + b2 * 2 ^ 16 + b3 * 2 ^ 24 := by
  rw [lor_shiftLeft b0 b1 8 h0, lor_shiftLeft _ b2 16 (by omega),
    lor_shiftLeft _ b3 24 (by omega)]
  omega

/-- Two bytes combined little-endian as the loads do it. -/
theorem combine_half (b0 b1 : Nat) (h0 : b0 < 2 ^ 8) (h1 : b1 < 2 ^ 8) :
    (b0 ||| (b1 <<< 8)) % 2 ^ 16 = b0 + b1 * 2 ^ 8 := by
  rw [lor_shiftLeft b0 b1 8 h0]
  omega

theorem is_valid_address_low (head : List heap_node) (a : Nat) (h : a ≤ 0x8ff) :
    is_valid_address head a = true := by
  unfold is_valid_address
  rw [if_pos h]

/-- Filling bits 20 .. 31 of a value below 2^21 whose bit 20 is set. -/
theorem or_fill_bit20 (x : Nat) (h1 : 0x100000 ≤ x) (h2 : x < 0x200000) :
    x ||| 0xFFF00000 = x + 0xFFE00000 := by
  have hx : x = 0x100000 ||| (x - 0x100000) := by
    have := lor_eq_add_of_mul 20 1 (x - 0x100000) (by omega)
    simp only [Nat.reducePow, Nat.reduceMul] at this
    omega
  have hx20 : x ||| 0x100000 = x := by
    rw [hx, Nat.or_comm 0x100000 (x - 0x100000), Nat.or_assoc, Nat.or_self]
  have hm : (0xFFF00000 : Nat) = 0x100000 ||| 0xFFE00000 := by decide
  have hs := lor_eq_add_of_mul 21 0x7FF x (by omega)
  simp only [Nat.reducePow, Nat.reduceMul] at hs
  rw [hm, ← Nat.or_assoc, hx20, Nat.or_comm, hs]
  omega

/-- The jump immediate the handler builds. When instruction bits 31 and 19
agree, the word added to PC is the sign-extended 21-bit offset of the encoding
table. -/
theorem uj_imm_eq (w : Nat) (h : field w 31 1 = field w 19 1) :
    int_to_uint32 (to_int32
      (if (((field w 31 1 <<< 19) ||| (field w 12 8 <<< 11) ||| (field w 20 1 <<< 10) |||
            field w 21 10) <<< 1) % 2 ^ 32 &&& 0x80000 ≠ 0 then
        (((field w 31 1 <<< 19) ||| (field w 12 8 <<< 11) ||| (field w 20 1 <<< 10) |||
            field w 21 10) <<< 1) % 2 ^ 32 ||| 0xFFF00000
      else
        (((field w 31 1 <<< 19) ||| (field w 12 8 <<< 11) ||| (field w 20 1 <<< 10) |||
            field w 21 10) <<< 1) % 2 ^ 32)) = sext21 (jal_offset w) := by
  unfold sext21 jal_offset
  have h19 : field w 19 1 = field w 12 8 / 2 ^ 7 := by
    unfold field
    omega
  rw [h19] at h
  have hb : field w 12 8 < 2 ^ 8 := Nat.mod_lt _ (by decide)
  have hc : field w 20 1 < 2 ^ 1 := Nat.mod_lt _ (by decide)
  have hd : field w 21 10 < 2 ^ 10 := Nat.mod_lt _ (by decide)
  generalize field w 31 1 = a at *
  generalize field w 12 8 = b at *
  generalize field w 20 1 = c at *
  generalize field w 21 10 = d at *
  have ha : a < 2 := by omega
  have e1 : (a <<< 19) ||| (b <<< 11) = 2 ^ 11 * (256 * a + b) := by
    have := lor_eq_add_of_mul 19 a (b <<< 11) (by rw [Nat.shiftLeft_eq]; omega)
    rw [Nat.shiftLeft_eq, Nat.mul_comm a, this, Nat.shiftLeft_eq]; omega
  have e2 : (2 ^ 11 * (256 * a + b)) ||| (c <<< 10) = 2 ^ 10 * (512 * a + 2 * b + c) := by
    rw [lor_eq_add_of_mul 11 (256 * a + b) (c <<< 10) (by rw [Nat.shiftLeft_eq]; omega),
      Nat.shiftLeft_eq]; omega
  have e3 : (2 ^ 10 * (512 * a + 2 * b + c)) ||| d
      = 524288 * a + 2048 * b + 1024 * c + d := by
    rw [lor_eq_add_of_mul 10 _ d hd]; omega
  rw [e1, e2, e3, int_to_uint32_to_int32, Nat.shiftLeft_eq]
  have hlt : (524288 * a + 2048 * b + 1024 * c + d) * 2 ^ 1 % 2 ^ 32
      = 1048576 * a + 4096 * b + 2048 * c + 2 * d := by omega
  rw [hlt]
  have hbit := and_two_pow_ne_zero (1048576 * a + 4096 * b + 2048 * c + 2 * d) 19
  simp only [Nat.reducePow] at hbit
  by_cases h0 : a = 0
  · have hn : ¬ ((1048576 * a + 4096 * b + 2048 * c + 2 * d) / 524288 % 2 = 1) := by omega
    rw [if_neg (by rw [hbit]; exact hn)]
    split <;> omega
  · have hp : (1048576 * a + 4096 * b + 2048 * c + 2 * d) / 524288 % 2 = 1 := by omega
    rw [if_pos (by rw [hbit]; exact hp),
      or_fill_bit20 _ (by omega) (by omega)]
    split <;> omega

/-! ## The zero register -/

/-- C1: whenever `execute_instruct` returns (no `exit` inside the handler),
register 0 is 0 in the state it leaves, whatever the handler wrote. -/
theorem execute_instruct_zero_register (instruct : Nat) (s s' : VM)
    (h : execute_instruct instruct s = .ok s') : s'.reg_bank 0 = 0 := by
  unfold execute_instruct at h
  simp only [Except.bind] at h
  split at h
  · exact absurd h (by simp)
  · cases h
    simp [set_reg]

/-- C1 at `addi r0, r0, 5` (word `0x00500013`) from the startup state: the
handler writes 5 to register 0 and `execute_instruct` returns with
register 0 equal to 0. -/
theorem execute_instruct_zero_register_witness :
    result_reg (handle_I1_instruct 0x00500013 vm_zero) 0 = some 5 ∧
    execute_instruct 0x00500013 vm_zero
      = .ok (set_reg (increment_pc (set_reg vm_zero 0 5)) 0 0) ∧
    (set_reg (increment_pc (set_reg vm_zero 0 5)) 0 0).reg_bank 0 = 0 :=
  ⟨by rfl, by rfl,
    execute_instruct_zero_register 0x00500013 vm_zero _ (by rfl)⟩

/-! ## Jumps and branches -/

/-- C2: `jal` tests bit 19 of the shifted immediate where the sign bit is bit
20. The word `0x8000006F` (of the immediate bits only instruction bit 31 set:
offset `0x100000`, that is -1048576) at PC 0 jumps forward to `0x00100000`,
not to `0xFFF00000`; the word `0x0008006F` (only instruction bit 19 set: offset
`0x80000`) jumps back to `0xFFF80000`, not to `0x00080000`. `rd` is register 0
in both words and ends as 0. -/
theorem handle_UJ_instruct_sign_bit :
    result_pc (execute_instruct 0x8000006F vm_zero) = some 0x00100000 ∧
    (vm_zero.pc + sext21 (jal_offset 0x8000006F)) % 2 ^ 32 = 0xFFF00000 ∧
    result_pc (execute_instruct 0x0008006F vm_zero) = some 0xFFF80000 ∧
    (vm_zero.pc + sext21 (jal_offset 0x0008006F)) % 2 ^ 32 = 0x00080000 ∧
    result_reg (execute_instruct 0x8000006F vm_zero) 0 = some 0 := by
  refine ⟨by rfl, by rfl, by rfl, by rfl, by rfl⟩

/-- Where `jal` does sign-extend from bit 20: when instruction bits 31 and 19
are equal (offsets from -2^19 to 2^19 - 2), the new PC is
PC + sext21(offset) mod 2^32 and `rd` receives PC + 4. -/
theorem handle_UJ_instruct_small_offset (w : Nat) (s : VM) (h : field w 31 1 = field w 19 1) :
    handle_UJ_instruct w s = .ok
      { set_reg s (field w 7 5) (s.pc + 4) with
        pc := (s.pc + sext21 (jal_offset w)) % 2 ^ 32 } := by
  unfold handle_UJ_instruct
  simp only [uj_imm_eq w h]
  rfl

/-- Where `jalr` does use the old value of `rs1`: when rd and rs1 differ, the
new PC is R[rs1] + sext12(imm) mod 2^32, with no extra 4 and no alignment, and
`rd` receives PC + 4. -/
theorem handle_I3_instruct_rd_ne_rs1 (w : Nat) (s : VM) (h0 : field w 12 3 = 0)
    (h : field w 7 5 ≠ field w 15 5) :
    handle_I3_instruct w s = .ok
      { set_reg s (field w 7 5) (s.pc + 4) with
        pc := (s.reg_bank (field w 15 5) + sext12 (field w 20 12)) % 2 ^ 32 } := by
  have hi : field w 20 12 < 2 ^ 12 := Nat.mod_lt _ (by decide)
  have hr : (set_reg s (field w 7 5) (s.pc + INSTRUCT_BYTES)).reg_bank (field w 15 5)
      = s.reg_bank (field w 15 5) := by
    simp only [set_reg]
    rw [if_neg (fun e => h e.symm)]
  unfold handle_I3_instruct
  simp only [h0, hr, int_to_uint32_add, sign_extend_imm_eq _ hi]
  have e : (s.reg_bank (field w 15 5) + if field w 20 12 < 2 ^ 11 then field w 20 12
      else field w 20 12 + 0xFFFFF000) % 2 ^ 32
      = (s.reg_bank (field w 15 5) + sext12 (field w 20 12)) % 2 ^ 32 := by
    unfold sext12
    split <;> rfl
  rw [e]
  rfl

/-- C3: `jalr` writes `rd` before it reads `rs1`. With rd = rs1 = 1
(word `0x000080E7`, immediate 0), PC = 0 and register 1 holding 100, the new PC
is 4 (the link value) and not 100; register 1 receives 4. With a different
`rd` (word `0x00008167`, rd = 2) the new PC is 100. With rd = rs1 = 0 (word
`0x01000067`, immediate 16) at PC = 8 the new PC is 8 + 4 + 16 = 28 and not
0 + 16 = 16. -/
theorem handle_I3_instruct_rd_eq_rs1 :
    result_pc (execute_instruct 0x000080E7 (vm_with 0 1 100)) = some 4 ∧
    result_reg (execute_instruct 0x000080E7 (vm_with 0 1 100)) 1 = some 4 ∧
    ((vm_with 0 1 100).reg_bank 1 + sext12 (field 0x000080E7 20 12)) % 2 ^ 32 = 100 ∧
    result_pc (execute_instruct 0x00008167 (vm_with 0 1 100)) = some 100 ∧
    result_pc (execute_instruct 0x01000067 (vm_with 8 0 0)) = some 28 ∧
    ((vm_with 8 0 0).reg_bank 0 + sext12 (field 0x01000067 20 12)) % 2 ^ 32 = 16 := by
  refine ⟨by rfl, by rfl, by rfl, by rfl, by rfl, by rfl⟩

/-- C4: for an SB word with a recognised `func3`, `handle_SB_instruct` returns;
when the branch condition holds the only change is PC := PC + sext13(offset)
mod 2^32, the offset being instruction bits 31 | 7 | 30:25 | 11:8 with a low
zero bit; when it does not hold the only change is PC := PC + 4; and with
instruction bit 31 set the offset added is one of the negative values
-4096 .. -2 (as a 32-bit word), so a taken branch goes backwards. -/
theorem handle_SB_instruct_spec (w : Nat) (s : VM)
    (hf : field w 12 3 ∈ [0b000, 0b001, 0b100, 0b101, 0b110, 0b111]) :
    (sb_condition (field w 12 3) (s.reg_bank (field w 15 5)) (s.reg_bank (field w 20 5)) →
      handle_SB_instruct w s = .ok { s with pc := (s.pc + sext13 (sb_offset w)) % 2 ^ 32 }) ∧
    (¬ sb_condition (field w 12 3) (s.reg_bank (field w 15 5)) (s.reg_bank (field w 20 5)) →
      handle_SB_instruct w s = .ok { s with pc := (s.pc + 4) % 2 ^ 32 }) ∧
    (field w 31 1 = 1 →
      2 ^ 32 - 2 ^ 12 ≤ sext13 (sb_offset w) ∧ sext13 (sb_offset w) < 2 ^ 32) := by
  have himm := sb_imm_eq w
  simp only [List.mem_cons, List.mem_singleton, List.not_mem_nil, or_false] at hf
  refine ⟨?_, ?_, ?_⟩
  · intro hc
    unfold handle_SB_instruct
    simp only [himm]
    unfold sb_condition at hc
    rcases hf with h | h | h | h | h | h <;>
      simp only [h] at hc ⊢ <;> simp at hc <;> simp [Except.bind, hc]
  · intro hc
    unfold handle_SB_instruct
    simp only [himm]
    unfold sb_condition at hc
    rcases hf with h | h | h | h | h | h <;>
      simp only [h] at hc ⊢ <;> simp at hc <;> simp [Except.bind, hc, increment_pc]
  · intro h31
    have hb : field w 7 1 < 2 ^ 1 := Nat.mod_lt _ (by decide)
    have hc : field w 25 6 < 2 ^ 6 := Nat.mod_lt _ (by decide)
    have hd : field w 8 4 < 2 ^ 4 := Nat.mod_lt _ (by decide)
    unfold sext13 sb_offset
    rw [h31]
    split <;> omega

/-- C4 at the words of the claim: `beq r0, r0` with offset field 8
(`0x00000863`) at PC 0 sets PC to 16; the same word with `bne` (`0x00001863`)
is not taken and sets PC to 4; `beq r0, r0` with instruction bit 31 set
(`0xFE000EE3`, offset -4) at PC 8 sets PC to 4. `execute_instruct` gives the
same program counters. -/
theorem handle_SB_instruct_spec_witness :
    handle_SB_instruct 0x00000863 vm_zero = .ok { vm_zero with pc := 16 } ∧
    handle_SB_instruct 0x00001863 vm_zero = .ok { vm_zero with pc := 4 } ∧
    handle_SB_instruct 0xFE000EE3 (vm_with 8 0 0) = .ok { vm_with 8 0 0 with pc := 4 } ∧
    field 0xFE000EE3 31 1 = 1 ∧
    result_pc (execute_instruct 0x00000863 vm_zero) = some 16 ∧
    result_pc (execute_instruct 0x00001863 vm_zero) = some 4 ∧
    result_pc (execute_instruct 0xFE000EE3 (vm_with 8 0 0)) = some 4 :=
  ⟨(handle_SB_instruct_spec 0x00000863 vm_zero (by decide)).1 (Or.inl ⟨rfl, rfl⟩),
   (handle_SB_instruct_spec 0x00001863 vm_zero (by decide)).2.1 (by
      unfold sb_condition; decide),
   (handle_SB_instruct_spec 0xFE000EE3 (vm_with 8 0 0) (by decide)).1 (Or.inl ⟨rfl, rfl⟩),
   by decide, by rfl, by rfl, by rfl⟩

/-! ## Data memory -/

/-- What `store_word` does in the DATA region: four byte assignments. -/
theorem store_word_data (s : VM) (instruct A V : Nat) (hA : DATA_MEM_START ≤ A)
    (hA2 : A ≤ 0x07FC) :
    store_word A V s instruct = .ok
      (write_data (write_data (write_data (write_data s (A - DATA_MEM_START) (V &&& 0xFF))
        (A + 1 - DATA_MEM_START) ((V >>> 8) &&& 0xFF))
        (A + 2 - DATA_MEM_START) ((V >>> 16) &&& 0xFF))
        (A + 3 - DATA_MEM_START) ((V >>> 24) &&& 0xFF)) := by
  have c1 : DATA_MEM_START = 0x400 := rfl
  have c2 : DATA_MEM_END = 0x7ff := rfl
  have v0 := is_valid_address_low s.head A (by omega)
  have v1 := is_valid_address_low s.head ((A + 1) % 2 ^ 32) (by omega)
  have v2 := is_valid_address_low s.head ((A + 2) % 2 ^ 32) (by omega)
  have v3 := is_valid_address_low s.head ((A + 3) % 2 ^ 32) (by omega)
  have hr : A ≥ DATA_MEM_START ∧ A ≤ DATA_MEM_END - 3 := ⟨hA, by omega⟩
  simp only [store_word, v0, v1, v2, v3, hr]
  simp

/-- What `store_half_word` does in the DATA region: two byte assignments. -/
theorem store_half_word_data (s : VM) (instruct A V : Nat) (hA : DATA_MEM_START ≤ A)
    (hA2 : A ≤ 0x07FE) :
    store_half_word A V s instruct = .ok
      (write_data (write_data s (A - DATA_MEM_START) (V &&& 0xFF))
        (A + 1 - DATA_MEM_START) ((V >>> 8) &&& 0xFF)) := by
  have c1 : DATA_MEM_START = 0x400 := rfl
  have c2 : DATA_MEM_END = 0x7ff := rfl
  have v0 := is_valid_address_low s.head A (by omega)
  have v1 := is_valid_address_low s.head ((A + 1) % 2 ^ 32) (by omega)
  have hr : A ≥ DATA_MEM_START ∧ A < DATA_MEM_END := ⟨hA, by omega⟩
  simp only [store_half_word, v0, v1, hr]
  simp

/-- What `store_byte` does in the DATA region: one byte assignment. -/
theorem store_byte_data (s : VM) (instruct A V : Nat) (hA : DATA_MEM_START ≤ A)
    (hA2 : A ≤ 0x07FF) :
    store_byte A V s instruct = .ok (write_data s (A - DATA_MEM_START) V) := by
  have c1 : DATA_MEM_START = 0x400 := rfl
  have c2 : DATA_MEM_END = 0x7ff := rfl
  have v0 := is_valid_address_low s.head A (by omega)
  have hr : A ≥ DATA_MEM_START ∧ A ≤ DATA_MEM_END := ⟨hA, by omega⟩
  simp only [store_byte, v0, hr]
  simp

/-- What `load_byte` returns in the DATA region. -/
theorem load_byte_data (s : VM) (instruct A : Nat) (hA : DATA_MEM_START ≤ A)
    (hA2 : A ≤ 0x07FF) :
    load_byte A s instruct = .ok (s.data_mem (A - DATA_MEM_START) % 2 ^ 8, s) := by
  have c1 : DATA_MEM_START = 0x400 := rfl
  have c2 : DATA_MEM_END = 0x7ff := rfl
  have v0 := is_valid_address_low s.head A (by omega)
  have hr : A ≥ DATA_MEM_START ∧ A ≤ DATA_MEM_END := ⟨hA, by omega⟩
  simp only [load_byte, v0, hr]
  simp

/-- What `load_half_word` returns in the DATA region. -/
theorem load_half_word_data (s : VM) (instruct A : Nat) (hA : DATA_MEM_START ≤ A)
    (hA2 : A ≤ 0x07FE) :
    load_half_word A s instruct = .ok
      (s.data_mem (A - DATA_MEM_START) % 2 ^ 8
        + s.data_mem (A - DATA_MEM_START + 1) % 2 ^ 8 * 2 ^ 8, s) := by
  have c1 : DATA_MEM_START = 0x400 := rfl
  have c2 : DATA_MEM_END = 0x7ff := rfl
  have e1 : A + 1 - DATA_MEM_START = A - DATA_MEM_START + 1 := by omega
  have v0 := is_valid_address_low s.head A (by omega)
  have v1 := is_valid_address_low s.head ((A + 1) % 2 ^ 32) (by omega)
  have hr : A ≥ DATA_MEM_START ∧ A < DATA_MEM_END := ⟨hA, by omega⟩
  have hc := combine_half (s.data_mem (A - DATA_MEM_START) % 2 ^ 8)
    (s.data_mem (A - DATA_MEM_START + 1) % 2 ^ 8) (Nat.mod_lt _ (by decide))
    (Nat.mod_lt _ (by decide))
  simp only [load_half_word, v0, v1, hr, e1, hc]
  simp

/-- What `load_word` returns in the DATA region. -/
theorem load_word_data (s : VM) (instruct A : Nat) (hA : DATA_MEM_START ≤ A)
    (hA2 : A ≤ 0x07FC) :
    load_word A s instruct = .ok
      (s.data_mem (A - DATA_MEM_START) % 2 ^ 8
        + s.data_mem (A - DATA_MEM_START + 1) % 2 ^ 8 * 2 ^ 8
        + s.data_mem (A - DATA_MEM_START + 2) % 2 ^ 8 * 2 ^ 16
        + s.data_mem (A - DATA_MEM_START + 3) % 2 ^ 8 * 2 ^ 24, s) := by
  have c1 : DATA_MEM_START = 0x400 := rfl
  have c2 : DATA_MEM_END = 0x7ff := rfl
  have e1 : A + 1 - DATA_MEM_START = A - DATA_MEM_START + 1 := by omega
  have e2 : A + 2 - DATA_MEM_START = A - DATA_MEM_START + 2 := by omega
  have e3 : A + 3 - DATA_MEM_START = A - DATA_MEM_START + 3 := by omega
  have v0 := is_valid_address_low s.head A (by omega)
  have v1 := is_valid_address_low s.head ((A + 1) % 2 ^ 32) (by omega)
  have v2 := is_valid_address_low s.head ((A + 2) % 2 ^ 32) (by omega)
  have v3 := is_valid_address_low s.head ((A + 3) % 2 ^ 32) (by omega)
  have hr : A ≥ DATA_MEM_START ∧ A ≤ DATA_MEM_END - 3 := ⟨hA, by omega⟩
  have hc := combine_word (s.data_mem (A - DATA_MEM_START) % 2 ^ 8)
    (s.data_mem (A - DATA_MEM_START + 1) % 2 ^ 8) (s.data_mem (A - DATA_MEM_START + 2) % 2 ^ 8)
    (s.data_mem (A - DATA_MEM_START + 3) % 2 ^ 8) (Nat.mod_lt _ (by decide))
    (Nat.mod_lt _ (by decide)) (Nat.mod_lt _ (by decide)) (Nat.mod_lt _ (by decide))
  simp only [load_word, v0, v1, v2, v3, hr, e1, e2, e3, hc]
  simp

/-- C5: in the DATA region a store followed by a load of the same width at the
same address returns the stored value: words for A in [0x0400, 0x07FC],
half-words for A in [0x0400, 0x07FE], bytes for A in [0x0400, 0x07FF]. Both
calls return, and the load leaves the state as the store left it. -/
theorem store_load_round_trip (s : VM) (instruct A V : Nat) (hA : DATA_MEM_START ≤ A) :
    (A ≤ 0x07FC → V < 2 ^ 32 →
      ∃ s', store_word A V s instruct = .ok s' ∧ load_word A s' instruct = .ok (V, s')) ∧
    (A ≤ 0x07FE → V < 2 ^ 16 →
      ∃ s', store_half_word A V s instruct = .ok s' ∧
        load_half_word A s' instruct = .ok (V, s')) ∧
    (A ≤ 0x07FF → V < 2 ^ 8 →
      ∃ s', store_byte A V s instruct = .ok s' ∧ load_byte A s' instruct = .ok (V, s')) := by
  have c1 : DATA_MEM_START = 0x400 := rfl
  have c2 : DATA_MEM_END = 0x7ff := rfl
  have e1 : A + 1 - DATA_MEM_START = A - DATA_MEM_START + 1 := by omega
  have e2 : A + 2 - DATA_MEM_START = A - DATA_MEM_START + 2 := by omega
  have e3 : A + 3 - DATA_MEM_START = A - DATA_MEM_START + 3 := by omega
  refine ⟨?_, ?_, ?_⟩
  · intro hA2 hV
    refine ⟨_, store_word_data s instruct A V hA hA2, ?_⟩
    rw [load_word_data _ instruct A hA hA2]
    simp only [write_data, e1, e2, e3, and_0xFF, Nat.shiftRight_eq_div_pow, Nat.mod_mod]
    simp
    omega
  · intro hA2 hV
    refine ⟨_, store_half_word_data s instruct A V hA hA2, ?_⟩
    rw [load_half_word_data _ instruct A hA hA2]
    simp only [write_data, e1, and_0xFF, Nat.shiftRight_eq_div_pow, Nat.mod_mod]
    simp
    omega
  · intro hA2 hV
    refine ⟨_, store_byte_data s instruct A V hA hA2, ?_⟩
    rw [load_byte_data _ instruct A hA hA2]
    simp only [write_data]
    simp
    omega

/-- C5 at concrete accesses on the startup state: a word at 0x0400 and at the
unaligned 0x0401, a half-word at 0x07FE and a byte at 0x07FF. -/
theorem store_load_round_trip_witness :
    (∃ s', store_word 0x0400 0xDEADBEEF vm_zero 0 = .ok s' ∧
      load_word 0x0400 s' 0 = .ok (0xDEADBEEF, s')) ∧
    (∃ s', store_word 0x0401 0xDEADBEEF vm_zero 0 = .ok s' ∧
      load_word 0x0401 s' 0 = .ok (0xDEADBEEF, s')) ∧
    (∃ s', store_half_word 0x07FE 0xBEEF vm_zero 0 = .ok s' ∧
      load_half_word 0x07FE s' 0 = .ok (0xBEEF, s')) ∧
    (∃ s', store_byte 0x07FF 0xEF vm_zero 0 = .ok s' ∧
      load_byte 0x07FF s' 0 = .ok (0xEF, s')) :=
  ⟨(store_load_round_trip vm_zero 0 0x0400 0xDEADBEEF (by decide)).1 (by decide) (by decide),
   (store_load_round_trip vm_zero 0 0x0401 0xDEADBEEF (by decide)).1 (by decide) (by decide),
   (store_load_round_trip vm_zero 0 0x07FE 0xBEEF (by decide)).2.1 (by decide) (by decide),
   (store_load_round_trip vm_zero 0 0x07FF 0xEF (by decide)).2.2 (by decide) (by decide)⟩

/-- C6: `store_word` is little-endian in the DATA region. After
`store_word(A, V)` with A in [0x0400, 0x07FC], `load_byte(A + i)` returns
`(V >> 8*i) & 0xFF` for i = 0, 1, 2, 3, every other DATA byte holds what it
held before (and `load_byte` returns the same value there), and nothing but
`data_mem` differs from the state before the store. -/
theorem store_word_little_endian (s : VM) (instruct A V : Nat) (hA : DATA_MEM_START ≤ A)
    (hA2 : A ≤ 0x07FC) :
    ∃ s', store_word A V s instruct = .ok s' ∧
      (∀ i, i < 4 → load_byte (A + i) s' instruct = .ok ((V >>> (8 * i)) &&& 0xFF, s')) ∧
      (∀ B, DATA_MEM_START ≤ B → B ≤ DATA_MEM_END → (B < A ∨ A + 3 < B) →
        s'.data_mem (B - DATA_MEM_START) = s.data_mem (B - DATA_MEM_START) ∧
        (load_byte B s' instruct).map Prod.fst = (load_byte B s instruct).map Prod.fst) ∧
      s' = { s with data_mem := s'.data_mem } := by
  have c1 : DATA_MEM_START = 0x400 := rfl
  have c2 : DATA_MEM_END = 0x7ff := rfl
  refine ⟨_, store_word_data s instruct A V hA hA2, ?_, ?_, rfl⟩
  · intro i hi
    rw [load_byte_data _ instruct (A + i) (by omega) (by omega)]
    have e1 : A + 1 - DATA_MEM_START = A - DATA_MEM_START + 1 := by omega
    have e2 : A + 2 - DATA_MEM_START = A - DATA_MEM_START + 2 := by omega
    have e3 : A + 3 - DATA_MEM_START = A - DATA_MEM_START + 3 := by omega
    have e4 : A + i - DATA_MEM_START = A - DATA_MEM_START + i := by omega
    simp only [write_data, e1, e2, e3, e4, and_0xFF, Nat.mod_mod]
    have hi4 : i = 0 ∨ i = 1 ∨ i = 2 ∨ i = 3 := by omega
    rcases hi4 with h | h | h | h <;> subst h <;> simp
  · intro B hB hB2 hne
    have hd : (write_data (write_data (write_data (write_data s (A - DATA_MEM_START) (V &&& 0xFF))
        (A + 1 - DATA_MEM_START) ((V >>> 8) &&& 0xFF))
        (A + 2 - DATA_MEM_START) ((V >>> 16) &&& 0xFF))
        (A + 3 - DATA_MEM_START) ((V >>> 24) &&& 0xFF)).data_mem (B - DATA_MEM_START)
        = s.data_mem (B - DATA_MEM_START) := by
      simp only [write_data]
      rw [if_neg (by omega), if_neg (by omega), if_neg (by omega), if_neg (by omega)]
    refine ⟨hd, ?_⟩
    rw [load_byte_data _ instruct B hB (by omega), load_byte_data _ instruct B hB (by omega), hd]
    rfl

/-- C6 at V = 0x11223344 stored at 0x0400 on the startup state: the bytes at
0x0400 .. 0x0403 read 0x44, 0x33, 0x22, 0x11 and the byte at 0x0404 still
reads 0. -/
theorem store_word_little_endian_witness :
    ∃ s', store_word 0x0400 0x11223344 vm_zero 0 = .ok s' ∧
      load_byte 0x0400 s' 0 = .ok (0x44, s') ∧ load_byte 0x0401 s' 0 = .ok (0x33, s') ∧
      load_byte 0x0402 s' 0 = .ok (0x22, s') ∧ load_byte 0x0403 s' 0 = .ok (0x11, s') ∧
      s'.data_mem (0x0404 - DATA_MEM_START) = 0 := by
  obtain ⟨s', h1, h2, h3, _⟩ :=
    store_word_little_endian vm_zero 0 0x0400 0x11223344 (by decide) (by decide)
  exact ⟨s', h1, h2 0 (by decide), h2 1 (by decide), h2 2 (by decide), h2 3 (by decide),
    (h3 0x0404 (by decide) (by decide) (Or.inr (by decide))).1⟩

/-- What `load_half_word` returns inside the INST region (A + 1 ≤ 0x03FF). -/
theorem load_half_word_inst (s : VM) (instruct A : Nat) (hA : A ≤ 0x03FE) :
    load_half_word A s instruct = .ok
      (s.inst_mem A % 2 ^ 8 + s.inst_mem (A + 1) % 2 ^ 8 * 2 ^ 8, s) := by
  have v0 := is_valid_address_low s.head A (by omega)
  have v1 := is_valid_address_low s.head ((A + 1) % 2 ^ 32) (by omega)
  have hr : ¬ (A ≥ DATA_MEM_START ∧ A < DATA_MEM_END) := by
    have c1 : DATA_MEM_START = 0x400 := rfl
    omega
  have hr2 : A < INST_MEM_END := by
    have c1 : INST_MEM_END = 0x3ff := rfl
    omega
  have hc := combine_half (s.inst_mem A % 2 ^ 8) (s.inst_mem (A + 1) % 2 ^ 8)
    (Nat.mod_lt _ (by decide)) (Nat.mod_lt _ (by decide))
  simp only [load_half_word, v0, v1, hr, hr2, hc]
  simp

/-- What `load_word` returns inside the INST region (A + 3 ≤ 0x03FF). -/
theorem load_word_inst (s : VM) (instruct A : Nat) (hA : A ≤ 0x03FC) :
    load_word A s instruct = .ok
      (s.inst_mem A % 2 ^ 8 + s.inst_mem (A + 1) % 2 ^ 8 * 2 ^ 8
        + s.inst_mem (A + 2) % 2 ^ 8 * 2 ^ 16 + s.inst_mem (A + 3) % 2 ^ 8 * 2 ^ 24, s) := by
  have v0 := is_valid_address_low s.head A (by omega)
  have v1 := is_valid_address_low s.head ((A + 1) % 2 ^ 32) (by omega)
  have v2 := is_valid_address_low s.head ((A + 2) % 2 ^ 32) (by omega)
  have v3 := is_valid_address_low s.head ((A + 3) % 2 ^ 32) (by omega)
  have hr : ¬ (A ≥ DATA_MEM_START ∧ A ≤ DATA_MEM_END - 3) := by
    have c1 : DATA_MEM_START = 0x400 := rfl
    omega
  have hr2 : A ≤ INST_MEM_END - 3 := by
    have c1 : INST_MEM_END = 0x3ff := rfl
    omega
  have hc := combine_word (s.inst_mem A % 2 ^ 8) (s.inst_mem (A + 1) % 2 ^ 8)
    (s.inst_mem (A + 2) % 2 ^ 8) (s.inst_mem (A + 3) % 2 ^ 8) (Nat.mod_lt _ (by decide))
    (Nat.mod_lt _ (by decide)) (Nat.mod_lt _ (by decide)) (Nat.mod_lt _ (by decide))
  simp only [load_word, v0, v1, v2, v3, hr, hr2, hc]
  simp

/-- C7: a half-word load at 0x03FF and a word load at 0x03FD, 0x03FE or 0x03FF
touch only INST and DATA bytes, pass the validity test, match neither the DATA
nor the INST nor the VR branch and fall into the heap branch, which indexes
`heap_banks` at `address - HEAP_START` modulo 2^32 (0xFFFF4CFF for 0x03FF),
outside the 8192-byte array: in every state the access is undefined behaviour
instead of returning the bytes at A, A+1, ... combined little-endian. The
half-word load at 0x07FE, which ends on the last DATA byte, does return them.
The instruction `lh r1, 0x3FF(r0)` (word `0x3FF01083`) reaches the first case
from the startup state. -/
theorem load_across_inst_data_undefined (s : VM) (instruct : Nat) :
    load_half_word 0x03FF s instruct = .error .undefined_behaviour ∧
    load_word 0x03FD s instruct = .error .undefined_behaviour ∧
    load_word 0x03FE s instruct = .error .undefined_behaviour ∧
    load_word 0x03FF s instruct = .error .undefined_behaviour ∧
    sub32 0x03FF HEAP_START = 0xFFFF4CFF ∧
    load_half_word 0x07FE s instruct
      = .ok (s.data_mem 0x3FE % 2 ^ 8 + s.data_mem 0x3FF % 2 ^ 8 * 2 ^ 8, s) ∧
    handle_I2_instruct 0x3FF01083 vm_zero = .error .undefined_behaviour := by
  refine ⟨?_, ?_, ?_, ?_, by rfl, load_half_word_data s instruct 0x07FE (by decide) (by decide),
    by rfl⟩
  · have v0 := is_valid_address_low s.head 0x03FF (by decide)
    have v1 := is_valid_address_low s.head ((0x03FF + 1) % 2 ^ 32) (by decide)
    simp only [load_half_word, v0, v1]
    simp [array_read, sub32, Except.bind, DATA_MEM_START, DATA_MEM_END, INST_MEM_END,
      VR_START, VR_END, HEAP_START, HEAP_BANK_NUM, BANK_BLOCK_SIZE]
  · have v0 := is_valid_address_low s.head 0x03FD (by decide)
    have v1 := is_valid_address_low s.head ((0x03FD + 1) % 2 ^ 32) (by decide)
    have v2 := is_valid_address_low s.head ((0x03FD + 2) % 2 ^ 32) (by decide)
    have v3 := is_valid_address_low s.head ((0x03FD + 3) % 2 ^ 32) (by decide)
    simp only [load_word, v0, v1, v2, v3]
    simp [array_read, sub32, Except.bind, DATA_MEM_START, DATA_MEM_END, INST_MEM_END,
      VR_START, VR_END, HEAP_START, HEAP_BANK_NUM, BANK_BLOCK_SIZE]
  · have v0 := is_valid_address_low s.head 0x03FE (by decide)
    have v1 := is_valid_address_low s.head ((0x03FE + 1) % 2 ^ 32) (by decide)
    have v2 := is_valid_address_low s.head ((0x03FE + 2) % 2 ^ 32) (by decide)
    have v3 := is_valid_address_low s.head ((0x03FE + 3) % 2 ^ 32) (by decide)
    simp only [load_word, v0, v1, v2, v3]
    simp [array_read, sub32, Except.bind, DATA_MEM_START, DATA_MEM_END, INST_MEM_END,
      VR_START, VR_END, HEAP_START, HEAP_BANK_NUM, BANK_BLOCK_SIZE]
  · have v0 := is_valid_address_low s.head 0x03FF (by decide)
    have v1 := is_valid_address_low s.head ((0x03FF + 1) % 2 ^ 32) (by decide)
    have v2 := is_valid_address_low s.head ((0x03FF + 2) % 2 ^ 32) (by decide)
    have v3 := is_valid_address_low s.head ((0x03FF + 3) % 2 ^ 32) (by decide)
    simp only [load_word, v0, v1, v2, v3]
    simp [array_read, sub32, Except.bind, DATA_MEM_START, DATA_MEM_END, INST_MEM_END,
      VR_START, VR_END, HEAP_START, HEAP_BANK_NUM, BANK_BLOCK_SIZE]

/-! ## Address validity -/

theorem is_valid_address_loop_iff (A : Nat) (l : List heap_node) :
    is_valid_address_loop A l = true ↔
      ∃ n ∈ l, 0 < n.allocated_size ∧ n.address ≤ A ∧
        A < (n.address + n.allocated_size) % 2 ^ 32 := by
  induction l with
  | nil => simp [is_valid_address_loop]
  | cons c rest ih =>
    unfold is_valid_address_loop
    by_cases hc : c.allocated_size > 0 ∧ A ≥ c.address ∧
        A < (c.address + c.allocated_size) % 2 ^ 32
    · rw [if_pos hc]
      simp only [true_iff]
      exact ⟨c, List.mem_cons_self _ _, hc⟩
    · rw [if_neg hc, ih]
      constructor
      · rintro ⟨n, hn, h⟩
        exact ⟨n, List.mem_cons_of_mem _ hn, h⟩
      · rintro ⟨n, hn, h⟩
        rcases List.mem_cons.mp hn with rfl | hn
        · exact absurd h hc
        · exact ⟨n, hn, h⟩

/-- C8: above 0x08FF an address is valid exactly when it lies in
[address, address + allocated_size) of some node with allocated_size > 0, the
end of the range being the 32-bit sum the code computes (the plain sum for every
list whose ranges stay below 2^32). Hence a load or store of any width that
touches an address above 0x08FF outside every such range stops with
IllegalOperation, in the state it was called in. -/
theorem is_valid_address_heap (head : List heap_node) (A : Nat) (hA : 0x08FF < A) :
    (is_valid_address head A = true ↔
      ∃ n ∈ head, 0 < n.allocated_size ∧ n.address ≤ A ∧
        A < (n.address + n.allocated_size) % 2 ^ 32) ∧
    ((∀ n ∈ head, n.address + n.allocated_size < 2 ^ 32) →
      (is_valid_address head A = true ↔
        ∃ n ∈ head, 0 < n.allocated_size ∧ n.address ≤ A ∧
          A < n.address + n.allocated_size)) ∧
    (is_valid_address head A = false →
      ∀ (s : VM) (instruct address value k : Nat), s.head = head → address < 2 ^ 32 →
        (address + k) % 2 ^ 32 = A →
        (k < 1 → load_byte address s instruct = .error (.illegal_operation instruct s) ∧
          store_byte address value s instruct = .error (.illegal_operation instruct s)) ∧
        (k < 2 → load_half_word address s instruct = .error (.illegal_operation instruct s) ∧
          store_half_word address value s instruct = .error (.illegal_operation instruct s)) ∧
        (k < 4 → load_word address s instruct = .error (.illegal_operation instruct s) ∧
          store_word address value s instruct = .error (.illegal_operation instruct s))) := by
  have hv : is_valid_address head A = is_valid_address_loop A head := by
    unfold is_valid_address
    rw [if_neg (by
      have c : VIRTUAL_ROUTINE_END = 0x8ff := rfl
      omega)]
  refine ⟨?_, ?_, ?_⟩
  · rw [hv, is_valid_address_loop_iff]
  · intro hw
    rw [hv, is_valid_address_loop_iff]
    constructor
    · rintro ⟨n, hn, h1, h2, h3⟩
      rw [Nat.mod_eq_of_lt (hw n hn)] at h3
      exact ⟨n, hn, h1, h2, h3⟩
    · rintro ⟨n, hn, h1, h2, h3⟩
      exact ⟨n, hn, h1, h2, by rw [Nat.mod_eq_of_lt (hw n hn)]; exact h3⟩
  · intro hinv s instruct address value k hs ha hk
    subst hs
    refine ⟨?_, ?_, ?_⟩
    · intro hk1
      have e : address = A := by omega
      subst e
      have hc : ¬ (is_valid_address s.head address = true) := by simp [hinv]
      constructor
      · unfold load_byte; rw [if_pos hc]; rfl
      · unfold store_byte; rw [if_pos hc]; rfl
    · intro hk2
      have hc : ¬ (is_valid_address s.head address = true) ∨
          ¬ (is_valid_address s.head ((address + 1) % 2 ^ 32) = true) := by
        have : k = 0 ∨ k = 1 := by omega
        rcases this with h | h <;> subst h
        · left
          have e : address = A := by omega
          subst e; simp [hinv]
        · right; rw [hk]; simp [hinv]
      constructor
      · unfold load_half_word; rw [if_pos hc]; rfl
      · unfold store_half_word; rw [if_pos hc]; rfl
    · intro hk4
      have hc : ¬ (is_valid_address s.head address = true) ∨
          ¬ (is_valid_address s.head ((address + 1) % 2 ^ 32) = true) ∨
          ¬ (is_valid_address s.head ((address + 2) % 2 ^ 32) = true) ∨
          ¬ (is_valid_address s.head ((address + 3) % 2 ^ 32) = true) := by
        have : k = 0 ∨ k = 1 ∨ k = 2 ∨ k = 3 := by omega
        rcases this with h | h | h | h <;> subst h
        · left
          have e : address = A := by omega
          subst e; simp [hinv]
        · right; left; rw [hk]; simp [hinv]
        · right; right; left; rw [hk]; simp [hinv]
        · right; right; right; rw [hk]; simp [hinv]
      constructor
      · unfold load_word; rw [if_pos hc]; rfl
      · unfold store_word; rw [if_pos hc]; rfl

/-- C8 after `a = malloc(100)` on the startup heap (a = 0xB700, nodes
(0xB700, 2 banks, 100 bytes) and (0xB780, 126 banks, free)): a + 99 is valid,
a + 100 in the unused tail of the second bank is not, byte accesses there and
a half-word store at a + 99 stop with IllegalOperation, and so does a word load
at 0xB780 inside the free node. -/
theorem is_valid_address_heap_witness :
    (vm_malloc 100 vm_zero.head).1 = 0xB700 ∧
    is_valid_address vm_malloc_100.head (0xB700 + 99) = true ∧
    is_valid_address vm_malloc_100.head (0xB700 + 100) = false ∧
    load_byte (0xB700 + 100) vm_malloc_100 0 = .error (.illegal_operation 0 vm_malloc_100) ∧
    store_byte (0xB700 + 100) 7 vm_malloc_100 0 = .error (.illegal_operation 0 vm_malloc_100) ∧
    store_half_word (0xB700 + 99) 7 vm_malloc_100 0
      = .error (.illegal_operation 0 vm_malloc_100) ∧
    load_word 0xB780 vm_malloc_100 0 = .error (.illegal_operation 0 vm_malloc_100) := by
  have h := (is_valid_address_heap vm_malloc_100.head (0xB700 + 100) (by decide)).2.2 (by rfl)
    vm_malloc_100 0
  have h2 := (is_valid_address_heap vm_malloc_100.head 0xB780 (by decide)).2.2 (by rfl)
    vm_malloc_100 0
  exact ⟨by rfl, by rfl, by rfl,
    ((h (0xB700 + 100) 7 0 rfl (by decide) (by rfl)).1 (by decide)).1,
    ((h (0xB700 + 100) 7 0 rfl (by decide) (by rfl)).1 (by decide)).2,
    ((h (0xB700 + 99) 7 1 rfl (by decide) (by rfl)).2.1 (by decide)).2,
    ((h2 0xB780 7 0 rfl (by decide) (by rfl)).2.2 (by decide)).1⟩

/-! ## Heap allocator -/

theorem ceil_banks_spec (size : Nat) :
    size ≤ 64 * ceil_banks size ∧ 64 * ceil_banks size < size + 64 := by
  unfold ceil_banks
  omega

theorem heap_chain_le (l : List heap_node) : ∀ a, heap_chain a l → a ≤ HEAP_END := by
  induction l with
  | nil => intro a h; exact Nat.le_of_eq h
  | cons n rest ih =>
    intro a h
    have := ih _ h.2.2
    omega

theorem heap_chain_append (pre : List heap_node) (n : heap_node) (post : List heap_node) :
    ∀ a, heap_chain a (pre ++ n :: post) →
      a ≤ n.address ∧ 1 ≤ n.bank_blocks ∧
        n.address + n.bank_blocks * BANK_BLOCK_SIZE ≤ HEAP_END := by
  induction pre with
  | nil =>
    intro a h
    have h1 := heap_chain_le _ _ h.2.2
    have h2 := h.1
    exact ⟨by omega, h.2.1, by omega⟩
  | cons m pre ih =>
    intro a h
    have := ih _ h.2.2
    omega

theorem exists_first (P : heap_node → Prop) (l : List heap_node) (h : ∃ m ∈ l, P m) :
    ∃ pre n post, l = pre ++ n :: post ∧ P n ∧ ∀ m ∈ pre, ¬ P m := by
  induction l with
  | nil => simp at h
  | cons c rest ih =>
    by_cases hc : P c
    · exact ⟨[], c, rest, rfl, hc, by simp⟩
    · obtain ⟨m, hm, hP⟩ := h
      rcases List.mem_cons.mp hm with rfl | hm
      · exact absurd hP hc
      · obtain ⟨pre, n, post, e, hn, hpre⟩ := ih ⟨m, hm, hP⟩
        refine ⟨c :: pre, n, post, by rw [e]; rfl, hn, ?_⟩
        intro x hx
        rcases List.mem_cons.mp hx with rfl | hx
        · exact hc
        · exact hpre x hx

/-- The loop of `vm_malloc` stops at the first free node with enough banks. -/
theorem vm_malloc_loop_first_fit (size req : Nat) (n : heap_node) (post : List heap_node)
    (hfree : n.allocated_size = 0) (hfit : req ≤ n.bank_blocks) :
    ∀ pre : List heap_node,
      (∀ m ∈ pre, ¬ (m.allocated_size = 0 ∧ req ≤ m.bank_blocks)) →
      vm_malloc_loop size req (pre ++ n :: post) = some (n.address,
        pre ++ { address := n.address, bank_blocks := req, allocated_size := size } ::
          (if req < n.bank_blocks then
            { address := (n.address + req * BANK_BLOCK_SIZE) % 2 ^ 32
              bank_blocks := n.bank_blocks - req
              allocated_size := 0 } :: post
          else post)) := by
  intro pre
  induction pre with
  | nil =>
    intro _
    simp only [List.nil_append, vm_malloc_loop]
    rw [if_pos ⟨hfree, hfit⟩]
  | cons c pre ih =>
    intro hpre
    have hc : ¬ (c.allocated_size = 0 ∧ c.bank_blocks ≥ req) :=
      hpre c (List.mem_cons_self _ _)
    have ih2 := ih (fun m hm => hpre m (List.mem_cons_of_mem _ hm))
    simp only [List.cons_append, vm_malloc_loop, if_neg hc, List.append_eq, ih2]

/-- C9: on a heap list that partitions the heap region, for a size of at least
1 that some free node can hold, `vm_malloc` returns the base address of the
first free node `n` with `bank_blocks >= ceil(size / 64)`; that node gets
`bank_blocks = ceil(size / 64)` and `allocated_size = size`; when it had more
banks, a free node with the surplus banks and address `base + 64 * req` follows
it immediately; the nodes before (`pre`) and after (`post`) are unchanged. -/
theorem vm_malloc_first_fit (heap : List heap_node) (size : Nat)
    (hinv : heap_partition heap) (h1 : 1 ≤ size)
    (hex : ∃ m ∈ heap, m.allocated_size = 0 ∧ ceil_banks size ≤ m.bank_blocks) :
    ∃ pre n post, heap = pre ++ n :: post ∧
      (∀ m ∈ pre, ¬ (m.allocated_size = 0 ∧ ceil_banks size ≤ m.bank_blocks)) ∧
      n.allocated_size = 0 ∧ ceil_banks size ≤ n.bank_blocks ∧
      vm_malloc size heap = (n.address,
        pre ++ { address := n.address, bank_blocks := ceil_banks size, allocated_size := size } ::
          ((if ceil_banks size < n.bank_blocks then
            [{ address := n.address + 64 * ceil_banks size
               bank_blocks := n.bank_blocks - ceil_banks size
               allocated_size := 0 }]
          else []) ++ post)) := by
  obtain ⟨pre, n, post, e, ⟨hfree, hfit⟩, hpre⟩ :=
    exists_first (fun m => m.allocated_size = 0 ∧ ceil_banks size ≤ m.bank_blocks) heap hex
  refine ⟨pre, n, post, e, hpre, hfree, hfit, ?_⟩
  subst e
  have hb : 0xb700 ≤ n.address ∧ 1 ≤ n.bank_blocks ∧ n.address + n.bank_blocks * 64 ≤ 0xd700 :=
    heap_chain_append pre n post _ hinv
  have hc := ceil_banks_spec size
  have hreq : (size + BANK_BLOCK_SIZE - 1) % 2 ^ 32 / BANK_BLOCK_SIZE = ceil_banks size := by
    show (size + 64 - 1) % 2 ^ 32 / 64 = ceil_banks size
    unfold ceil_banks at *
    omega
  have hne : ¬ (ceil_banks size = 0) := by omega
  unfold vm_malloc
  simp only [hreq]
  rw [if_neg hne, vm_malloc_loop_first_fit size (ceil_banks size) n post hfree hfit pre hpre]
  have haddr : (n.address + ceil_banks size * BANK_BLOCK_SIZE) % 2 ^ 32
      = n.address + 64 * ceil_banks size := by
    show (n.address + ceil_banks size * 64) % 2 ^ 32 = n.address + 64 * ceil_banks size
    omega
  rw [haddr]
  by_cases hlt : ceil_banks size < n.bank_blocks
  · simp [hlt]
  · simp [hlt]

/-- C9 on the startup heap: `malloc(100)` returns 0xB700 and splits the single
free node into (0xB700, 2 banks, 100 bytes) and (0xB780, 126 banks, free);
`malloc(8192)` takes the whole node without a split; and after `malloc(100)` a
`malloc(64)` skips the allocated first node and returns 0xB780. -/
theorem vm_malloc_first_fit_witness :
    heap_partition init_heap_list ∧
    (∃ pre n post, init_heap_list = pre ++ n :: post ∧
      (∀ m ∈ pre, ¬ (m.allocated_size = 0 ∧ ceil_banks 100 ≤ m.bank_blocks)) ∧
      n.allocated_size = 0 ∧ ceil_banks 100 ≤ n.bank_blocks ∧
      vm_malloc 100 init_heap_list = (n.address,
        pre ++ { address := n.address, bank_blocks := ceil_banks 100, allocated_size := 100 } ::
          ((if ceil_banks 100 < n.bank_blocks then
            [{ address := n.address + 64 * ceil_banks 100
               bank_blocks := n.bank_blocks - ceil_banks 100
               allocated_size := 0 }]
          else []) ++ post))) ∧
    vm_malloc 100 init_heap_list = (0xB700,
      [{ address := 0xB700, bank_blocks := 2, allocated_size := 100 },
       { address := 0xB780, bank_blocks := 126, allocated_size := 0 }]) ∧
    vm_malloc 8192 init_heap_list = (0xB700,
      [{ address := 0xB700, bank_blocks := 128, allocated_size := 8192 }]) ∧
    vm_malloc 64 (vm_malloc 100 init_heap_list).2 = (0xB780,
      [{ address := 0xB700, bank_blocks := 2, allocated_size := 100 },
       { address := 0xB780, bank_blocks := 1, allocated_size := 64 },
       { address := 0xB7C0, bank_blocks := 125, allocated_size := 0 }]) :=
  ⟨⟨rfl, by decide, rfl⟩,
   vm_malloc_first_fit init_heap_list 100 ⟨rfl, by decide, rfl⟩ (by decide)
     ⟨_, List.mem_singleton_self _, rfl, by decide⟩,
   by rfl, by rfl, by rfl⟩

theorem total_banks_cons (n : heap_node) (l : List heap_node) :
    total_banks (n :: l) = n.bank_blocks + total_banks l := by
  simp [total_banks]

theorem total_banks_append (l1 l2 : List heap_node) :
    total_banks (l1 ++ l2) = total_banks l1 + total_banks l2 := by
  simp [total_banks]

/-- The loop of `vm_malloc` ends without a fit when no free node has `req`
banks. -/
theorem vm_malloc_loop_none (size req : Nat) (l : List heap_node)
    (h : ∀ n ∈ l, ¬ (n.allocated_size = 0 ∧ n.bank_blocks ≥ req)) :
    vm_malloc_loop size req l = none := by
  induction l with
  | nil => rfl
  | cons c rest ih =>
    simp only [vm_malloc_loop]
    rw [if_neg (h c (List.mem_cons_self _ _)), ih (fun n hn => h n (List.mem_cons_of_mem _ hn))]

theorem vm_malloc_loop_total (size req : Nat) (l : List heap_node) :
    ∀ a l', vm_malloc_loop size req l = some (a, l') → total_banks l' = total_banks l := by
  induction l with
  | nil => intro a l' h; simp [vm_malloc_loop] at h
  | cons c rest ih =>
    intro a l' h
    simp only [vm_malloc_loop] at h
    split at h
    · rename_i hc
      simp only [Option.some.injEq, Prod.mk.injEq] at h
      rw [← h.2]
      split
      · simp only [total_banks_cons]; omega
      · simp only [total_banks_cons]; omega
    · split at h
      · rename_i a2 l2 heq
        simp only [Option.some.injEq, Prod.mk.injEq] at h
        rw [← h.2, total_banks_cons, total_banks_cons, ih a2 l2 heq]
      · simp at h

theorem vm_malloc_total (size : Nat) (l : List heap_node) :
    total_banks (vm_malloc size l).2 = total_banks l := by
  unfold vm_malloc
  simp only
  split
  · rfl
  · split
    · rename_i r heq
      exact vm_malloc_loop_total size _ l r.1 r.2 heq
    · rfl

theorem coalesce_next_total (c : heap_node) (rest : List heap_node)
    (h : c.bank_blocks + total_banks rest < 2 ^ 32) :
    total_banks (coalesce_next c rest) = c.bank_blocks + total_banks rest := by
  cases rest with
  | nil => simp [coalesce_next, total_banks]
  | cons n rest =>
    simp only [coalesce_next]
    rw [total_banks_cons] at h
    split
    · simp only [total_banks_cons]; omega
    · simp only [total_banks_cons]

theorem coalesce_prev_total (prev : Option heap_node) (l : List heap_node)
    (h : total_banks (prev.toList ++ l) < 2 ^ 32) :
    total_banks (coalesce_prev prev l) = total_banks (prev.toList ++ l) := by
  cases prev with
  | none => rfl
  | some p =>
    cases l with
    | nil => rfl
    | cons c rest =>
      simp only [Option.toList, List.singleton_append, total_banks_cons] at h
      simp only [coalesce_prev, Option.toList, List.singleton_append]
      split
      · simp only [total_banks_cons]; omega
      · rfl

theorem vm_free_loop_total (address : Nat) (l : List heap_node) :
    ∀ prev l', vm_free_loop address prev l = some l' →
      total_banks (prev.toList ++ l) < 2 ^ 32 →
      total_banks l' = total_banks (prev.toList ++ l) := by
  induction l with
  | nil => intro prev l' h; simp [vm_free_loop] at h
  | cons c rest ih =>
    intro prev l' h hb
    simp only [vm_free_loop] at h
    rw [total_banks_append, total_banks_cons] at hb
    split at h
    · simp only [Option.some.injEq] at h
      rw [← h]
      have h1 := coalesce_next_total { c with allocated_size := 0 } rest (by simp only; omega)
      rw [coalesce_prev_total _ _ (by rw [total_banks_append, h1]; simp only; omega),
        total_banks_append, h1, total_banks_append, total_banks_cons]
    · split at h
      · rename_i l2 heq
        simp only [Option.some.injEq] at h
        have h2 := ih (some c) l2 heq (by
          simp only [Option.toList, List.singleton_append, total_banks_cons]; omega)
        rw [← h, total_banks_append, h2, total_banks_append]
        simp [total_banks_cons, total_banks_append, total_banks]
      · simp at h

theorem vm_free_total (address : Nat) (l : List heap_node) (hb : total_banks l < 2 ^ 32) :
    total_banks (vm_free address l).2 = total_banks l := by
  unfold vm_free
  split
  · rename_i l2 heq
    exact vm_free_loop_total address l none l2 heq hb
  · rfl

/-- On every heap list reachable from `init_heap` the bank counts sum to
`HEAP_BANK_NUM`. -/
theorem heap_reachable_total (l : List heap_node) (h : heap_reachable l) :
    total_banks l = HEAP_BANK_NUM := by
  induction h with
  | init => rfl
  | malloc l size _ _ ih => rw [vm_malloc_total, ih]
  | free l address _ _ ih => rw [vm_free_total address l (by rw [ih]; decide), ih]

theorem le_total_banks (l : List heap_node) : ∀ n ∈ l, n.bank_blocks ≤ total_banks l := by
  induction l with
  | nil => intro n hn; simp at hn
  | cons c rest ih =>
    intro n hn
    rw [total_banks_cons]
    rcases List.mem_cons.mp hn with rfl | hn
    · omega
    · have := ih n hn
      omega

/-- C10: `vm_malloc(size)` returns 0 and leaves the heap list as it was when
size = 0 or no free node has `ceil(size / 64)` banks; on every heap list
reachable from `init_heap` this is so for every 32-bit size above 8192, the
sizes 2^32 - 63 .. 2^32 - 1 included, for which `size + 63` wraps and the
computed bank count is 0. -/
theorem vm_malloc_fails (heap : List heap_node) (size : Nat) (h32 : size < 2 ^ 32) :
    ((size = 0 ∨ ∀ n ∈ heap, n.allocated_size = 0 → n.bank_blocks < ceil_banks size) →
      vm_malloc size heap = (0, heap)) ∧
    (heap_reachable heap → 8192 < size → vm_malloc size heap = (0, heap)) ∧
    (2 ^ 32 - 63 ≤ size → (size + BANK_BLOCK_SIZE - 1) % 2 ^ 32 / BANK_BLOCK_SIZE = 0) := by
  have key : (∀ n ∈ heap, n.allocated_size = 0 → n.bank_blocks < ceil_banks size) →
      vm_malloc size heap = (0, heap) := by
    intro hn
    unfold vm_malloc
    simp only
    split
    · rfl
    · rename_i hreq
      have hle : (size + BANK_BLOCK_SIZE - 1) % 2 ^ 32 / BANK_BLOCK_SIZE = ceil_banks size := by
        show (size + 64 - 1) % 2 ^ 32 / 64 = ceil_banks size
        have hreq2 : ¬ ((size + 64 - 1) % 2 ^ 32 / 64 = 0) := hreq
        unfold ceil_banks
        omega
      rw [hle, vm_malloc_loop_none size _ heap (fun n hn2 hc => by
        have := hn n hn2 hc.1
        have := hc.2
        omega)]
  refine ⟨?_, ?_, ?_⟩
  · rintro (h0 | hn)
    · subst h0; rfl
    · exact key hn
  · intro hr hbig
    apply key
    intro n hn _
    have h1 := le_total_banks heap n hn
    have h2 : total_banks heap = 128 := heap_reachable_total heap hr
    unfold ceil_banks
    omega
  · intro hbig
    show (size + 64 - 1) % 2 ^ 32 / 64 = 0
    omega

/-- C10 at concrete requests: size 0 and size 8193 on the startup heap, the
wrapping size 2^32 - 1 on the startup heap, and size 8129 (127 banks + 1 byte)
on the reachable heap left by `malloc(100)`, whose largest free node has 126
banks. -/
theorem vm_malloc_fails_witness :
    vm_malloc 0 init_heap_list = (0, init_heap_list) ∧
    vm_malloc 8193 init_heap_list = (0, init_heap_list) ∧
    vm_malloc 0xFFFFFFFF init_heap_list = (0, init_heap_list) ∧
    vm_malloc 8129 (vm_malloc 100 init_heap_list).2 = (0, (vm_malloc 100 init_heap_list).2) :=
  ⟨(vm_malloc_fails init_heap_list 0 (by decide)).1 (Or.inl rfl),
   (vm_malloc_fails init_heap_list 8193 (by decide)).2.1 heap_reachable.init (by decide),
   (vm_malloc_fails init_heap_list 0xFFFFFFFF (by decide)).2.1 heap_reachable.init (by decide),
   (vm_malloc_fails (vm_malloc 100 init_heap_list).2 8129 (by decide)).1 (Or.inr (by decide))⟩

/-! ## The partition invariant -/

theorem heap_chain_congr (l : List heap_node) (a b : Nat) (h : a = b) :
    heap_chain a l → heap_chain b l := by
  subst h
  exact id

theorem vm_malloc_loop_chain (size req : Nat) (hreq : 1 ≤ req) (l : List heap_node) :
    ∀ a r, heap_chain a l → vm_malloc_loop size req l = some r → heap_chain a r.2 := by
  induction l with
  | nil => intro a r _ h; simp [vm_malloc_loop] at h
  | cons c rest ih =>
    intro a r hc h
    obtain ⟨h1, h2, h3⟩ := hc
    have hle : a + c.bank_blocks * 64 ≤ 0xd700 := heap_chain_le rest _ h3
    simp only [vm_malloc_loop] at h
    split at h
    · rename_i hfit
      simp only [Option.some.injEq] at h
      rw [← h]
      by_cases hgt : c.bank_blocks > req
      · simp only [if_pos hgt]
        refine ⟨h1, hreq, ?_, ?_, ?_⟩
        · show (c.address + req * 64) % 2 ^ 32 = a + req * 64
          omega
        · show 1 ≤ c.bank_blocks - req
          omega
        · refine heap_chain_congr rest _ _ ?_ h3
          show a + c.bank_blocks * 64 = a + req * 64 + (c.bank_blocks - req) * 64
          omega
      · simp only [if_neg hgt]
        refine ⟨h1, hreq, heap_chain_congr rest _ _ ?_ h3⟩
        show a + c.bank_blocks * 64 = a + req * 64
        have := hfit.2
        omega
    · split at h
      · rename_i a2 l2 heq
        simp only [Option.some.injEq] at h
        rw [← h]
        exact ⟨h1, h2, ih _ (a2, l2) h3 heq⟩
      · simp at h

theorem vm_malloc_chain (size : Nat) (l : List heap_node) (a : Nat) (h : heap_chain a l) :
    heap_chain a (vm_malloc size l).2 := by
  unfold vm_malloc
  simp only
  split
  · exact h
  · rename_i hreq
    split
    · rename_i r heq
      exact vm_malloc_loop_chain size _ (Nat.pos_of_ne_zero hreq) l a r h heq
    · exact h

theorem coalesce_next_chain (c : heap_node) (rest : List heap_node) (a : Nat)
    (h : heap_chain a (c :: rest)) : heap_chain a (coalesce_next c rest) := by
  cases rest with
  | nil => exact h
  | cons n r =>
    obtain ⟨h1, h2, h3, h4, h5⟩ := h
    have hle : a + c.bank_blocks * 64 + n.bank_blocks * 64 ≤ 0xd700 := heap_chain_le r _ h5
    simp only [coalesce_next]
    split
    · refine ⟨h1, ?_, heap_chain_congr r _ _ ?_ h5⟩
      · show 1 ≤ (c.bank_blocks + n.bank_blocks) % 2 ^ 32
        omega
      · show a + c.bank_blocks * 64 + n.bank_blocks * 64
          = a + (c.bank_blocks + n.bank_blocks) % 2 ^ 32 * 64
        omega
    · exact ⟨h1, h2, h3, h4, h5⟩

theorem coalesce_prev_chain (prev : Option heap_node) (l : List heap_node) (a : Nat)
    (h : heap_chain a (prev.toList ++ l)) : heap_chain a (coalesce_prev prev l) := by
  cases prev with
  | none => exact h
  | some p =>
    cases l with
    | nil => exact h
    | cons c r =>
      obtain ⟨h1, h2, h3, h4, h5⟩ := h
      have hle : a + p.bank_blocks * 64 + c.bank_blocks * 64 ≤ 0xd700 := heap_chain_le r _ h5
      simp only [coalesce_prev]
      split
      · refine ⟨h1, ?_, heap_chain_congr r _ _ ?_ h5⟩
        · show 1 ≤ (p.bank_blocks + c.bank_blocks) % 2 ^ 32
          omega
        · show a + p.bank_blocks * 64 + c.bank_blocks * 64
            = a + (p.bank_blocks + c.bank_blocks) % 2 ^ 32 * 64
          omega
      · exact ⟨h1, h2, h3, h4, h5⟩

theorem heap_chain_prev (prev : Option heap_node) (l l' : List heap_node) (a : Nat)
    (hl : ∀ b, heap_chain b l → heap_chain b l')
    (h : heap_chain a (prev.toList ++ l)) : heap_chain a (prev.toList ++ l') := by
  cases prev with
  | none => exact hl a h
  | some p => exact ⟨h.1, h.2.1, hl _ h.2.2⟩

theorem vm_free_loop_chain (address : Nat) (l : List heap_node) :
    ∀ prev a l', heap_chain a (prev.toList ++ l) → vm_free_loop address prev l = some l' →
      heap_chain a l' := by
  induction l with
  | nil => intro prev a l' _ h; simp [vm_free_loop] at h
  | cons c rest ih =>
    intro prev a l' hc h
    simp only [vm_free_loop] at h
    split at h
    · simp only [Option.some.injEq] at h
      rw [← h]
      apply coalesce_prev_chain
      refine heap_chain_prev prev (c :: rest) _ a ?_ hc
      intro b hb
      exact coalesce_next_chain _ rest b hb
    · split at h
      · rename_i l2 heq
        simp only [Option.some.injEq] at h
        rw [← h]
        refine heap_chain_prev prev (c :: rest) _ a ?_ hc
        intro b hb
        exact ih (some c) b l2 hb heq
      · simp at h

theorem vm_free_chain (address : Nat) (l : List heap_node) (a : Nat) (h : heap_chain a l) :
    heap_chain a (vm_free address l).2 := by
  unfold vm_free
  split
  · rename_i l2 heq
    exact vm_free_loop_chain address l none a l2 h heq
  · exact h

/-- Every heap list reachable from `init_heap` partitions the heap region. -/
theorem heap_reachable_chain (l : List heap_node) (h : heap_reachable l) :
    heap_chain HEAP_START l := by
  induction h with
  | init => exact ⟨rfl, by decide, rfl⟩
  | malloc l size _ _ ih => exact vm_malloc_chain size l _ ih
  | free l address _ _ ih => exact vm_free_chain address l _ ih

theorem heap_chain_total (l : List heap_node) :
    ∀ a, heap_chain a l → a + total_banks l * BANK_BLOCK_SIZE = HEAP_END := by
  induction l with
  | nil => intro a h; simpa [total_banks] using h
  | cons c rest ih =>
    intro a h
    have := ih _ h.2.2
    rw [total_banks_cons]
    show a + (c.bank_blocks + total_banks rest) * 64 = HEAP_END
    have e : a + c.bank_blocks * 64 + total_banks rest * 64 = HEAP_END := this
    omega

theorem heap_chain_contiguous (l : List heap_node) : ∀ a, heap_chain a l → contiguous l := by
  induction l with
  | nil => intro _ _; trivial
  | cons c rest ih =>
    intro a h
    cases rest with
    | nil => trivial
    | cons d rest2 =>
      refine ⟨?_, ih _ h.2.2⟩
      have h1 := h.1
      have h2 : d.address = a + c.bank_blocks * 64 := h.2.2.1
      show d.address = c.address + 64 * c.bank_blocks
      omega

theorem heap_chain_banks (l : List heap_node) :
    ∀ a, heap_chain a l → ∀ n ∈ l, 1 ≤ n.bank_blocks := by
  induction l with
  | nil => intro _ _ n hn; simp at hn
  | cons c rest ih =>
    intro a h n hn
    rcases List.mem_cons.mp hn with rfl | hn
    · exact h.2.1
    · exact ih _ h.2.2 n hn

theorem heap_chain_address (pre : List heap_node) (n : heap_node) (post : List heap_node) :
    ∀ a, heap_chain a (pre ++ n :: post) →
      n.address = a + total_banks pre * BANK_BLOCK_SIZE := by
  induction pre with
  | nil => intro a h; simpa [total_banks] using h.1
  | cons c pre ih =>
    intro a h
    have := ih _ h.2.2
    rw [total_banks_cons, this]
    show a + c.bank_blocks * 64 + total_banks pre * 64
      = a + (c.bank_blocks + total_banks pre) * 64
    omega

/-- C12: in every heap list reachable from `init_heap` by `vm_malloc` and
`vm_free` calls the first node has address 0xB700, each node's successor has
address `node.address + 64 * node.bank_blocks`, every node has at least one
bank and the bank counts sum to 128; so the node at any position starts
64 bytes times the banks before it above 0xB700, and the nodes cover
0xB700 .. 0xD700 in ascending order without overlap or gap. -/
theorem heap_partition_invariant (l : List heap_node) (h : heap_reachable l) :
    (∃ first rest, l = first :: rest ∧ first.address = 0xB700) ∧
    contiguous l ∧
    (∀ n ∈ l, 1 ≤ n.bank_blocks) ∧
    total_banks l = 128 ∧
    (∀ pre n post, l = pre ++ n :: post → n.address = 0xB700 + 64 * total_banks pre) ∧
    heap_partition l := by
  have hc := heap_reachable_chain l h
  refine ⟨?_, heap_chain_contiguous l _ hc, heap_chain_banks l _ hc, ?_, ?_, hc⟩
  · cases l with
    | nil =>
      have e : (0xb700 : Nat) = 0xd700 := hc
      exact absurd e (by decide)
    | cons c rest => exact ⟨c, rest, rfl, hc.1⟩
  · have := heap_chain_total l _ hc
    have e : 0xb700 + total_banks l * 64 = 0xd700 := this
    omega
  · intro pre n post e
    subst e
    have := heap_chain_address pre n post _ hc
    have e : n.address = 0xb700 + total_banks pre * 64 := this
    omega

/-- C12 on the heap after `malloc(100)` and `malloc(64)`: nodes
(0xB700, 2 banks), (0xB780, 1 bank), (0xB7C0, 125 banks). -/
theorem heap_partition_invariant_witness :
    heap_two_allocations =
      [{ address := 0xB700, bank_blocks := 2, allocated_size := 100 },
       { address := 0xB780, bank_blocks := 1, allocated_size := 64 },
       { address := 0xB7C0, bank_blocks := 125, allocated_size := 0 }] ∧
    ((∃ first rest, heap_two_allocations = first :: rest ∧ first.address = 0xB700) ∧
    contiguous heap_two_allocations ∧
    (∀ n ∈ heap_two_allocations, 1 ≤ n.bank_blocks) ∧
    total_banks heap_two_allocations = 128 ∧
    (∀ pre n post, heap_two_allocations = pre ++ n :: post →
      n.address = 0xB700 + 64 * total_banks pre) ∧
    heap_partition heap_two_allocations) :=
  ⟨by rfl, heap_partition_invariant heap_two_allocations
    (heap_reachable.malloc _ 64 (heap_reachable.malloc _ 100 heap_reachable.init (by decide))
      (by decide))⟩

/-! ## Allocated sizes -/

theorem vm_malloc_loop_bounds (size req : Nat) (h32 : size < 2 ^ 32)
    (hreq : req = (size + BANK_BLOCK_SIZE - 1) % 2 ^ 32 / BANK_BLOCK_SIZE) (hpos : 1 ≤ req)
    (l : List heap_node) :
    ∀ a r, heap_chain a l → allocated_bounds l → vm_malloc_loop size req l = some r →
      allocated_bounds r.2 := by
  have hreq2 : req = (size + 64 - 1) % 2 ^ 32 / 64 := hreq
  induction l with
  | nil => intro a r _ _ h; simp [vm_malloc_loop] at h
  | cons c rest ih =>
    intro a r hc hb h
    have hle : a + c.bank_blocks * 64 ≤ 0xd700 := heap_chain_le rest _ hc.2.2
    have hrest : allocated_bounds rest := fun n hn => hb n (List.mem_cons_of_mem _ hn)
    simp only [vm_malloc_loop] at h
    split at h
    · rename_i hfit
      simp only [Option.some.injEq] at h
      rw [← h]
      have hfit2 := hfit.2
      intro n hn hn0
      simp only [List.mem_cons] at hn
      rcases hn with rfl | hn
      · show size ≤ req * 64 ∧ req * 64 < size + 64
        omega
      · split at hn
        · simp only [List.mem_cons] at hn
          rcases hn with rfl | hn
          · exact absurd hn0 (by simp)
          · exact hrest n hn hn0
        · exact hrest n hn hn0
    · split at h
      · rename_i a2 l2 heq
        simp only [Option.some.injEq] at h
        rw [← h]
        have := ih _ (a2, l2) hc.2.2 hrest heq
        intro n hn hn0
        rcases List.mem_cons.mp hn with rfl | hn
        · exact hb n (List.mem_cons_self _ _) hn0
        · exact this n hn hn0
      · simp at h

theorem vm_malloc_bounds (size : Nat) (h32 : size < 2 ^ 32) (l : List heap_node) (a : Nat)
    (hc : heap_chain a l) (hb : allocated_bounds l) : allocated_bounds (vm_malloc size l).2 := by
  unfold vm_malloc
  simp only
  split
  · exact hb
  · rename_i hreq
    split
    · rename_i r heq
      exact vm_malloc_loop_bounds size _ h32 rfl (Nat.pos_of_ne_zero hreq) l a r hc hb heq
    · exact hb

theorem coalesce_next_allocated (c : heap_node) (hc : c.allocated_size = 0)
    (rest : List heap_node) :
    ∀ n ∈ coalesce_next c rest, 0 < n.allocated_size → n ∈ rest := by
  intro n hn hn0
  cases rest with
  | nil =>
    simp only [coalesce_next, List.mem_singleton] at hn
    subst hn; omega
  | cons d r =>
    simp only [coalesce_next] at hn
    split at hn
    · simp only [List.mem_cons] at hn
      rcases hn with rfl | hn
      · exact absurd hc (by simp only at hn0 ⊢; omega)
      · exact List.mem_cons_of_mem _ hn
    · simp only [List.mem_cons] at hn
      rcases hn with rfl | hn
      · omega
      · exact List.mem_cons.mpr hn

theorem coalesce_prev_allocated (prev : Option heap_node) (l : List heap_node) :
    ∀ n ∈ coalesce_prev prev l, 0 < n.allocated_size → n ∈ prev.toList ++ l := by
  intro n hn hn0
  cases prev with
  | none => exact hn
  | some p =>
    cases l with
    | nil => exact hn
    | cons c r =>
      simp only [coalesce_prev] at hn
      split at hn
      · rename_i hp
        simp only [List.mem_cons] at hn
        rcases hn with rfl | hn
        · exact absurd hp (by simp only at hn0 ⊢; omega)
        · simp [hn]
      · exact hn

/-- The allocated nodes `vm_free` leaves were in the list before. -/
theorem vm_free_loop_allocated (address : Nat) (l : List heap_node) :
    ∀ prev l', vm_free_loop address prev l = some l' →
      ∀ n ∈ l', 0 < n.allocated_size → n ∈ prev.toList ++ l := by
  induction l with
  | nil => intro prev l' h; simp [vm_free_loop] at h
  | cons c rest ih =>
    intro prev l' h n hn hn0
    simp only [vm_free_loop] at h
    split at h
    · simp only [Option.some.injEq] at h
      rw [← h] at hn
      have h1 := coalesce_prev_allocated prev _ n hn hn0
      rcases List.mem_append.mp h1 with h2 | h2
      · exact List.mem_append_left _ h2
      · exact List.mem_append_right _
          (List.mem_cons_of_mem _ (coalesce_next_allocated _ rfl rest n h2 hn0))
    · split at h
      · rename_i l2 heq
        simp only [Option.some.injEq] at h
        rw [← h] at hn
        rcases List.mem_append.mp hn with h2 | h2
        · exact List.mem_append_left _ h2
        · have := ih (some c) l2 heq n h2 hn0
          exact List.mem_append_right _ (by simpa using this)
      · simp at h

theorem vm_free_allocated (address : Nat) (l : List heap_node) :
    ∀ n ∈ (vm_free address l).2, 0 < n.allocated_size → n ∈ l := by
  unfold vm_free
  split
  · rename_i l2 heq
    intro n hn hn0
    simpa using vm_free_loop_allocated address l none l2 heq n hn hn0
  · intro n hn _
    exact hn

theorem heap_reachable_bounds (l : List heap_node) (h : heap_reachable l) :
    allocated_bounds l := by
  induction h with
  | init =>
    intro n hn hn0
    simp only [init_heap_list, List.mem_singleton] at hn
    subst hn
    exact absurd hn0 (by decide)
  | malloc l size hr h32 ih =>
    exact vm_malloc_bounds size h32 l _ (heap_reachable_chain l hr) ih
  | free l address _ _ ih =>
    intro n hn hn0
    exact ih n (vm_free_allocated address l n hn hn0) hn0

/-- C13: in every heap list reachable from `init_heap` by `vm_malloc` and
`vm_free` calls, every allocated node satisfies
`bank_blocks * 64 >= allocated_size` and
`bank_blocks * 64 < allocated_size + 64`. -/
theorem allocated_size_invariant (l : List heap_node) (h : heap_reachable l) :
    ∀ n ∈ l, 0 < n.allocated_size →
      n.bank_blocks * 64 ≥ n.allocated_size ∧ n.bank_blocks * 64 < n.allocated_size + 64 :=
  heap_reachable_bounds l h

/-- C13 on the heap after `malloc(100)` and `malloc(64)`: the node of 100 bytes
has 2 banks (128 >= 100, 128 < 164) and the node of 64 bytes has 1 bank. -/
theorem allocated_size_invariant_witness :
    ({ address := 0xB700, bank_blocks := 2, allocated_size := 100 } : heap_node)
      ∈ heap_two_allocations ∧
    ({ address := 0xB780, bank_blocks := 1, allocated_size := 64 } : heap_node)
      ∈ heap_two_allocations ∧
    (2 * 64 ≥ 100 ∧ 2 * 64 < 100 + 64) ∧ (1 * 64 ≥ 64 ∧ 1 * 64 < 64 + 64) :=
  ⟨by decide, by decide,
   allocated_size_invariant heap_two_allocations
      (heap_reachable.malloc _ 64 (heap_reachable.malloc _ 100 heap_reachable.init (by decide))
        (by decide))
      { address := 0xB700, bank_blocks := 2, allocated_size := 100 } (by decide) (by decide),
   allocated_size_invariant heap_two_allocations
      (heap_reachable.malloc _ 64 (heap_reachable.malloc _ 100 heap_reachable.init (by decide))
        (by decide))
      { address := 0xB780, bank_blocks := 1, allocated_size := 64 } (by decide) (by decide)⟩

/-! ## Coalescing -/

theorem no_adjacent_free_tail (x : heap_node) (l : List heap_node)
    (h : no_adjacent_free (x :: l)) : no_adjacent_free l := by
  cases l with
  | nil => trivial
  | cons y r => exact h.2

theorem no_adjacent_free_of_append (pre l : List heap_node) :
    no_adjacent_free (pre ++ l) → no_adjacent_free l := by
  induction pre with
  | nil => exact id
  | cons x pre ih => intro h; exact ih (no_adjacent_free_tail x _ h)

/-- A node may be put in front of a list when it is allocated or the first node
of the list is. -/
theorem no_adjacent_free_cons (x : heap_node) (l : List heap_node)
    (hl : no_adjacent_free l)
    (hx : ∀ y t, l = y :: t → ¬ (x.allocated_size = 0 ∧ y.allocated_size = 0)) :
    no_adjacent_free (x :: l) := by
  cases l with
  | nil => trivial
  | cons y t => exact ⟨hx y t rfl, hl⟩

/-- Behind a prefix, a list may be replaced by one whose first node is free
only if the first node of the old list is. -/
theorem no_adjacent_free_replace (pre l l' : List heap_node)
    (hl' : no_adjacent_free l')
    (hh : ∀ y' t', l' = y' :: t' → y'.allocated_size = 0 →
      ∃ y t, l = y :: t ∧ y.allocated_size = 0) :
    no_adjacent_free (pre ++ l) → no_adjacent_free (pre ++ l') := by
  induction pre with
  | nil => intro _; exact hl'
  | cons x pre ih =>
    intro h
    have h2 := ih (no_adjacent_free_tail x _ h)
    apply no_adjacent_free_cons x _ h2
    intro y t e hxy
    cases pre with
    | nil =>
      obtain ⟨y0, t0, e0, hy0⟩ := hh y t e hxy.2
      subst e0
      exact h.1 ⟨hxy.1, hy0⟩
    | cons z pre2 =>
      simp only [List.cons_append, List.cons.injEq] at e
      obtain ⟨rfl, _⟩ := e
      exact h.1 hxy

theorem vm_malloc_loop_adjacent (size req : Nat) (hsize : size ≠ 0) (l : List heap_node) :
    ∀ pre r, no_adjacent_free (pre ++ l) → vm_malloc_loop size req l = some r →
      no_adjacent_free (pre ++ r.2) := by
  induction l with
  | nil => intro pre r _ h; simp [vm_malloc_loop] at h
  | cons c rest ih =>
    intro pre r hn h
    simp only [vm_malloc_loop] at h
    split at h
    · rename_i hfit
      simp only [Option.some.injEq] at h
      rw [← h]
      have hc : no_adjacent_free (c :: rest) := no_adjacent_free_of_append pre _ hn
      have hrest : no_adjacent_free rest := no_adjacent_free_tail c rest hc
      have hhead : ∀ y t, rest = y :: t → y.allocated_size ≠ 0 := by
        intro y t e hy
        subst e
        exact hc.1 ⟨hfit.1, hy⟩
      refine no_adjacent_free_replace pre (c :: rest) _ ?_ ?_ hn
      · apply no_adjacent_free_cons
        · split
          · apply no_adjacent_free_cons _ _ hrest
            intro y t e hxy
            exact hhead y t e hxy.2
          · exact hrest
        · intro y t _ hxy
          exact hsize hxy.1
      · intro y' t' e hy'
        simp only [List.cons.injEq] at e
        rw [← e.1] at hy'
        exact absurd hy' hsize
    · split at h
      · rename_i a2 l2 heq
        simp only [Option.some.injEq] at h
        rw [← h]
        have := ih (pre ++ [c]) (a2, l2) (by simpa using hn) heq
        simpa using this
      · simp at h

theorem vm_malloc_adjacent (size : Nat) (l : List heap_node) (h : no_adjacent_free l) :
    no_adjacent_free (vm_malloc size l).2 := by
  unfold vm_malloc
  simp only
  split
  · exact h
  · rename_i hreq
    split
    · rename_i r heq
      have hsize : size ≠ 0 := by
        intro e
        subst e
        exact hreq (by decide)
      exact vm_malloc_loop_adjacent size _ hsize l [] r h heq
    · exact h

/-- After the merge with the next node the freed node is first, free and at
its old address, and no two neighbours are free. -/
theorem coalesce_next_adjacent (c : heap_node) (hc : c.allocated_size = 0)
    (rest : List heap_node) (hr : no_adjacent_free rest) :
    no_adjacent_free (coalesce_next c rest) ∧
    ∃ y t, coalesce_next c rest = y :: t ∧ y.allocated_size = 0 ∧ y.address = c.address := by
  cases rest with
  | nil => exact ⟨trivial, c, [], rfl, hc, rfl⟩
  | cons d r =>
    simp only [coalesce_next]
    split
    · rename_i hd
      refine ⟨?_, _, _, rfl, hc, rfl⟩
      apply no_adjacent_free_cons _ _ (no_adjacent_free_tail d r hr)
      intro y t e hxy
      subst e
      exact hr.1 ⟨hd, hxy.2⟩
    · rename_i hd
      exact ⟨⟨fun hxy => hd hxy.2, hr⟩, _, _, rfl, hc, rfl⟩

/-- After the merge into the previous node that node is first, at its old
address and free only if it was free, and no two neighbours are free. -/
theorem coalesce_prev_adjacent (p y : heap_node) (t : List heap_node)
    (hy : y.allocated_size = 0) (h : no_adjacent_free (y :: t)) :
    no_adjacent_free (coalesce_prev (some p) (y :: t)) ∧
    ∃ q u, coalesce_prev (some p) (y :: t) = q :: u ∧
      (q.allocated_size = 0 → p.allocated_size = 0) ∧ q.address = p.address := by
  simp only [coalesce_prev]
  split
  · rename_i hp
    refine ⟨?_, _, _, rfl, fun _ => hp, rfl⟩
    apply no_adjacent_free_cons _ _ (no_adjacent_free_tail y t h)
    intro z u e hxy
    subst e
    exact h.1 ⟨hy, hxy.2⟩
  · rename_i hp
    exact ⟨⟨fun hxy => hp hxy.1, h⟩, _, _, rfl, id, rfl⟩

theorem vm_free_loop_adjacent (address : Nat) (l : List heap_node) :
    ∀ pre prev l', (prev = none → pre = []) → no_adjacent_free (pre ++ (prev.toList ++ l)) →
      vm_free_loop address prev l = some l' → no_adjacent_free (pre ++ l') := by
  induction l with
  | nil => intro pre prev l' _ _ h; simp [vm_free_loop] at h
  | cons c rest ih =>
    intro pre prev l' hpre hn h
    simp only [vm_free_loop] at h
    split at h
    · simp only [Option.some.injEq] at h
      rw [← h]
      have hrest : no_adjacent_free rest :=
        no_adjacent_free_tail c rest
          (no_adjacent_free_of_append prev.toList _ (no_adjacent_free_of_append pre _ hn))
      obtain ⟨hM, y, t, eM, hy, _⟩ :=
        coalesce_next_adjacent { c with allocated_size := 0 } rfl rest hrest
      rw [eM] at hM ⊢
      cases prev with
      | none =>
        rw [hpre rfl]
        exact hM
      | some p =>
        obtain ⟨hP, q, u, eP, hq, _⟩ := coalesce_prev_adjacent p y t hy hM
        refine no_adjacent_free_replace pre _ _ hP ?_ hn
        intro y' t' e hy'
        rw [eP] at e
        simp only [List.cons.injEq] at e
        rw [← e.1] at hy'
        exact ⟨p, _, rfl, hq hy'⟩
    · split at h
      · rename_i l2 heq
        simp only [Option.some.injEq] at h
        rw [← h]
        have := ih (pre ++ prev.toList) (some c) l2 (by simp) (by simpa using hn) heq
        simpa using this
      · simp at h

theorem vm_free_adjacent (address : Nat) (l : List heap_node) (h : no_adjacent_free l) :
    no_adjacent_free (vm_free address l).2 := by
  unfold vm_free
  split
  · rename_i l2 heq
    exact vm_free_loop_adjacent address l [] none l2 (fun _ => rfl) h heq
  · exact h

theorem heap_reachable_adjacent (l : List heap_node) (h : heap_reachable l) :
    no_adjacent_free l := by
  induction h with
  | init => trivial
  | malloc l size _ _ ih => exact vm_malloc_adjacent size l ih
  | free l address _ _ ih => exact vm_free_adjacent address l ih

theorem coalesce_next_head (c : heap_node) (rest : List heap_node) :
    ∃ y t, coalesce_next c rest = y :: t ∧ y.address = c.address := by
  cases rest with
  | nil => exact ⟨c, [], rfl, rfl⟩
  | cons d r =>
    simp only [coalesce_next]
    split
    · exact ⟨_, _, rfl, rfl⟩
    · exact ⟨_, _, rfl, rfl⟩

theorem coalesce_prev_head (p : heap_node) (l : List heap_node) :
    ∃ q u, coalesce_prev (some p) l = q :: u ∧ q.address = p.address := by
  cases l with
  | nil => exact ⟨p, [], rfl, rfl⟩
  | cons c r =>
    simp only [coalesce_prev]
    split
    · exact ⟨_, _, rfl, rfl⟩
    · exact ⟨_, _, rfl, rfl⟩

theorem vm_free_loop_head (address : Nat) (p : heap_node) (l l' : List heap_node)
    (h : vm_free_loop address (some p) l = some l') :
    ∃ q u, l' = q :: u ∧ q.address = p.address := by
  cases l with
  | nil => simp [vm_free_loop] at h
  | cons c rest =>
    simp only [vm_free_loop] at h
    split at h
    · simp only [Option.some.injEq] at h
      rw [← h]
      exact coalesce_prev_head p _
    · split at h
      · simp only [Option.some.injEq] at h
        rw [← h]
        exact ⟨p, _, rfl, rfl⟩
      · simp at h

/-- The first node of the list stays the first node, at its address, through
`vm_free`. -/
theorem vm_free_head (address : Nat) (c : heap_node) (rest : List heap_node) :
    ∃ q u, (vm_free address (c :: rest)).2 = q :: u ∧ q.address = c.address := by
  unfold vm_free
  split
  · rename_i l2 heq
    simp only [vm_free_loop] at heq
    split at heq
    · simp only [Option.some.injEq] at heq
      rw [← heq]
      exact coalesce_next_head _ rest
    · split at heq
      · rename_i l3 heq3
        simp only [Option.some.injEq] at heq
        rw [← heq]
        exact vm_free_loop_head address c rest l3 heq3
      · simp at heq
  · exact ⟨c, rest, rfl, rfl⟩

/-- C14: on every heap list reachable from `init_heap`, after `vm_free` (with any
argument) no two adjacent nodes are both free, as before the call; and the
first node stays the first node at address 0xB700: the head is not unlinked. -/
theorem vm_free_coalesces (l : List heap_node) (h : heap_reachable l) (address : Nat)
    (ha : address < 2 ^ 32) :
    no_adjacent_free (vm_free address l).2 ∧
    no_adjacent_free l ∧
    ∃ first rest first' rest', l = first :: rest ∧
      (vm_free address l).2 = first' :: rest' ∧
      first'.address = first.address ∧ first'.address = 0xB700 := by
  have hn := heap_reachable_adjacent l h
  have hc := heap_reachable_chain l h
  have hc' := heap_reachable_chain _ (heap_reachable.free l address h ha)
  refine ⟨vm_free_adjacent address l hn, hn, ?_⟩
  cases l with
  | nil =>
    have e : (0xb700 : Nat) = 0xd700 := hc
    exact absurd e (by decide)
  | cons c rest =>
    obtain ⟨q, u, e, hq⟩ := vm_free_head address c rest
    refine ⟨c, rest, q, u, rfl, e, hq, ?_⟩
    rw [hq]
    exact hc.1

/-- C14 on the heap with a free bank at 0xB700, an allocation at 0xB740 and 126
free banks behind it: `free(0xB740)` merges the node with its free successor
and its free predecessor, leaving the single free node of 128 banks. -/
theorem vm_free_coalesces_witness :
    heap_fragmented =
      [{ address := 0xB700, bank_blocks := 1, allocated_size := 0 },
       { address := 0xB740, bank_blocks := 1, allocated_size := 64 },
       { address := 0xB780, bank_blocks := 126, allocated_size := 0 }] ∧
    vm_free 0xB740 heap_fragmented = (1, init_heap_list) ∧
    (no_adjacent_free (vm_free 0xB740 heap_fragmented).2 ∧
    no_adjacent_free heap_fragmented ∧
    ∃ first rest first' rest', heap_fragmented = first :: rest ∧
      (vm_free 0xB740 heap_fragmented).2 = first' :: rest' ∧
      first'.address = first.address ∧ first'.address = 0xB700) :=
  ⟨by rfl, by rfl,
   vm_free_coalesces heap_fragmented
    (heap_reachable.free _ 0xB780 (heap_reachable.free _ 0xB700
      (heap_reachable.malloc _ 64 (heap_reachable.malloc _ 64
        (heap_reachable.malloc _ 64 heap_reachable.init (by decide)) (by decide)) (by decide))
      (by decide)) (by decide))
    0xB740 (by decide)⟩

/-! ## Which addresses `vm_free` accepts -/

theorem vm_free_loop_some_iff (address : Nat) (l : List heap_node) :
    ∀ prev, (∃ l', vm_free_loop address prev l = some l') ↔
      ∃ n ∈ l, 0 < n.allocated_size ∧ n.address = address := by
  induction l with
  | nil => intro prev; simp [vm_free_loop]
  | cons c rest ih =>
    intro prev
    simp only [vm_free_loop]
    split
    · rename_i hc
      constructor
      · intro _
        exact ⟨c, List.mem_cons_self _ _, hc.1, hc.2.symm⟩
      · intro _
        exact ⟨_, rfl⟩
    · rename_i hc
      constructor
      · rintro ⟨l', h⟩
        split at h
        · rename_i l2 heq
          obtain ⟨n, hn, h1, h2⟩ := (ih (some c)).mp ⟨l2, heq⟩
          exact ⟨n, List.mem_cons_of_mem _ hn, h1, h2⟩
        · simp at h
      · rintro ⟨n, hn, h1, h2⟩
        rcases List.mem_cons.mp hn with rfl | hn
        · exact absurd ⟨h1, h2.symm⟩ hc
        · obtain ⟨l2, heq⟩ := (ih (some c)).mpr ⟨n, hn, h1, h2⟩
          rw [heq]
          exact ⟨_, rfl⟩

theorem vm_free_ok_iff (address : Nat) (l : List heap_node) :
    (vm_free address l).1 = 1 ↔ ∃ n ∈ l, 0 < n.allocated_size ∧ n.address = address := by
  rw [← vm_free_loop_some_iff address l none]
  unfold vm_free
  split
  · rename_i l2 heq
    simp [heq]
  · rename_i heq
    simp [heq]

theorem vm_free_fail (address : Nat) (l : List heap_node) (h : (vm_free address l).1 ≠ 1) :
    vm_free address l = (0, l) := by
  unfold vm_free at h ⊢
  split
  · rename_i l2 heq
    rw [heq] at h
    exact absurd rfl h
  · rfl

theorem heap_chain_ge (l : List heap_node) :
    ∀ a, heap_chain a l → ∀ n ∈ l, a ≤ n.address := by
  induction l with
  | nil => intro _ _ n hn; simp at hn
  | cons c rest ih =>
    intro a h n hn
    rcases List.mem_cons.mp hn with rfl | hn
    · exact Nat.le_of_eq h.1.symm
    · have := ih _ h.2.2 n hn
      omega

/-- In a partition no node starts strictly inside the banks of another. -/
theorem heap_chain_no_interior (l : List heap_node) :
    ∀ a, heap_chain a l → ∀ n ∈ l, ∀ m ∈ l,
      ¬ (n.address < m.address ∧ m.address < n.address + n.bank_blocks * BANK_BLOCK_SIZE) := by
  induction l with
  | nil => intro _ _ n hn; simp at hn
  | cons c rest ih =>
    intro a h n hn m hm
    have hge := heap_chain_ge rest _ h.2.2
    have h1 := h.1
    have h2 := h.2.1
    rcases List.mem_cons.mp hn with hn2 | hn2
    · rcases List.mem_cons.mp hm with hm2 | hm2
      · rw [hn2, hm2]
        omega
      · have := hge m hm2
        rw [hn2]
        show ¬ (c.address < m.address ∧ m.address < c.address + c.bank_blocks * 64)
        have e : a + c.bank_blocks * 64 ≤ m.address := this
        omega
    · rcases List.mem_cons.mp hm with hm2 | hm2
      · have := hge n hn2
        rw [hm2]
        have e : a + c.bank_blocks * 64 ≤ n.address := this
        omega
      · exact ih _ h.2.2 n hn2 m hm2

theorem heap_chain_suffix (pre l : List heap_node) :
    ∀ a, heap_chain a (pre ++ l) → ∃ b, heap_chain b l := by
  induction pre with
  | nil => intro a h; exact ⟨a, h⟩
  | cons x pre ih => intro a h; exact ih _ h.2.2

/-- After a successful `vm_free(address)` no allocated node has that address. -/
theorem vm_free_loop_no_address (address : Nat) (l : List heap_node) :
    ∀ prev a l', heap_chain a (prev.toList ++ l) → vm_free_loop address prev l = some l' →
      (∀ n ∈ prev.toList, 0 < n.allocated_size → n.address ≠ address) →
      ∀ n ∈ l', 0 < n.allocated_size → n.address ≠ address := by
  induction l with
  | nil => intro prev a l' _ h; simp [vm_free_loop] at h
  | cons c rest ih =>
    intro prev a l' hc h hp n hn hn0
    obtain ⟨b, hb⟩ := heap_chain_suffix prev.toList (c :: rest) a hc
    simp only [vm_free_loop] at h
    split at h
    · rename_i hm
      simp only [Option.some.injEq] at h
      rw [← h] at hn
      have h1 := coalesce_prev_allocated prev _ n hn hn0
      rcases List.mem_append.mp h1 with h2 | h2
      · exact hp n h2 hn0
      · have h3 := coalesce_next_allocated _ rfl rest n h2 hn0
        have h4 : b + c.bank_blocks * 64 ≤ n.address := heap_chain_ge rest _ hb.2.2 n h3
        have h5 := hb.1
        have h6 := hb.2.1
        have h7 := hm.2
        omega
    · rename_i hm
      split at h
      · rename_i l2 heq
        simp only [Option.some.injEq] at h
        rw [← h] at hn
        rcases List.mem_append.mp hn with h2 | h2
        · exact hp n h2 hn0
        · refine ih (some c) b l2 hb heq ?_ n h2 hn0
          intro x hx hx0 e
          simp only [Option.toList, List.mem_singleton] at hx
          subst hx
          exact hm ⟨hx0, e.symm⟩
      · simp at h

theorem vm_free_twice (address : Nat) (l : List heap_node) (a : Nat) (hc : heap_chain a l)
    (h : (vm_free address l).1 = 1) : (vm_free address (vm_free address l).2).1 = 0 := by
  have key : ∀ n ∈ (vm_free address l).2, 0 < n.allocated_size → n.address ≠ address := by
    cases heq : vm_free_loop address none l with
    | none =>
      unfold vm_free at h
      rw [heq] at h
      have h0 : (0 : Nat) = 1 := h
      exact absurd h0 (by decide)
    | some l2 =>
      have e : (vm_free address l).2 = l2 := by
        unfold vm_free
        rw [heq]
      rw [e]
      exact vm_free_loop_no_address address l none a l2 hc heq (by simp)
  have hne : (vm_free address (vm_free address l).2).1 ≠ 1 := by
    rw [Ne, vm_free_ok_iff]
    rintro ⟨n, hn, h1, h2⟩
    exact key n hn h1 h2
  rw [vm_free_fail _ _ hne]

/-- When `vm_malloc` returns a non-zero address, a node of the new list has
that address and the requested size. -/
theorem vm_malloc_loop_node (size req : Nat) (l : List heap_node) :
    ∀ r, vm_malloc_loop size req l = some r →
      ∃ n ∈ r.2, n.address = r.1 ∧ n.allocated_size = size ∧ n.bank_blocks = req := by
  induction l with
  | nil => intro r h; simp [vm_malloc_loop] at h
  | cons c rest ih =>
    intro r h
    simp only [vm_malloc_loop] at h
    split at h
    · simp only [Option.some.injEq] at h
      rw [← h]
      exact ⟨_, List.mem_cons_self _ _, rfl, rfl, rfl⟩
    · split at h
      · rename_i a2 l2 heq
        simp only [Option.some.injEq] at h
        rw [← h]
        obtain ⟨n, hn, h1⟩ := ih (a2, l2) heq
        exact ⟨n, List.mem_cons_of_mem _ hn, h1⟩
      · simp at h

theorem vm_malloc_node (size : Nat) (l : List heap_node) (h : (vm_malloc size l).1 ≠ 0) :
    ∃ n ∈ (vm_malloc size l).2, n.address = (vm_malloc size l).1 ∧
      n.allocated_size = size := by
  unfold vm_malloc at h ⊢
  simp only at h ⊢
  split
  · rename_i h0
    rw [if_pos h0] at h
    exact absurd rfl h
  · rename_i h0
    rw [if_neg h0] at h
    split
    · rename_i r heq
      obtain ⟨n, hn, h1, h2, _⟩ := vm_malloc_loop_node size _ l r heq
      exact ⟨n, hn, h1, h2⟩
    · rename_i heq
      rw [heq] at h
      exact absurd rfl h

/-- An address strictly inside the banks of a node is rejected by `vm_free`. -/
theorem vm_free_interior (l : List heap_node) (a : Nat) (hc : heap_chain a l)
    (n : heap_node) (hn : n ∈ l) (x : Nat) (h1 : n.address < x)
    (h2 : x < n.address + n.bank_blocks * BANK_BLOCK_SIZE) : vm_free x l = (0, l) := by
  apply vm_free_fail
  rw [Ne, vm_free_ok_iff]
  rintro ⟨m, hm, _, hx⟩
  apply heap_chain_no_interior l a hc n hn m hm
  rw [hx]
  exact ⟨h1, h2⟩

theorem console_write_free_fail (s : VM) (instruct value : Nat)
    (h : (vm_free value s.head).1 = 0) :
    console_write_routine VR_FREE value s instruct = .error (.illegal_operation instruct s) := by
  have e : vm_free value s.head = (0, s.head) :=
    vm_free_fail _ _ (by rw [h]; decide)
  simp [console_write_routine, e, illegal_operation]

/-- A store to 0x0834 of a value `vm_free` rejects stops with IllegalOperation
in the state before the store, for each width (the routine gets the stored
byte, half-word or word). -/
theorem store_free_rejected (s : VM) (instruct value : Nat) :
    ((vm_free (value % 2 ^ 32) s.head).1 = 0 →
      store_word VR_FREE value s instruct = .error (.illegal_operation instruct s)) ∧
    ((vm_free (value % 2 ^ 16) s.head).1 = 0 →
      store_half_word VR_FREE value s instruct = .error (.illegal_operation instruct s)) ∧
    ((vm_free (value % 2 ^ 8) s.head).1 = 0 →
      store_byte VR_FREE value s instruct = .error (.illegal_operation instruct s)) := by
  have v0 := is_valid_address_low s.head VR_FREE (by decide)
  have v1 := is_valid_address_low s.head ((VR_FREE + 1) % 2 ^ 32) (by decide)
  have v2 := is_valid_address_low s.head ((VR_FREE + 2) % 2 ^ 32) (by decide)
  have v3 := is_valid_address_low s.head ((VR_FREE + 3) % 2 ^ 32) (by decide)
  refine ⟨?_, ?_, ?_⟩
  · intro h
    have hw := console_write_free_fail s instruct _ h
    simp only [store_word, v0, v1, v2, v3, hw]
    simp [Except.bind, VR_FREE, DATA_MEM_START, DATA_MEM_END, INST_MEM_END, VR_START, VR_END]
  · intro h
    have hw := console_write_free_fail s instruct _ h
    simp only [store_half_word, v0, v1, hw]
    simp [Except.bind, VR_FREE, DATA_MEM_START, DATA_MEM_END, INST_MEM_END, VR_START, VR_END]
  · intro h
    have hw := console_write_free_fail s instruct _ h
    simp only [store_byte, v0, hw]
    simp [Except.bind, VR_FREE, DATA_MEM_START, DATA_MEM_END, INST_MEM_END, VR_START, VR_END]

/-- C11: `vm_free(address)` returns 1 exactly when some node with
`allocated_size > 0` has `address` as its address, and otherwise returns 0 and
leaves the list as it was. On every heap list reachable from `init_heap`:
address 0 is rejected; every address strictly inside the banks of a node is
rejected, `a + 1` after a successful `a = vm_malloc(size)` among them; an
address `vm_free` has just freed is rejected; and a word store of a rejected
value to 0x0834 stops with IllegalOperation in the state before the store. -/
theorem vm_free_exact_address (l : List heap_node) (address : Nat) :
    ((vm_free address l).1 = 1 ↔ ∃ n ∈ l, 0 < n.allocated_size ∧ n.address = address) ∧
    ((vm_free address l).1 ≠ 1 → vm_free address l = (0, l)) ∧
    (heap_reachable l →
      vm_free 0 l = (0, l) ∧
      (∀ n ∈ l, ∀ x, n.address < x → x < n.address + 64 * n.bank_blocks →
        vm_free x l = (0, l)) ∧
      (∀ size, size < 2 ^ 32 → (vm_malloc size l).1 ≠ 0 →
        vm_free ((vm_malloc size l).1 + 1) (vm_malloc size l).2
          = (0, (vm_malloc size l).2)) ∧
      ((vm_free address l).1 = 1 →
        vm_free address (vm_free address l).2 = (0, (vm_free address l).2)) ∧
      (∀ (s : VM) (instruct value : Nat), s.head = l →
        (vm_free (value % 2 ^ 32) l).1 = 0 →
        store_word 0x0834 value s instruct = .error (.illegal_operation instruct s))) := by
  refine ⟨vm_free_ok_iff address l, vm_free_fail address l, ?_⟩
  intro hr
  have hc := heap_reachable_chain l hr
  refine ⟨?_, ?_, ?_, ?_, ?_⟩
  · apply vm_free_fail
    rw [Ne, vm_free_ok_iff]
    rintro ⟨n, hn, _, h0⟩
    have : 0xb700 ≤ n.address := heap_chain_ge l _ hc n hn
    omega
  · intro n hn x h1 h2
    exact vm_free_interior l _ hc n hn x h1 (by
      show x < n.address + n.bank_blocks * 64
      omega)
  · intro size h32 hne
    have hc2 := heap_reachable_chain _ (heap_reachable.malloc l size hr h32)
    obtain ⟨n, hn, h1, _⟩ := vm_malloc_node size l hne
    have hb : 1 ≤ n.bank_blocks := heap_chain_banks _ _ hc2 n hn
    exact vm_free_interior _ _ hc2 n hn _ (by omega) (by
      show (vm_malloc size l).1 + 1 < n.address + n.bank_blocks * 64
      omega)
  · intro hok
    apply vm_free_fail
    rw [vm_free_twice address l _ hc hok]
    decide
  · intro s instruct value hs hf
    subst hs
    exact (store_free_rejected s instruct value).1 hf

/-- C11 after `a = malloc(100)` on the startup heap (a = 0xB700): `free(a + 1)`
and `free(0)` return 0 and change nothing, `free(a)` returns 1 and a second
`free(a)` returns 0; storing a + 1 to 0x0834 stops with IllegalOperation and
storing a succeeds. -/
theorem vm_free_exact_address_witness :
    vm_free (0xB700 + 1) vm_malloc_100.head = (0, vm_malloc_100.head) ∧
    vm_free 0 vm_malloc_100.head = (0, vm_malloc_100.head) ∧
    vm_free 0xB700 vm_malloc_100.head = (1, init_heap_list) ∧
    vm_free 0xB700 (vm_free 0xB700 vm_malloc_100.head).2 = (0, init_heap_list) ∧
    store_word 0x0834 (0xB700 + 1) vm_malloc_100 0
      = .error (.illegal_operation 0 vm_malloc_100) ∧
    store_word 0x0834 0xB700 vm_malloc_100 0
      = .ok { vm_malloc_100 with head := init_heap_list } := by
  have hr : heap_reachable vm_malloc_100.head :=
    heap_reachable.malloc _ 100 heap_reachable.init (by decide)
  have h := (vm_free_exact_address vm_malloc_100.head 0xB700).2.2 hr
  exact ⟨h.2.1 { address := 0xB700, bank_blocks := 2, allocated_size := 100 } (by decide)
      (0xB700 + 1) (by decide) (by decide),
    h.1, by rfl, h.2.2.2.1 (by rfl),
    h.2.2.2.2 vm_malloc_100 0 (0xB700 + 1) rfl (by rfl), by rfl⟩

/-! ## Freeing everything -/

theorem heap_trace_reachable (l : List heap_node) (out : List Nat) (h : heap_trace l out) :
    heap_reachable l := by
  induction h with
  | init => exact heap_reachable.init
  | malloc l out size _ h32 ih => exact heap_reachable.malloc l size ih h32
  | free l out address _ ha ih => exact heap_reachable.free l address ih ha

theorem vm_malloc_loop_allocated (size req : Nat) (l : List heap_node) :
    ∀ r, vm_malloc_loop size req l = some r →
      ∀ n ∈ r.2, 0 < n.allocated_size → n ∈ l ∨ n.address = r.1 := by
  induction l with
  | nil => intro r h; simp [vm_malloc_loop] at h
  | cons c rest ih =>
    intro r h n hn hn0
    simp only [vm_malloc_loop] at h
    split at h
    · simp only [Option.some.injEq] at h
      rw [← h] at hn ⊢
      simp only [List.mem_cons] at hn
      rcases hn with rfl | hn
      · right; rfl
      · split at hn
        · simp only [List.mem_cons] at hn
          rcases hn with rfl | hn
          · exact absurd hn0 (by simp)
          · left; exact List.mem_cons_of_mem _ hn
        · left; exact List.mem_cons_of_mem _ hn
    · split at h
      · rename_i a2 l2 heq
        simp only [Option.some.injEq] at h
        rw [← h] at hn ⊢
        rcases List.mem_cons.mp hn with rfl | hn
        · left; exact List.mem_cons_self _ _
        · rcases ih (a2, l2) heq n hn hn0 with h1 | h1
          · left; exact List.mem_cons_of_mem _ h1
          · right; exact h1
      · simp at h

/-- The allocated nodes `vm_malloc` leaves were in the list before, except the
one at the returned address. -/
theorem vm_malloc_allocated (size : Nat) (l : List heap_node) :
    ∀ n ∈ (vm_malloc size l).2, 0 < n.allocated_size →
      n ∈ l ∨ n.address = (vm_malloc size l).1 := by
  unfold vm_malloc
  simp only
  split
  · intro n hn _; left; exact hn
  · split
    · rename_i r heq
      exact vm_malloc_loop_allocated size _ l r heq
    · intro n hn _; left; exact hn

theorem vm_free_no_address (address : Nat) (l : List heap_node) (a : Nat)
    (hc : heap_chain a l) (h : (vm_free address l).1 = 1) :
    ∀ n ∈ (vm_free address l).2, 0 < n.allocated_size → n.address ≠ address := by
  cases heq : vm_free_loop address none l with
  | none =>
    unfold vm_free at h
    rw [heq] at h
    have h0 : (0 : Nat) = 1 := h
    exact absurd h0 (by decide)
  | some l2 =>
    have e : (vm_free address l).2 = l2 := by
      unfold vm_free
      rw [heq]
    rw [e]
    exact vm_free_loop_no_address address l none a l2 hc heq (by simp)

/-- The allocated nodes are at outstanding addresses. -/
theorem heap_trace_outstanding (l : List heap_node) (out : List Nat) (h : heap_trace l out) :
    ∀ n ∈ l, 0 < n.allocated_size → n.address ∈ out := by
  induction h with
  | init =>
    intro n hn hn0
    simp only [init_heap_list, List.mem_singleton] at hn
    subst hn
    exact absurd hn0 (by decide)
  | malloc l out size ht h32 ih =>
    intro n hn hn0
    have hc := heap_reachable_chain _
      (heap_reachable.malloc l size (heap_trace_reachable l out ht) h32)
    have hge : 0xb700 ≤ n.address := heap_chain_ge _ _ hc n hn
    rcases vm_malloc_allocated size l n hn hn0 with h1 | h1
    · have := ih n h1 hn0
      split
      · exact this
      · exact List.mem_cons_of_mem _ this
    · split
      · rename_i h0
        omega
      · rw [h1]
        exact List.mem_cons_self _ _
  | free l out address ht ha ih =>
    intro n hn hn0
    have hc := heap_reachable_chain l (heap_trace_reachable l out ht)
    have hmem := ih n (vm_free_allocated address l n hn hn0) hn0
    split
    · rename_i hok
      have hne := vm_free_no_address address l _ hc hok n hn hn0
      exact (List.mem_erase_of_ne hne).mpr hmem
    · exact hmem

/-- A partition without two free neighbours whose nodes are all free is the
single free node of 128 banks. -/
theorem all_free_single (l : List heap_node) (hc : heap_chain HEAP_START l)
    (hn : no_adjacent_free l) (hf : ∀ n ∈ l, n.allocated_size = 0) :
    l = init_heap_list := by
  cases l with
  | nil =>
    have e : (0xb700 : Nat) = 0xd700 := hc
    exact absurd e (by decide)
  | cons c rest =>
    cases rest with
    | nil =>
      have h1 : c.address = 0xb700 := hc.1
      have h2 : 0xb700 + c.bank_blocks * 64 = 0xd700 := hc.2.2
      have h3 := hf c (List.mem_cons_self _ _)
      have h4 : c.bank_blocks = 128 := by omega
      cases c
      simp only at h1 h3 h4
      subst h1 h3 h4
      rfl
    | cons d r =>
      exact absurd ⟨hf c (List.mem_cons_self _ _),
        hf d (List.mem_cons_of_mem _ (List.mem_cons_self _ _))⟩ hn.1

/-- C16: after any sequence of `vm_malloc` and `vm_free` calls from `init_heap`,
when every address `vm_malloc` returned has been freed (no address is
outstanding), the heap list is the single free node with address 0xB700,
128 banks and allocated size 0; the same holds for every reachable heap list
without an allocated node. -/
theorem heap_all_freed (l : List heap_node) (h : heap_trace l []) :
    l = [{ address := 0xB700, bank_blocks := 128, allocated_size := 0 }] ∧
    ∀ l2, heap_reachable l2 → (∀ n ∈ l2, n.allocated_size = 0) →
      l2 = [{ address := 0xB700, bank_blocks := 128, allocated_size := 0 }] := by
  constructor
  · have hr := heap_trace_reachable l [] h
    apply all_free_single l (heap_reachable_chain l hr) (heap_reachable_adjacent l hr)
    intro n hn
    have := heap_trace_outstanding l [] h n hn
    by_cases h0 : n.allocated_size = 0
    · exact h0
    · exact absurd (this (Nat.pos_of_ne_zero h0)) (by simp)
  · intro l2 hr hf
    exact all_free_single l2 (heap_reachable_chain l2 hr) (heap_reachable_adjacent l2 hr) hf

/-- C16 on the sequence a = malloc(64), b = malloc(64), c = malloc(64), free(a),
free(c), free(b): the outstanding addresses run through [a], [b, a], [c, b, a],
[c, b], [b], [] and the final list is the single free node. -/
theorem heap_all_freed_witness :
    heap_trace heap_three_allocations [0xB780, 0xB740, 0xB700] ∧
    heap_trace heap_fragmented [0xB740] ∧
    heap_trace (vm_free 0xB740 heap_fragmented).2 [] ∧
    (vm_free 0xB740 heap_fragmented).2
      = [{ address := 0xB700, bank_blocks := 128, allocated_size := 0 }] := by
  have t1 : heap_trace (vm_malloc 64 init_heap_list).2 [0xB700] :=
    heap_trace.malloc _ _ 64 heap_trace.init (by decide)
  have t2 : heap_trace (vm_malloc 64 (vm_malloc 64 init_heap_list).2).2 [0xB740, 0xB700] :=
    heap_trace.malloc _ _ 64 t1 (by decide)
  have t3 : heap_trace heap_three_allocations [0xB780, 0xB740, 0xB700] :=
    heap_trace.malloc _ _ 64 t2 (by decide)
  have t4 : heap_trace (vm_free 0xB700 heap_three_allocations).2 [0xB780, 0xB740] :=
    heap_trace.free _ _ 0xB700 t3 (by decide)
  have t5 : heap_trace heap_fragmented [0xB740] :=
    heap_trace.free _ _ 0xB780 t4 (by decide)
  have t6 : heap_trace (vm_free 0xB740 heap_fragmented).2 [] :=
    heap_trace.free _ _ 0xB740 t5 (by decide)
  exact ⟨t3, t5, t6, (heap_all_freed _ t6).1⟩

/-! ## When `vm_malloc` succeeds -/

theorem required_blocks_eq (size : Nat) (h : size + 63 < 2 ^ 32) :
    (size + BANK_BLOCK_SIZE - 1) % 2 ^ 32 / BANK_BLOCK_SIZE = ceil_banks size := by
  show (size + 64 - 1) % 2 ^ 32 / 64 = ceil_banks size
  unfold ceil_banks
  omega

/-- On a reachable heap list, `vm_malloc(size)` with size at least 1 returns a
non-zero address exactly when some free node has `ceil(size / 64)` banks. -/
theorem vm_malloc_nonzero_iff (l : List heap_node) (size : Nat) (hr : heap_reachable l)
    (h1 : 1 ≤ size) (h32 : size < 2 ^ 32) :
    (vm_malloc size l).1 ≠ 0 ↔
      ∃ n ∈ l, n.allocated_size = 0 ∧ ceil_banks size ≤ n.bank_blocks := by
  have hc := heap_reachable_chain l hr
  have htot : total_banks l = 128 := heap_reachable_total l hr
  constructor
  · intro hne
    by_contra hno
    apply hne
    have hnone : ∀ n ∈ l, ¬ (n.allocated_size = 0 ∧ n.bank_blocks ≥ ceil_banks size) :=
      fun n hn hfit => hno ⟨n, hn, hfit.1, hfit.2⟩
    unfold vm_malloc
    simp only
    split
    · rfl
    · rename_i hreq
      have hle : (size + BANK_BLOCK_SIZE - 1) % 2 ^ 32 / BANK_BLOCK_SIZE = ceil_banks size := by
        show (size + 64 - 1) % 2 ^ 32 / 64 = ceil_banks size
        have hreq2 : ¬ ((size + 64 - 1) % 2 ^ 32 / 64 = 0) := hreq
        unfold ceil_banks
        omega
      rw [hle, vm_malloc_loop_none size _ l hnone]
  · intro hex
    obtain ⟨pre, n, post, e, ⟨hfree, hfit⟩, hpre⟩ :=
      exists_first (fun m => m.allocated_size = 0 ∧ ceil_banks size ≤ m.bank_blocks) l hex
    subst e
    have hb : 0xb700 ≤ n.address ∧ 1 ≤ n.bank_blocks ∧ n.address + n.bank_blocks * 64 ≤ 0xd700 :=
      heap_chain_append pre n post _ hc
    have hcs := ceil_banks_spec size
    have hreq := required_blocks_eq size (by omega)
    have hne : ¬ (ceil_banks size = 0) := by omega
    unfold vm_malloc
    simp only [hreq]
    rw [if_neg hne, vm_malloc_loop_first_fit size (ceil_banks size) n post hfree hfit pre hpre]
    show n.address ≠ 0
    omega

/-- One allocation on a heap that has seen allocations only. -/
theorem vm_malloc_after_mallocs (allocs : List heap_node) (used size : Nat)
    (ha : ∀ n ∈ allocs, n.allocated_size ≠ 0) (h1 : 1 ≤ size)
    (hb : used + ceil_banks size ≤ HEAP_BANK_NUM) :
    vm_malloc size (heap_after_mallocs allocs used) =
      (HEAP_START + BANK_BLOCK_SIZE * used,
       heap_after_mallocs
         (allocs ++ [{ address := HEAP_START + BANK_BLOCK_SIZE * used
                       bank_blocks := ceil_banks size
                       allocated_size := size }])
         (used + ceil_banks size)) := by
  have hb2 : used + ceil_banks size ≤ 128 := hb
  have hcs := ceil_banks_spec size
  have hreq := required_blocks_eq size (by omega)
  have hne : ¬ (ceil_banks size = 0) := by omega
  have hu : used < HEAP_BANK_NUM := by
    show used < 128
    omega
  have hpre : ∀ m ∈ allocs, ¬ (m.allocated_size = 0 ∧ ceil_banks size ≤ m.bank_blocks) :=
    fun m hm hfit => ha m hm hfit.1
  unfold heap_after_mallocs vm_malloc
  simp only [hreq, if_pos hu]
  rw [if_neg hne,
    vm_malloc_loop_first_fit size (ceil_banks size)
      { address := HEAP_START + BANK_BLOCK_SIZE * used
        bank_blocks := HEAP_BANK_NUM - used
        allocated_size := 0 } [] rfl (by show ceil_banks size ≤ 128 - used; omega) allocs hpre]
  simp only [List.append_assoc, List.singleton_append, Prod.mk.injEq, true_and,
    List.append_cancel_left_eq, List.cons.injEq]
  by_cases hlt : used + ceil_banks size < 128
  · have h2 : ceil_banks size < HEAP_BANK_NUM - used := by show _ < 128 - used; omega
    have h3 : used + ceil_banks size < HEAP_BANK_NUM := hlt
    rw [if_pos h2, if_pos h3]
    simp only [List.cons.injEq, heap_node.mk.injEq, and_true]
    refine ⟨?_, ?_⟩
    · show (0xb700 + 64 * used + ceil_banks size * 64) % 2 ^ 32
        = 0xb700 + 64 * (used + ceil_banks size)
      omega
    · show 128 - used - ceil_banks size = 128 - (used + ceil_banks size)
      omega
  · have h2 : ¬ (ceil_banks size < HEAP_BANK_NUM - used) := by show ¬ (_ < 128 - used); omega
    have h3 : ¬ (used + ceil_banks size < HEAP_BANK_NUM) := hlt
    rw [if_neg h2, if_neg h3]

theorem all_mallocs_succeed_after (sizes : List Nat) :
    ∀ (allocs : List heap_node) (used : Nat), (∀ n ∈ allocs, n.allocated_size ≠ 0) →
      (∀ s ∈ sizes, 1 ≤ s) → used + (sizes.map ceil_banks).sum ≤ HEAP_BANK_NUM →
      all_mallocs_succeed sizes (heap_after_mallocs allocs used) := by
  induction sizes with
  | nil => intro _ _ _ _ _; trivial
  | cons size rest ih =>
    intro allocs used ha h1 hb
    simp only [List.map_cons, List.sum_cons] at hb
    have hs : 1 ≤ size := h1 size (List.mem_cons_self _ _)
    have hstep := vm_malloc_after_mallocs allocs used size ha hs (by omega)
    refine ⟨?_, ?_⟩
    · rw [hstep]
      show 0xb700 + 64 * used ≠ 0
      omega
    · rw [hstep]
      apply ih
      · intro n hn
        rcases List.mem_append.mp hn with h2 | h2
        · exact ha n h2
        · simp only [List.mem_singleton] at h2
          subst h2
          show size ≠ 0
          omega
      · exact fun s hs2 => h1 s (List.mem_cons_of_mem _ hs2)
      · omega

/-- C15 as stated fails. After `malloc(4097)` (65 banks) a `malloc(4095)` needs
64 banks and returns 0 although 4097 + 4095 = 8192 bytes are within the heap
size. With frees: after a = malloc(4096), b = malloc(64), c = malloc(4032),
free(a), free(c) the free banks are split in runs of 64 and 63, and
`malloc(4160)` (65 banks) returns 0 although 64 + 4160 bytes (66 banks) are
outstanding. -/
theorem vm_malloc_zero_within_heap_size :
    (vm_malloc 4097 init_heap_list).1 = 0xB700 ∧
    4097 + 4095 ≤ HEAP_BANK_NUM * BANK_BLOCK_SIZE ∧
    (vm_malloc 4095 (vm_malloc 4097 init_heap_list).2).1 = 0 ∧
    heap_two_holes =
      [{ address := 0xB700, bank_blocks := 64, allocated_size := 0 },
       { address := 0xC700, bank_blocks := 1, allocated_size := 64 },
       { address := 0xC740, bank_blocks := 63, allocated_size := 0 }] ∧
    64 + 4160 ≤ HEAP_BANK_NUM * BANK_BLOCK_SIZE ∧
    ceil_banks 64 + ceil_banks 4160 ≤ HEAP_BANK_NUM ∧
    (vm_malloc 4160 heap_two_holes).1 = 0 := by
  refine ⟨by rfl, by decide, by rfl, by rfl, by decide, by decide, by rfl⟩

/-- C15, amended: for a sequence of `vm_malloc` calls with sizes of at least 1
from `init_heap`, with no `vm_free` in between, whose requests need at most
128 banks in all (the sum of `ceil(size / 64)`), no call returns 0. With
`vm_free` calls in between, on any reachable heap list, `vm_malloc(size)`
returns a non-zero address exactly when some free node has `ceil(size / 64)`
banks. -/
theorem vm_malloc_never_zero (sizes : List Nat) (h1 : ∀ s ∈ sizes, 1 ≤ s)
    (hb : (sizes.map ceil_banks).sum ≤ HEAP_BANK_NUM) :
    all_mallocs_succeed sizes init_heap_list ∧
    ∀ l size, heap_reachable l → 1 ≤ size → size < 2 ^ 32 →
      ((vm_malloc size l).1 ≠ 0 ↔
        ∃ n ∈ l, n.allocated_size = 0 ∧ ceil_banks size ≤ n.bank_blocks) := by
  refine ⟨?_, fun l size hr hs h32 => vm_malloc_nonzero_iff l size hr hs h32⟩
  have := all_mallocs_succeed_after sizes [] 0 (by simp) h1 (by omega)
  exact this

/-- C15 amended, at the requests 4097, 4031, 1 (65 + 63 + 1 > 128 is excluded;
65 + 63 = 128 banks are not): `malloc(4097)` and `malloc(4031)` both succeed,
at 0xB700 and 0xC740. -/
theorem vm_malloc_never_zero_witness :
    all_mallocs_succeed [4097, 4031] init_heap_list ∧
    (vm_malloc 4097 init_heap_list).1 = 0xB700 ∧
    (vm_malloc 4031 (vm_malloc 4097 init_heap_list).2).1 = 0xC740 :=
  ⟨(vm_malloc_never_zero [4097, 4031] (by decide) (by decide)).1, by rfl, by rfl⟩

/-! ## The allocation routine and the read-only region -/

/-- C17: in a state whose heap list is the startup list (one free node of 128
banks), a word store of a value `size` with 1 <= size <= 8192 to 0x0830
returns, register 28 becomes 0xB700 and no other register changes; the only
other change is the heap list, which becomes the list `vm_malloc` leaves. -/
theorem store_word_malloc_first (s : VM) (instruct size : Nat)
    (hs : s.head = init_heap_list) (h1 : 1 ≤ size) (h2 : size ≤ 8192) :
    store_word 0x0830 size s instruct
      = .ok (set_reg { s with head := (vm_malloc size init_heap_list).2 } 28 0xB700) ∧
    (set_reg { s with head := (vm_malloc size init_heap_list).2 } 28 0xB700).reg_bank 28
      = 0xB700 ∧
    ∀ r, r ≠ 28 →
      (set_reg { s with head := (vm_malloc size init_heap_list).2 } 28 0xB700).reg_bank r
        = s.reg_bank r := by
  have hcs := ceil_banks_spec size
  have hm := vm_malloc_after_mallocs [] 0 size (by simp) h1 (by show 0 + ceil_banks size ≤ 128; omega)
  have hm1 : (vm_malloc size init_heap_list).1 = 0xB700 := by
    have e : init_heap_list = heap_after_mallocs [] 0 := rfl
    rw [e, hm]
    rfl
  have v0 := is_valid_address_low s.head 0x0830 (by decide)
  have v1 := is_valid_address_low s.head ((0x0830 + 1) % 2 ^ 32) (by decide)
  have v2 := is_valid_address_low s.head ((0x0830 + 2) % 2 ^ 32) (by decide)
  have v3 := is_valid_address_low s.head ((0x0830 + 3) % 2 ^ 32) (by decide)
  have hsz : size % 2 ^ 32 = size := Nat.mod_eq_of_lt (by omega)
  refine ⟨?_, ?_, ?_⟩
  · simp only [store_word, v0, v1, v2, v3, hsz]
    simp [Except.bind, console_write_routine, DATA_MEM_START, DATA_MEM_END, INST_MEM_END,
      VR_START, VR_END, VR_WRITE_CHAR, VR_WRITE_SINT, VR_WRITE_UINT, VR_HALT, VR_DUMP_PC,
      VR_DUMP_REG, VR_DUMP_WORD, VR_MALLOC, hs, hm1]
  · simp [set_reg]
  · intro r hr
    simp [set_reg, hr]

/-- C17 at size 100 on the startup state: the store returns with register 28
equal to 0xB700, register 27 still 0, and the heap list split in a node of
2 banks and 126 free banks. -/
theorem store_word_malloc_first_witness :
    store_word 0x0830 100 vm_zero 0
      = .ok (set_reg { vm_zero with head := (vm_malloc 100 init_heap_list).2 } 28 0xB700) ∧
    (set_reg { vm_zero with head := (vm_malloc 100 init_heap_list).2 } 28 0xB700).reg_bank 28
      = 0xB700 ∧
    (set_reg { vm_zero with head := (vm_malloc 100 init_heap_list).2 } 28 0xB700).reg_bank 27
      = 0 ∧
    (vm_malloc 100 init_heap_list).2 =
      [{ address := 0xB700, bank_blocks := 2, allocated_size := 100 },
       { address := 0xB780, bank_blocks := 126, allocated_size := 0 }] :=
  ⟨(store_word_malloc_first vm_zero 0 100 rfl (by decide) (by decide)).1,
   (store_word_malloc_first vm_zero 0 100 rfl (by decide) (by decide)).2.1,
   (store_word_malloc_first vm_zero 0 100 rfl (by decide) (by decide)).2.2 27 (by decide),
   by rfl⟩

/-- C18: a store of any width at an address in the INST region
[0x0000, 0x03FF] stops with IllegalOperation in the state it was called in, so
no byte of instruction memory, data memory or heap changes; this includes the
half-word store at 0x03FF and the word stores at 0x03FD .. 0x03FF, which run
past the end of the region. -/
theorem store_inst_illegal (s : VM) (instruct A V : Nat) (hA : A ≤ 0x03FF) :
    store_byte A V s instruct = .error (.illegal_operation instruct s) ∧
    store_half_word A V s instruct = .error (.illegal_operation instruct s) ∧
    store_word A V s instruct = .error (.illegal_operation instruct s) := by
  have v0 := is_valid_address_low s.head A (by omega)
  have v1 := is_valid_address_low s.head ((A + 1) % 2 ^ 32) (by omega)
  have v2 := is_valid_address_low s.head ((A + 2) % 2 ^ 32) (by omega)
  have v3 := is_valid_address_low s.head ((A + 3) % 2 ^ 32) (by omega)
  have c1 : DATA_MEM_START = 0x400 := rfl
  have c2 : INST_MEM_END = 0x3ff := rfl
  have hd1 : ¬ (A ≥ DATA_MEM_START ∧ A ≤ DATA_MEM_END) := by omega
  have hd2 : ¬ (A ≥ DATA_MEM_START ∧ A < DATA_MEM_END) := by omega
  have hd3 : ¬ (A ≥ DATA_MEM_START ∧ A ≤ DATA_MEM_END - 3) := by omega
  have hi : A ≤ INST_MEM_END := by omega
  refine ⟨?_, ?_, ?_⟩
  · simp only [store_byte, v0, hd1, hi]
    simp [illegal_operation]
  · simp only [store_half_word, v0, v1, hd2, hi]
    simp [illegal_operation]
  · simp only [store_word, v0, v1, v2, v3, hd3, hi]
    simp [illegal_operation]

/-- C18 at a byte store to 0x0000, a half-word store to 0x03FF, a word store to
0x03FD, and the instruction `sw r0, 0(r0)` (word `0x00002023`) on the startup
state. -/
theorem store_inst_illegal_witness :
    store_byte 0x0000 7 vm_zero 0 = .error (.illegal_operation 0 vm_zero) ∧
    store_half_word 0x03FF 7 vm_zero 0 = .error (.illegal_operation 0 vm_zero) ∧
    store_word 0x03FD 7 vm_zero 0 = .error (.illegal_operation 0 vm_zero) ∧
    execute_instruct 0x00002023 vm_zero = .error (.illegal_operation 0x00002023 vm_zero) :=
  ⟨(store_inst_illegal vm_zero 0 0x0000 7 (by decide)).1,
   (store_inst_illegal vm_zero 0 0x03FF 7 (by decide)).2.1,
   (store_inst_illegal vm_zero 0 0x03FD 7 (by decide)).2.2,
   by rfl⟩

/-! ## Instructions that are not implemented -/

theorem nni_ok {α : Type} (a : α) : no_not_implemented (Except.ok a : Except Exit α) := by
  intro w s h
  cases h

theorem nni_illegal {α : Type} (i : Nat) (s : VM) :
    no_not_implemented (illegal_operation i s : Except Exit α) := by
  intro w s h
  cases h

theorem nni_undefined {α : Type} :
    no_not_implemented (Except.error Exit.undefined_behaviour : Except Exit α) := by
  intro w s h
  cases h

theorem nni_bind {α β : Type} (r : Except Exit α) (f : α → Except Exit β)
    (hr : no_not_implemented r) (hf : ∀ a, no_not_implemented (f a)) :
    no_not_implemented (r.bind f) := by
  cases r with
  | error e =>
    intro w s h
    have he : e = Exit.not_implemented w s := by simpa [Except.bind] using h
    subst he
    exact hr w s rfl
  | ok a => exact hf a

theorem nni_ite {α : Type} (c : Prop) [Decidable c] (a b : Except Exit α)
    (ha : no_not_implemented a) (hb : no_not_implemented b) :
    no_not_implemented (if c then a else b) := by
  split
  · exact ha
  · exact hb

theorem nni_array_read (size : Nat) (a : Nat → Nat) (i : Nat) :
    no_not_implemented (array_read size a i) :=
  nni_ite _ _ _ (nni_ok _) nni_undefined

theorem nni_array_write (size : Nat) (a : Nat → Nat) (i v : Nat) :
    no_not_implemented (array_write size a i v) :=
  nni_ite _ _ _ (nni_ok _) nni_undefined

theorem nni_console_read_routine (address : Nat) (s : VM) :
    no_not_implemented (console_read_routine address s) := by
  unfold console_read_routine
  refine nni_ite _ _ _ (nni_ok _) (nni_ite _ _ _ ?_ ?_)
  · split
    · exact nni_ok _
    · intro w s h
      cases h
  · exact nni_bind _ _ (nni_array_read _ _ _) fun _ =>
      nni_bind _ _ (nni_array_read _ _ _) fun _ =>
        nni_bind _ _ (nni_array_read _ _ _) fun _ =>
          nni_bind _ _ (nni_array_read _ _ _) fun _ => nni_ok _

theorem nni_load_byte (address : Nat) (s : VM) (instruct : Nat) :
    no_not_implemented (load_byte address s instruct) := by
  unfold load_byte
  exact nni_ite _ _ _ (nni_illegal _ _) (nni_ite _ _ _ (nni_ok _) (nni_ite _ _ _ (nni_ok _)
    (nni_ite _ _ _ (nni_bind _ _ (nni_console_read_routine _ _) fun _ => nni_ok _)
      (nni_bind _ _ (nni_array_read _ _ _) fun _ => nni_ok _))))

theorem nni_load_half_word (address : Nat) (s : VM) (instruct : Nat) :
    no_not_implemented (load_half_word address s instruct) := by
  unfold load_half_word
  exact nni_ite _ _ _ (nni_illegal _ _) (nni_ite _ _ _ (nni_ok _) (nni_ite _ _ _ (nni_ok _)
    (nni_ite _ _ _ (nni_bind _ _ (nni_console_read_routine _ _) fun _ => nni_ok _)
      (nni_bind _ _ (nni_array_read _ _ _) fun _ =>
        nni_bind _ _ (nni_array_read _ _ _) fun _ => nni_ok _))))

theorem nni_load_word (address : Nat) (s : VM) (instruct : Nat) :
    no_not_implemented (load_word address s instruct) := by
  unfold load_word
  exact nni_ite _ _ _ (nni_illegal _ _) (nni_ite _ _ _ (nni_ok _) (nni_ite _ _ _ (nni_ok _)
    (nni_ite _ _ _ (nni_console_read_routine _ _)
      (nni_bind _ _ (nni_array_read _ _ _) fun _ =>
        nni_bind _ _ (nni_array_read _ _ _) fun _ =>
          nni_bind _ _ (nni_array_read _ _ _) fun _ =>
            nni_bind _ _ (nni_array_read _ _ _) fun _ => nni_ok _))))

theorem nni_console_write_routine (address value : Nat) (s : VM) (instruct : Nat) :
    no_not_implemented (console_write_routine address value s instruct) := by
  unfold console_write_routine
  refine nni_ite _ _ _ (nni_ok _) (nni_ite _ _ _ (nni_ok _) (nni_ite _ _ _ (nni_ok _)
    (nni_ite _ _ _ ?_ (nni_ite _ _ _ (nni_ok _) (nni_ite _ _ _ (nni_ok _)
      (nni_ite _ _ _ (nni_bind _ _ (nni_load_word _ _ _) fun _ => nni_ok _)
        (nni_ite _ _ _ (nni_ok _)
          (nni_ite _ _ _ (nni_ite _ _ _ (nni_illegal _ _) (nni_ok _)) (nni_ok _)))))))))
  intro w s h
  cases h

theorem nni_store_byte (address value : Nat) (s : VM) (instruct : Nat) :
    no_not_implemented (store_byte address value s instruct) := by
  unfold store_byte
  exact nni_ite _ _ _ (nni_illegal _ _) (nni_ite _ _ _ (nni_ok _)
    (nni_ite _ _ _ (nni_illegal _ _)
      (nni_ite _ _ _
        (nni_bind _ _ (nni_console_write_routine _ _ _ _) fun _ =>
          nni_ite _ _ _ (nni_illegal _ _) (nni_ok _))
        (nni_bind _ _ (nni_array_write _ _ _ _) fun _ => nni_ok _))))

theorem nni_store_half_word (address value : Nat) (s : VM) (instruct : Nat) :
    no_not_implemented (store_half_word address value s instruct) := by
  unfold store_half_word
  exact nni_ite _ _ _ (nni_illegal _ _) (nni_ite _ _ _ (nni_ok _)
    (nni_ite _ _ _ (nni_illegal _ _)
      (nni_ite _ _ _
        (nni_bind _ _ (nni_console_write_routine _ _ _ _) fun _ =>
          nni_ite _ _ _ (nni_illegal _ _) (nni_ok _))
        (nni_bind _ _ (nni_array_write _ _ _ _) fun _ =>
          nni_bind _ _ (nni_array_write _ _ _ _) fun _ => nni_ok _))))

theorem nni_store_word (address value : Nat) (s : VM) (instruct : Nat) :
    no_not_implemented (store_word address value s instruct) := by
  unfold store_word
  exact nni_ite _ _ _ (nni_illegal _ _) (nni_ite _ _ _ (nni_ok _)
    (nni_ite _ _ _ (nni_illegal _ _)
      (nni_ite _ _ _
        (nni_bind _ _ (nni_console_write_routine _ _ _ _) fun _ =>
          nni_ite _ _ _ (nni_illegal _ _) (nni_ok _))
        (nni_bind _ _ (nni_array_write _ _ _ _) fun _ =>
          nni_bind _ _ (nni_array_write _ _ _ _) fun _ =>
            nni_bind _ _ (nni_array_write _ _ _ _) fun _ =>
              nni_bind _ _ (nni_array_write _ _ _ _) fun _ => nni_ok _))))

theorem handle_R_listed (w : Nat) (s : VM) (h : R_listed w) :
    no_not_implemented (handle_R_instruct w s) := by
  unfold handle_R_instruct
  rcases h with ⟨h3, h7⟩ | ⟨h3, h7⟩ | ⟨h3, h7⟩ | ⟨h3, h7⟩ | ⟨h3, h7⟩ | ⟨h3, h7⟩ | ⟨h3, h7⟩ |
    ⟨h3, h7⟩ | ⟨h3, h7⟩ | ⟨h3, h7⟩ <;>
  · simp only [h3, h7]
    refine nni_bind _ _ ?_ (fun _ => nni_ok _)
    simp only [Nat.reduceEqDiff, and_self, and_true, and_false, if_true, if_false,
      Nat.zero_ne_one, OfNat.ofNat_ne_zero, OfNat.zero_ne_ofNat]
    first
      | exact nni_ok _
      | exact nni_ite _ _ _ (nni_ok _) nni_undefined

theorem handle_R_not_listed (w : Nat) (s : VM) (h : ¬ R_listed w) :
    handle_R_instruct w s = .error (.not_implemented w s) := by
  unfold R_listed at h
  simp only [not_or] at h
  obtain ⟨n1, n2, n3, n4, n5, n6, n7, n8, n9, n10⟩ := h
  unfold handle_R_instruct
  simp only [if_neg n1, if_neg n2, if_neg n3, if_neg n4, if_neg n5, if_neg n6, if_neg n7,
    if_neg n8, if_neg n9, if_neg n10]
  rfl

theorem handle_I1_listed (w : Nat) (s : VM)
    (h : field w 12 3 ∈ [0b000, 0b100, 0b110, 0b111, 0b010, 0b011]) :
    no_not_implemented (handle_I1_instruct w s) := by
  unfold handle_I1_instruct
  simp only [List.mem_cons, List.mem_singleton, List.not_mem_nil, or_false] at h
  rcases h with h3 | h3 | h3 | h3 | h3 | h3 <;>
  · simp only [h3]
    refine nni_bind _ _ ?_ (fun _ => nni_ok _)
    simp only [Nat.reduceEqDiff, if_true, if_false]
    exact nni_ok _

theorem handle_I1_not_listed (w : Nat) (s : VM)
    (h : ¬ field w 12 3 ∈ [0b000, 0b100, 0b110, 0b111, 0b010, 0b011]) :
    handle_I1_instruct w s = .error (.not_implemented w s) := by
  simp only [List.mem_cons, List.mem_singleton, List.not_mem_nil, or_false, not_or] at h
  obtain ⟨n1, n2, n3, n4, n5, n6⟩ := h
  unfold handle_I1_instruct
  simp only [if_neg n1, if_neg n2, if_neg n3, if_neg n4, if_neg n5, if_neg n6]
  rfl

theorem handle_I2_listed (w : Nat) (s : VM)
    (h : field w 12 3 ∈ [0b000, 0b001, 0b010, 0b100, 0b101]) :
    no_not_implemented (handle_I2_instruct w s) := by
  unfold handle_I2_instruct
  simp only [List.mem_cons, List.mem_singleton, List.not_mem_nil, or_false] at h
  rcases h with h3 | h3 | h3 | h3 | h3 <;>
  · simp only [h3]
    refine nni_bind _ _ ?_ (fun _ => nni_ok _)
    simp only [Nat.reduceEqDiff, if_true, if_false]
    first
      | exact nni_bind _ _ (nni_load_byte _ _ _) (fun _ => nni_ok _)
      | exact nni_bind _ _ (nni_load_half_word _ _ _) (fun _ => nni_ok _)
      | exact nni_bind _ _ (nni_load_word _ _ _) (fun _ => nni_ok _)

theorem handle_I2_not_listed (w : Nat) (s : VM)
    (h : ¬ field w 12 3 ∈ [0b000, 0b001, 0b010, 0b100, 0b101]) :
    handle_I2_instruct w s = .error (.not_implemented w s) := by
  simp only [List.mem_cons, List.mem_singleton, List.not_mem_nil, or_false, not_or] at h
  obtain ⟨n1, n2, n3, n4, n5⟩ := h
  unfold handle_I2_instruct
  simp only [if_neg n1, if_neg n2, if_neg n3, if_neg n4, if_neg n5]
  rfl

theorem handle_I3_listed (w : Nat) (s : VM) (h : field w 12 3 = 0b000) :
    no_not_implemented (handle_I3_instruct w s) := by
  unfold handle_I3_instruct
  simp only [h, if_true]
  exact nni_ok _

theorem handle_I3_not_listed (w : Nat) (s : VM) (h : ¬ field w 12 3 = 0b000) :
    handle_I3_instruct w s = .error (.not_implemented w s) := by
  unfold handle_I3_instruct
  simp only [if_neg h]
  rfl

theorem handle_S_listed (w : Nat) (s : VM) (h : field w 12 3 ∈ [0b000, 0b001, 0b010]) :
    no_not_implemented (handle_S_instruct w s) := by
  unfold handle_S_instruct
  simp only [List.mem_cons, List.mem_singleton, List.not_mem_nil, or_false] at h
  rcases h with h3 | h3 | h3 <;>
  · simp only [h3]
    refine nni_bind _ _ ?_ (fun _ => nni_ok _)
    simp only [Nat.reduceEqDiff, if_true, if_false]
    first
      | exact nni_store_byte _ _ _ _
      | exact nni_store_half_word _ _ _ _
      | exact nni_store_word _ _ _ _

theorem handle_S_not_listed (w : Nat) (s : VM) (h : ¬ field w 12 3 ∈ [0b000, 0b001, 0b010]) :
    handle_S_instruct w s = .error (.not_implemented w s) := by
  simp only [List.mem_cons, List.mem_singleton, List.not_mem_nil, or_false, not_or] at h
  obtain ⟨n1, n2, n3⟩ := h
  unfold handle_S_instruct
  simp only [if_neg n1, if_neg n2, if_neg n3]
  rfl

theorem handle_SB_listed (w : Nat) (s : VM)
    (h : field w 12 3 ∈ [0b000, 0b001, 0b100, 0b101, 0b110, 0b111]) :
    no_not_implemented (handle_SB_instruct w s) := by
  unfold handle_SB_instruct
  simp only [List.mem_cons, List.mem_singleton, List.not_mem_nil, or_false] at h
  rcases h with h3 | h3 | h3 | h3 | h3 | h3 <;>
  · simp only [h3]
    refine nni_bind _ _ ?_ (fun _ => nni_ite _ _ _ (nni_ok _) (nni_ok _))
    simp only [Nat.reduceEqDiff, if_true, if_false]
    exact nni_ok _

theorem handle_SB_not_listed (w : Nat) (s : VM)
    (h : ¬ field w 12 3 ∈ [0b000, 0b001, 0b100, 0b101, 0b110, 0b111]) :
    handle_SB_instruct w s = .error (.not_implemented w s) := by
  simp only [List.mem_cons, List.mem_singleton, List.not_mem_nil, or_false, not_or] at h
  obtain ⟨n1, n2, n3, n4, n5, n6⟩ := h
  unfold handle_SB_instruct
  simp only [if_neg n1, if_neg n2, if_neg n4, if_neg n3, if_neg n5, if_neg n6]
  rfl

theorem opcode_eq_field (w : Nat) : w &&& 0x7F = field w 0 7 := by
  unfold field
  rw [Nat.pow_zero, Nat.div_one]
  exact Nat.and_pow_two_sub_one_eq_mod w 7

theorem execute_instruct_recognised (w : Nat) (s : VM) (h : recognised w) :
    no_not_implemented (execute_instruct w s) := by
  unfold execute_instruct
  refine nni_bind _ _ ?_ (fun _ => nni_ok _)
  simp only [opcode_eq_field]
  rcases h with ⟨hop, hl⟩ | ⟨hop, hl⟩ | ⟨hop, hl⟩ | ⟨hop, hl⟩ | ⟨hop, hl⟩ | ⟨hop, hl⟩ | hop | hop
  · rw [hop, if_pos rfl]
    exact handle_R_listed w s hl
  · rw [hop, if_neg (by decide), if_pos rfl]
    exact handle_I1_listed w s hl
  · rw [hop, if_neg (by decide), if_neg (by decide), if_pos rfl]
    exact handle_I2_listed w s hl
  · rw [hop, if_neg (by decide), if_neg (by decide), if_neg (by decide), if_pos rfl]
    exact handle_I3_listed w s hl
  · rw [hop, if_neg (by decide), if_neg (by decide), if_neg (by decide), if_neg (by decide),
      if_pos rfl]
    exact handle_S_listed w s hl
  · rw [hop, if_neg (by decide), if_neg (by decide), if_neg (by decide), if_neg (by decide),
      if_neg (by decide), if_pos rfl]
    exact handle_SB_listed w s hl
  · rw [hop, if_neg (by decide), if_neg (by decide), if_neg (by decide), if_neg (by decide),
      if_neg (by decide), if_neg (by decide), if_pos rfl]
    exact nni_ok _
  · rw [hop, if_neg (by decide), if_neg (by decide), if_neg (by decide), if_neg (by decide),
      if_neg (by decide), if_neg (by decide), if_neg (by decide), if_pos rfl]
    exact nni_ok _

theorem execute_instruct_not_recognised (w : Nat) (s : VM) (h : ¬ recognised w) :
    execute_instruct w s = .error (.not_implemented w s) := by
  unfold recognised at h
  simp only [not_or, not_and] at h
  obtain ⟨hR, hI1, hI2, hI3, hS, hSB, hU, hUJ⟩ := h
  unfold execute_instruct
  simp only [opcode_eq_field]
  by_cases c1 : field w 0 7 = R_TYPE
  · rw [if_pos c1, handle_R_not_listed w s (hR c1)]
    rfl
  rw [if_neg c1]
  by_cases c2 : field w 0 7 = I_TYPE_ONE
  · rw [if_pos c2, handle_I1_not_listed w s (hI1 c2)]
    rfl
  rw [if_neg c2]
  by_cases c3 : field w 0 7 = I_TYPE_TWO
  · rw [if_pos c3, handle_I2_not_listed w s (hI2 c3)]
    rfl
  rw [if_neg c3]
  by_cases c4 : field w 0 7 = I_TYPE_THREE
  · rw [if_pos c4, handle_I3_not_listed w s (hI3 c4)]
    rfl
  rw [if_neg c4]
  by_cases c5 : field w 0 7 = S_TYPE
  · rw [if_pos c5, handle_S_not_listed w s (hS c5)]
    rfl
  rw [if_neg c5]
  by_cases c6 : field w 0 7 = SB_TYPE
  · rw [if_pos c6, handle_SB_not_listed w s (hSB c6)]
    rfl
  rw [if_neg c6, if_neg hU, if_neg hUJ]
  rfl

/-- C19: `execute_instruct` ends in NotImplemented exactly for the words the
opcode table does not list: low 7 bits not one of the eight opcodes, or a
(func3, func7) combination that is not one of the family's operations. The
state reported at that point is the state before the instruction, for the
word 0x00000000 as for every other such word. -/
theorem execute_instruct_not_implemented (w : Nat) (s : VM) :
    ((∃ w' s', execute_instruct w s = .error (.not_implemented w' s')) ↔ ¬ recognised w) ∧
    (¬ recognised w → execute_instruct w s = .error (.not_implemented w s)) ∧
    ¬ recognised 0x00000000 ∧
    execute_instruct 0x00000000 s = .error (.not_implemented 0x00000000 s) := by
  have h0 : ¬ recognised 0x00000000 := by
    unfold recognised R_listed
    decide
  refine ⟨⟨?_, ?_⟩, execute_instruct_not_recognised w s, h0,
    execute_instruct_not_recognised 0 s h0⟩
  · rintro ⟨w', s', h⟩ hrec
    exact execute_instruct_recognised w s hrec w' s' h
  · intro h
    exact ⟨w, s, execute_instruct_not_recognised w s h⟩

/-- C19 at concrete words on the startup state: 0x00000000 (no opcode),
0x00003003 (opcode of the loads with func3 = 011), 0x02000033 (R family with
func7 = 0000001) and 0x00001067 (jalr opcode with func3 = 001) end in
NotImplemented with the registers and PC of the startup state; `addi r0, r0, 5`
(0x00500013) is recognised and returns. -/
theorem execute_instruct_not_implemented_witness :
    execute_instruct 0x00000000 vm_zero = .error (.not_implemented 0x00000000 vm_zero) ∧
    execute_instruct 0x00003003 vm_zero = .error (.not_implemented 0x00003003 vm_zero) ∧
    execute_instruct 0x02000033 vm_zero = .error (.not_implemented 0x02000033 vm_zero) ∧
    execute_instruct 0x00001067 vm_zero = .error (.not_implemented 0x00001067 vm_zero) ∧
    recognised 0x00500013 ∧
    result_pc (execute_instruct 0x00500013 vm_zero) = some 4 :=
  ⟨(execute_instruct_not_implemented 0x00000000 vm_zero).2.2.2,
   (execute_instruct_not_implemented 0x00003003 vm_zero).2.1 (by
      unfold recognised R_listed; decide),
   (execute_instruct_not_implemented 0x02000033 vm_zero).2.1 (by
      unfold recognised R_listed; decide),
   (execute_instruct_not_implemented 0x00001067 vm_zero).2.1 (by
      unfold recognised R_listed; decide),
   by unfold recognised R_listed; decide,
   by rfl⟩

/-! ## Shifts -/

/-- Where `sll` and `srl` do shift by R[rs2] mod 32: when R[rs2] is below 32,
`rd` receives R[rs1] shifted left (modulo 2^32), respectively right, by
R[rs2] = R[rs2] mod 32 bits and PC advances by 4. -/
theorem handle_R_instruct_shift_small (w : Nat) (s : VM) (h7 : field w 25 7 = 0b0000000)
    (hsh : s.reg_bank (field w 20 5) < 32) :
    (field w 12 3 = 0b001 →
      handle_R_instruct w s = .ok (increment_pc (set_reg s (field w 7 5)
        (s.reg_bank (field w 15 5) <<< (s.reg_bank (field w 20 5) % 32))))) ∧
    (field w 12 3 = 0b101 →
      handle_R_instruct w s = .ok (increment_pc (set_reg s (field w 7 5)
        (s.reg_bank (field w 15 5) >>> (s.reg_bank (field w 20 5) % 32))))) := by
  have hm : s.reg_bank (field w 20 5) % 32 = s.reg_bank (field w 20 5) := Nat.mod_eq_of_lt hsh
  have hw : s.reg_bank (field w 20 5) < WORD_BITS := hsh
  constructor
  · intro h3
    unfold handle_R_instruct
    simp only [h3, h7, hm, if_pos hw]
    rfl
  · intro h3
    unfold handle_R_instruct
    simp only [h3, h7, hm, if_pos hw]
    rfl

/-- With R[rs2] of 32 or more the shift `reg_bank[rs1] << reg_bank[rs2]`
(`>>` for srl) is undefined in C: the source has no reduction modulo 32. -/
theorem handle_R_instruct_shift_large (w : Nat) (s : VM) (h7 : field w 25 7 = 0b0000000)
    (hsh : 32 ≤ s.reg_bank (field w 20 5)) (h3 : field w 12 3 = 0b001 ∨ field w 12 3 = 0b101) :
    handle_R_instruct w s = .error .undefined_behaviour := by
  have hw : ¬ (s.reg_bank (field w 20 5) < WORD_BITS) := Nat.not_lt.mpr hsh
  unfold handle_R_instruct
  rcases h3 with h3 | h3
  · simp only [h3, h7, if_neg hw]
    rfl
  · simp only [h3, h7, if_neg hw]
    rfl

/-- C20: `sll` and `srl` shift by the whole of R[rs2]. With R[rs1] = R[rs2] = 32
(`sll r3, r1, r1` = 0x001091B3, `srl r3, r1, r1` = 0x0010D1B3) the C shift by
32 is undefined, where the claim gives 32 << (32 mod 32) = 32 and
32 >> 0 = 32; with R[1] = 3 the same words give 3 << 3 = 24 and 3 >> 3 = 0. -/
theorem shift_amount_not_reduced :
    execute_instruct 0x001091B3 (vm_with 0 1 32) = .error .undefined_behaviour ∧
    execute_instruct 0x0010D1B3 (vm_with 0 1 32) = .error .undefined_behaviour ∧
    (32 <<< (32 % 32)) % 2 ^ 32 = 32 ∧
    32 >>> (32 % 32) = 32 ∧
    result_reg (execute_instruct 0x001091B3 (vm_with 0 1 3)) 3 = some 24 ∧
    result_reg (execute_instruct 0x0010D1B3 (vm_with 0 1 3)) 3 = some 0 := by
  refine ⟨by rfl, by rfl, by decide, by decide, by rfl, by rfl⟩

/-! ## Rotate right (`sra`) -/

theorem set_reg_congr (s : VM) (rd v v' : Nat) (h : v % 2 ^ 32 = v' % 2 ^ 32) :
    set_reg s rd v = set_reg s rd v' := by
  unfold set_reg
  rw [h]

theorem rotate_right_lt (x k : Nat) (hx : x < 2 ^ 32) (h2 : k ≤ 32) :
    rotate_right x k < 2 ^ 32 := by
  unfold rotate_right
  have hab : 2 ^ k * 2 ^ (32 - k) = 2 ^ 32 := by
    rw [← pow_add]
    congr 1
    omega
  have hq : x / 2 ^ k < 2 ^ (32 - k) := by
    rw [Nat.div_lt_iff_lt_mul (by positivity)]
    calc x < 2 ^ 32 := hx
      _ = 2 ^ (32 - k) * 2 ^ k := by rw [← hab, Nat.mul_comm]
  have hr : x % 2 ^ k + 1 ≤ 2 ^ k := Nat.mod_lt _ (by positivity)
  calc x / 2 ^ k + x % 2 ^ k * 2 ^ (32 - k)
      < 2 ^ (32 - k) + x % 2 ^ k * 2 ^ (32 - k) := by omega
    _ = (x % 2 ^ k + 1) * 2 ^ (32 - k) := by ring
    _ ≤ 2 ^ k * 2 ^ (32 - k) := Nat.mul_le_mul_right _ hr
    _ = 2 ^ 32 := hab

theorem sra_bits (x k : Nat) (hx : x < 2 ^ 32) (h2 : k ≤ 32) :
    (x >>> k) ||| ((x <<< (32 - k)) % 2 ^ 32) = rotate_right x k := by
  unfold rotate_right
  have hab : 2 ^ k * 2 ^ (32 - k) = 2 ^ 32 := by
    rw [← pow_add]
    congr 1
    omega
  have e1 : (x <<< (32 - k)) % 2 ^ 32 = (x % 2 ^ k) <<< (32 - k) := by
    rw [Nat.shiftLeft_eq, Nat.shiftLeft_eq, ← hab, Nat.mul_mod_mul_right]
  have hq : x / 2 ^ k < 2 ^ (32 - k) := by
    rw [Nat.div_lt_iff_lt_mul (by positivity)]
    calc x < 2 ^ 32 := hx
      _ = 2 ^ (32 - k) * 2 ^ k := by rw [← hab, Nat.mul_comm]
  rw [e1, Nat.shiftRight_eq_div_pow, lor_shiftLeft _ _ _ hq]

/-- Where `sra` is the rotate: with a shift amount R[rs2] mod 32 between 1 and
31, `rd` receives R[rs1] rotated right by that amount and PC advances by 4. -/
theorem handle_R_instruct_sra (w : Nat) (s : VM) (h3 : field w 12 3 = 0b101)
    (h7 : field w 25 7 = 0b0100000) (hx : s.reg_bank (field w 15 5) < 2 ^ 32)
    (hk : s.reg_bank (field w 20 5) % 32 ≠ 0) :
    handle_R_instruct w s = .ok (increment_pc (set_reg s (field w 7 5)
      (rotate_right (s.reg_bank (field w 15 5)) (s.reg_bank (field w 20 5) % 32)))) := by
  have hlt : s.reg_bank (field w 20 5) % 32 < 32 := Nat.mod_lt _ (by decide)
  have hw : WORD_BITS - s.reg_bank (field w 20 5) % WORD_BITS < WORD_BITS := by
    show 32 - s.reg_bank (field w 20 5) % 32 < 32
    omega
  unfold handle_R_instruct
  simp only [h3, h7, if_pos hw]
  have e := sra_bits (s.reg_bank (field w 15 5)) (s.reg_bank (field w 20 5) % 32) hx
    (Nat.le_of_lt hlt)
  have e2 : s.reg_bank (field w 15 5) >>> (s.reg_bank (field w 20 5) % WORD_BITS) |||
      s.reg_bank (field w 15 5) <<< (WORD_BITS - s.reg_bank (field w 20 5) % WORD_BITS) % 2 ^ 32
      = rotate_right (s.reg_bank (field w 15 5)) (s.reg_bank (field w 20 5) % 32) := e
  rw [e2]
  rfl

/-- Where `sra` is not: with R[rs2] mod 32 = 0 the source shifts left by
`WORD_BITS - 0 = 32`, which is undefined in C. -/
theorem handle_R_instruct_sra_zero (w : Nat) (s : VM) (h3 : field w 12 3 = 0b101)
    (h7 : field w 25 7 = 0b0100000) (hk : s.reg_bank (field w 20 5) % 32 = 0) :
    handle_R_instruct w s = .error .undefined_behaviour := by
  have hw : ¬ (WORD_BITS - s.reg_bank (field w 20 5) % WORD_BITS < WORD_BITS) := by
    show ¬ (32 - s.reg_bank (field w 20 5) % 32 < 32)
    omega
  unfold handle_R_instruct
  simp only [h3, h7, if_neg hw]
  rfl

/-- C21: `sra` (func3 = 101, func7 = 0100000) on a register file of 32-bit
values. With R[rs2] mod 32 = 0 the handler evaluates
`reg_bank[rs1] << (WORD_BITS - 0)`, a shift by 32 that C leaves undefined,
where the rotate by 0 positions is R[rs1] itself; with R[rs2] mod 32 from 1
to 31 `rd` receives the rotate-right of R[rs1] by that amount and PC advances
by 4. -/
theorem sra_rotate_zero_undefined (w : Nat) (s : VM) (h3 : field w 12 3 = 0b101)
    (h7 : field w 25 7 = 0b0100000) (hx : s.reg_bank (field w 15 5) < 2 ^ 32) :
    (s.reg_bank (field w 20 5) % 32 = 0 →
      handle_R_instruct w s = .error .undefined_behaviour ∧
      rotate_right (s.reg_bank (field w 15 5)) (s.reg_bank (field w 20 5) % 32)
        = s.reg_bank (field w 15 5)) ∧
    (s.reg_bank (field w 20 5) % 32 ≠ 0 →
      handle_R_instruct w s = .ok (increment_pc (set_reg s (field w 7 5)
        (rotate_right (s.reg_bank (field w 15 5)) (s.reg_bank (field w 20 5) % 32))))) := by
  refine ⟨fun hk => ⟨handle_R_instruct_sra_zero w s h3 h7 hk, ?_⟩,
    handle_R_instruct_sra w s h3 h7 hx⟩
  rw [hk]
  unfold rotate_right
  simp [Nat.mod_one]

/-- C21 at `sra r3, r1, r1` (0x4010D1B3): with R[1] = 32 the shift amount is
32 mod 32 = 0 and the instruction is undefined, where the claim gives
R[3] = 32; with R[1] = 64 likewise; with R[1] = 33 the amount is 1 and R[3]
becomes 0x80000010, the rotate of 33 by one position. -/
theorem sra_rotate_zero_undefined_witness :
    handle_R_instruct 0x4010D1B3 (vm_with 0 1 32) = .error .undefined_behaviour ∧
    rotate_right 32 (32 % 32) = 32 ∧
    execute_instruct 0x4010D1B3 (vm_with 0 1 32) = .error .undefined_behaviour ∧
    execute_instruct 0x4010D1B3 (vm_with 0 1 64) = .error .undefined_behaviour ∧
    result_reg (execute_instruct 0x4010D1B3 (vm_with 0 1 33)) 3 = some 0x80000010 ∧
    rotate_right 33 (33 % 32) = 0x80000010 :=
  ⟨((sra_rotate_zero_undefined 0x4010D1B3 (vm_with 0 1 32) (by decide) (by decide)
      (by decide)).1 (by decide)).1,
   ((sra_rotate_zero_undefined 0x4010D1B3 (vm_with 0 1 32) (by decide) (by decide)
      (by decide)).1 (by decide)).2,
   by rfl, by rfl, by rfl, by decide⟩

/-! ## Immediate operations and comparisons -/

theorem to_int32_eq_signed32 (x : Nat) (h : x < 2 ^ 32) : to_int32 x = signed32 x := by
  unfold to_int32 signed32
  rw [Nat.mod_eq_of_lt h]

theorem sign_extend_imm_sext12 (imm : Nat) (h : imm < 2 ^ 12) :
    sign_extend_imm imm = sext12 imm := by
  rw [sign_extend_imm_eq imm h]
  rfl

theorem field_lt (w lo width : Nat) : field w lo width < 2 ^ width :=
  Nat.mod_lt _ (by positivity)

theorem sext12_lt (x : Nat) (h : x < 2 ^ 12) : sext12 x < 2 ^ 32 := by
  unfold sext12
  split <;> omega

theorem I1_result_lt (func3 a b : Nat) (ha : a < 2 ^ 32) (hb : b < 2 ^ 32) :
    I1_result func3 a b < 2 ^ 32 := by
  unfold I1_result
  split
  · exact Nat.mod_lt _ (by decide)
  split
  · exact Nat.xor_lt_two_pow ha hb
  split
  · exact Nat.or_lt_two_pow ha hb
  split
  · exact Nat.and_lt_two_pow _ hb
  split
  · split <;> decide
  · split <;> decide

theorem set_reg_reg_bank (s : VM) (rd v : Nat) (hv : v < 2 ^ 32) :
    (set_reg s rd v).reg_bank rd = v ∧ ∀ r, r ≠ rd → (set_reg s rd v).reg_bank r = s.reg_bank r := by
  unfold set_reg
  refine ⟨?_, fun r hr => ?_⟩
  · simp only [if_true]
    exact Nat.mod_eq_of_lt hv
  · simp only [if_neg hr]

/-- The handler of the I-TYPE-ONE family in terms of the sign-extended
immediate. -/
theorem handle_I1_instruct_eq (w : Nat) (s : VM)
    (hf : field w 12 3 ∈ [0b000, 0b100, 0b110, 0b111, 0b010, 0b011])
    (hx : s.reg_bank (field w 15 5) < 2 ^ 32) :
    handle_I1_instruct w s = .ok (increment_pc (set_reg s (field w 7 5)
      (I1_result (field w 12 3) (s.reg_bank (field w 15 5)) (sext12 (field w 20 12))))) := by
  have himm := sign_extend_imm_sext12 (field w 20 12) (field_lt w 20 12)
  have hb := sext12_lt (field w 20 12) (field_lt w 20 12)
  have e1 := to_int32_eq_signed32 _ hx
  have e2 := to_int32_eq_signed32 _ hb
  simp only [List.mem_cons, List.mem_singleton, List.not_mem_nil, or_false] at hf
  unfold handle_I1_instruct I1_result
  simp only [himm, e1, e2]
  rcases hf with h3 | h3 | h3 | h3 | h3 | h3 <;>
  · simp only [h3, Nat.reduceEqDiff, if_true, if_false]
    first
      | rfl
      | (show Except.ok _ = Except.ok _
         congr 1
         congr 1
         exact set_reg_congr _ _ _ _ (Nat.mod_mod _ _).symm)

/-- C23: for the six I-TYPE-ONE operations, on a 32-bit value in rs1, the
handler returns; `rd` holds op(R[rs1], sext12(imm)) with the 12-bit immediate
of instruction bits 31:20 sign-extended to 32 bits (addition modulo 2^32,
slti on the two's-complement readings, sltiu on the unsigned values), PC has
advanced by 4 and every other register is unchanged. -/
theorem handle_I1_instruct_sign_extends (w : Nat) (s : VM)
    (hf : field w 12 3 ∈ [0b000, 0b100, 0b110, 0b111, 0b010, 0b011])
    (hx : s.reg_bank (field w 15 5) < 2 ^ 32) :
    ∃ s', handle_I1_instruct w s = .ok s' ∧
      s'.reg_bank (field w 7 5)
        = I1_result (field w 12 3) (s.reg_bank (field w 15 5)) (sext12 (field w 20 12)) ∧
      s'.pc = (s.pc + 4) % 2 ^ 32 ∧
      (∀ r, r ≠ field w 7 5 → s'.reg_bank r = s.reg_bank r) ∧
      s' = { s with pc := s'.pc, reg_bank := s'.reg_bank } := by
  have hb := sext12_lt (field w 20 12) (field_lt w 20 12)
  have hlt := I1_result_lt (field w 12 3) _ _ hx hb
  have hr := set_reg_reg_bank s (field w 7 5) _ hlt
  exact ⟨_, handle_I1_instruct_eq w s hf hx, hr.1, rfl, hr.2, rfl⟩

/-- C23 at `addi r1, r0, 0xFFF` (0xFFF00093) on the startup state: the
immediate 0xFFF is extended to 0xFFFFFFFF and R[1] = 0 + 0xFFFFFFFF; the other
registers stay 0 and PC is 4. `xori r1, r0, 0x800` (0x80004093) gives
0xFFFFF800. -/
theorem handle_I1_instruct_sign_extends_witness :
    (∃ s', handle_I1_instruct 0xFFF00093 vm_zero = .ok s' ∧
      s'.reg_bank 1 = 0xFFFFFFFF ∧ s'.pc = 4 ∧ (∀ r, r ≠ 1 → s'.reg_bank r = 0)) ∧
    sext12 0xFFF = 0xFFFFFFFF ∧
    result_reg (execute_instruct 0xFFF00093 vm_zero) 1 = some 0xFFFFFFFF ∧
    result_pc (execute_instruct 0xFFF00093 vm_zero) = some 4 ∧
    result_reg (execute_instruct 0x80004093 vm_zero) 1 = some 0xFFFFF800 := by
  obtain ⟨s', h1, h2, h3, h4, _⟩ :=
    handle_I1_instruct_sign_extends 0xFFF00093 vm_zero (by decide) (by decide)
  exact ⟨⟨s', h1, h2, h3, h4⟩, by decide, by rfl, by rfl, by rfl⟩

/-- The comparisons of the R family on 32-bit register values. -/
theorem handle_R_instruct_slt (w : Nat) (s : VM) (h7 : field w 25 7 = 0b0000000)
    (hx : s.reg_bank (field w 15 5) < 2 ^ 32) (hy : s.reg_bank (field w 20 5) < 2 ^ 32) :
    (field w 12 3 = 0b010 →
      handle_R_instruct w s = .ok (increment_pc (set_reg s (field w 7 5)
        (if signed32 (s.reg_bank (field w 15 5)) < signed32 (s.reg_bank (field w 20 5))
          then 1 else 0)))) ∧
    (field w 12 3 = 0b011 →
      handle_R_instruct w s = .ok (increment_pc (set_reg s (field w 7 5)
        (if s.reg_bank (field w 15 5) < s.reg_bank (field w 20 5) then 1 else 0)))) := by
  have e1 := to_int32_eq_signed32 _ hx
  have e2 := to_int32_eq_signed32 _ hy
  constructor
  · intro h3
    unfold handle_R_instruct
    simp only [h3, h7, e1, e2]
    rfl
  · intro h3
    unfold handle_R_instruct
    simp only [h3, h7]
    rfl

/-- C24: on 32-bit register values, `slt` (R family, func3 = 010) and `slti`
(I-TYPE-ONE, func3 = 010) set `rd` to 1 when R[rs1] read as a two's-complement
signed integer is less than R[rs2], respectively the sign-extended immediate,
read the same way, and to 0 otherwise; `sltu` and `sltiu` (func3 = 011) do so
with both operands read as unsigned integers. -/
theorem set_less_than_signed_unsigned (w : Nat) (s : VM)
    (hx : s.reg_bank (field w 15 5) < 2 ^ 32) :
    (field w 25 7 = 0b0000000 → s.reg_bank (field w 20 5) < 2 ^ 32 → field w 12 3 = 0b010 →
      handle_R_instruct w s = .ok (increment_pc (set_reg s (field w 7 5)
        (if signed32 (s.reg_bank (field w 15 5)) < signed32 (s.reg_bank (field w 20 5))
          then 1 else 0)))) ∧
    (field w 25 7 = 0b0000000 → s.reg_bank (field w 20 5) < 2 ^ 32 → field w 12 3 = 0b011 →
      handle_R_instruct w s = .ok (increment_pc (set_reg s (field w 7 5)
        (if s.reg_bank (field w 15 5) < s.reg_bank (field w 20 5) then 1 else 0)))) ∧
    (field w 12 3 = 0b010 →
      handle_I1_instruct w s = .ok (increment_pc (set_reg s (field w 7 5)
        (if signed32 (s.reg_bank (field w 15 5)) < signed32 (sext12 (field w 20 12))
          then 1 else 0)))) ∧
    (field w 12 3 = 0b011 →
      handle_I1_instruct w s = .ok (increment_pc (set_reg s (field w 7 5)
        (if s.reg_bank (field w 15 5) < sext12 (field w 20 12) then 1 else 0)))) := by
  refine ⟨fun h7 hy h3 => (handle_R_instruct_slt w s h7 hx hy).1 h3,
    fun h7 hy h3 => (handle_R_instruct_slt w s h7 hx hy).2 h3, fun h3 => ?_, fun h3 => ?_⟩
  · have h := handle_I1_instruct_eq w s (by rw [h3]; decide) hx
    rw [h, h3]
    rfl
  · have h := handle_I1_instruct_eq w s (by rw [h3]; decide) hx
    rw [h, h3]
    rfl

/-- C24 with R[1] = 0xFFFFFFFF and R[2] = 1: `slt r3, r1, r2` (0x0020A1B3)
gives 1, since -1 < 1, and `sltu r3, r1, r2` (0x0020B1B3) gives 0; `slti r3,
r1, 1` (0x0010A193) gives 1 and `sltiu r3, r1, 1` (0x0010B193) gives 0;
`sltiu r3, r1, -1` (0xFFF0B193) with R[1] = 5 compares with 0xFFFFFFFF and
gives 1. -/
theorem set_less_than_signed_unsigned_witness :
    result_reg (handle_R_instruct 0x0020A1B3 (vm_with_two 1 0xFFFFFFFF 2 1)) 3 = some 1 ∧
    result_reg (handle_R_instruct 0x0020B1B3 (vm_with_two 1 0xFFFFFFFF 2 1)) 3 = some 0 ∧
    result_reg (handle_I1_instruct 0x0010A193 (vm_with_two 1 0xFFFFFFFF 2 1)) 3 = some 1 ∧
    result_reg (handle_I1_instruct 0x0010B193 (vm_with_two 1 0xFFFFFFFF 2 1)) 3 = some 0 ∧
    signed32 0xFFFFFFFF = -1 ∧
    result_reg (execute_instruct 0x0020A1B3 (vm_with_two 1 0xFFFFFFFF 2 1)) 3 = some 1 ∧
    result_reg (execute_instruct 0x0020B1B3 (vm_with_two 1 0xFFFFFFFF 2 1)) 3 = some 0 ∧
    result_reg (execute_instruct 0xFFF0B193 (vm_with 0 1 5)) 3 = some 1 := by
  have h := set_less_than_signed_unsigned 0x0020A1B3 (vm_with_two 1 0xFFFFFFFF 2 1) (by decide)
  have h2 := set_less_than_signed_unsigned 0x0020B1B3 (vm_with_two 1 0xFFFFFFFF 2 1) (by decide)
  have h3 := set_less_than_signed_unsigned 0x0010A193 (vm_with_two 1 0xFFFFFFFF 2 1) (by decide)
  have h4 := set_less_than_signed_unsigned 0x0010B193 (vm_with_two 1 0xFFFFFFFF 2 1) (by decide)
  refine ⟨?_, ?_, ?_, ?_, by decide, by rfl, by rfl, by rfl⟩
  · rw [h.1 (by decide) (by decide) (by decide)]
    rfl
  · rw [h2.2.1 (by decide) (by decide) (by decide)]
    rfl
  · rw [h3.2.2.1 (by decide)]
    rfl
  · rw [h4.2.2.2 (by decide)]
    rfl

/-! ## Stores to the virtual routine window -/

theorem console_write_no_routine (address value : Nat) (s : VM) (instruct : Nat)
    (h : address ∉ write_routine_addresses) :
    console_write_routine address value s instruct = .ok (0, s) := by
  unfold write_routine_addresses at h
  simp only [List.mem_cons, List.mem_singleton, List.not_mem_nil, or_false, not_or] at h
  obtain ⟨n1, n2, n3, n4, n5, n6, n7, n8, n9⟩ := h
  unfold console_write_routine
  simp only [if_neg n1, if_neg n2, if_neg n3, if_neg n4, if_neg n5, if_neg n6, if_neg n7,
    if_neg n8, if_neg n9]

/-- The address an S-type instruction stores to: R[rs1] plus the sign-extended
immediate of instruction bits 31:25 | 11:7, modulo 2^32. -/
theorem handle_S_address (w : Nat) (s : VM) :
    int_to_uint32 (to_int32 (s.reg_bank (field w 15 5)) +
      to_int32 (sign_extend_imm ((field w 25 7 <<< 5) ||| field w 7 5)))
      = (s.reg_bank (field w 15 5) + sext12 (field w 25 7 * 2 ^ 5 + field w 7 5)) % 2 ^ 32 := by
  have h5 : field w 7 5 < 2 ^ 5 := field_lt w 7 5
  have h7 : field w 25 7 < 2 ^ 7 := field_lt w 25 7
  have e : (field w 25 7 <<< 5) ||| field w 7 5 = field w 25 7 * 2 ^ 5 + field w 7 5 := by
    rw [Nat.or_comm, lor_shiftLeft _ _ _ h5, Nat.add_comm]
  have hlt : field w 25 7 * 2 ^ 5 + field w 7 5 < 2 ^ 12 := by omega
  rw [e, sign_extend_imm_sext12 _ hlt, int_to_uint32_add]

theorem store_vr_no_routine (s : VM) (instruct A V : Nat) (h1 : 0x0800 ≤ A) (h2 : A ≤ 0x08FF)
    (hn : A ∉ write_routine_addresses) :
    store_byte A V s instruct = .error (.illegal_operation instruct s) ∧
    store_half_word A V s instruct = .error (.illegal_operation instruct s) ∧
    store_word A V s instruct = .error (.illegal_operation instruct s) := by
  have c1 : ¬ (A ≥ DATA_MEM_START ∧ A ≤ DATA_MEM_END) := by
    show ¬ (A ≥ 0x400 ∧ A ≤ 0x7ff)
    omega
  have c1h : ¬ (A ≥ DATA_MEM_START ∧ A < DATA_MEM_END) := by
    show ¬ (A ≥ 0x400 ∧ A < 0x7ff)
    omega
  have c1w : ¬ (A ≥ DATA_MEM_START ∧ A ≤ DATA_MEM_END - 3) := by
    show ¬ (A ≥ 0x400 ∧ A ≤ 0x7ff - 3)
    omega
  have c2 : ¬ (A ≤ INST_MEM_END) := by
    show ¬ (A ≤ 0x3ff)
    omega
  have c3 : A ≥ VR_START ∧ A ≤ VR_END := ⟨h1, h2⟩
  refine ⟨?_, ?_, ?_⟩
  · unfold store_byte
    split
    · rfl
    · rw [console_write_no_routine _ _ _ _ hn]
      rfl
  · unfold store_half_word
    split
    · rfl
    · rw [console_write_no_routine _ _ _ _ hn]
      rfl
  · unfold store_word
    split
    · rfl
    · rw [console_write_no_routine _ _ _ _ hn]
      rfl

/-- C25: a store of any width to an address of the window 0x0800..0x08FF that
is none of the nine write-routine addresses ends in IllegalOperation, and the
state at that point is the state before the store: registers, memory, scratch
bytes and heap list are those of `s`. The same holds for the instructions sb,
sh and sw whose address R[rs1] + sext12(imm) is such an address. -/
theorem store_vr_not_routine_illegal (s : VM) (instruct A V : Nat) (h1 : 0x0800 ≤ A)
    (h2 : A ≤ 0x08FF) (hn : A ∉ [0x0800, 0x0804, 0x0808, 0x080C, 0x0820, 0x0824, 0x0828,
      0x0830, 0x0834]) :
    store_byte A V s instruct = .error (.illegal_operation instruct s) ∧
    store_half_word A V s instruct = .error (.illegal_operation instruct s) ∧
    store_word A V s instruct = .error (.illegal_operation instruct s) ∧
    ∀ w, field w 0 7 = S_TYPE → field w 12 3 ∈ [0b000, 0b001, 0b010] →
      (s.reg_bank (field w 15 5) + sext12 (field w 25 7 * 2 ^ 5 + field w 7 5)) % 2 ^ 32 = A →
      execute_instruct w s = .error (.illegal_operation w s) := by
  have hn2 : A ∉ write_routine_addresses := hn
  refine ⟨(store_vr_no_routine s instruct A V h1 h2 hn2).1,
    (store_vr_no_routine s instruct A V h1 h2 hn2).2.1,
    (store_vr_no_routine s instruct A V h1 h2 hn2).2.2, ?_⟩
  intro w hop hf hA
  have haddr := handle_S_address w s
  rw [hA] at haddr
  have hS : handle_S_instruct w s = .error (.illegal_operation w s) := by
    simp only [List.mem_cons, List.mem_singleton, List.not_mem_nil, or_false] at hf
    unfold handle_S_instruct
    simp only [haddr]
    rcases hf with h3 | h3 | h3
    · simp only [h3, if_true]
      rw [(store_vr_no_routine s w A _ h1 h2 hn2).1]
      rfl
    · simp only [h3, Nat.reduceEqDiff, if_true, if_false]
      rw [(store_vr_no_routine s w A _ h1 h2 hn2).2.1]
      rfl
    · simp only [h3, Nat.reduceEqDiff, if_true, if_false]
      rw [(store_vr_no_routine s w A _ h1 h2 hn2).2.2]
      rfl
  unfold execute_instruct
  simp only [opcode_eq_field]
  rw [hop, if_neg (by decide), if_neg (by decide), if_neg (by decide), if_neg (by decide),
    if_pos rfl, hS]
  rfl

/-- C25 at the addresses 0x0810 (no routine), 0x0812 (a read routine only) and
0x08FF (the last byte of the window) on the startup state, and at the
instruction `sw r0, 0(r1)` (0x0000A023) with R[1] = 0x0810: IllegalOperation in
the unchanged state. A store to 0x0800 is a routine and returns. -/
theorem store_vr_not_routine_illegal_witness :
    store_byte 0x0810 7 vm_zero 0 = .error (.illegal_operation 0 vm_zero) ∧
    store_half_word 0x0812 7 vm_zero 0 = .error (.illegal_operation 0 vm_zero) ∧
    store_word 0x08FF 7 vm_zero 0 = .error (.illegal_operation 0 vm_zero) ∧
    execute_instruct 0x0000A023 (vm_with 0 1 0x0810)
      = .error (.illegal_operation 0x0000A023 (vm_with 0 1 0x0810)) ∧
    result_pc (store_byte 0x0800 7 vm_zero 0) = some 0 :=
  ⟨(store_vr_not_routine_illegal vm_zero 0 0x0810 7 (by decide) (by decide) (by decide)).1,
   (store_vr_not_routine_illegal vm_zero 0 0x0812 7 (by decide) (by decide) (by decide)).2.1,
   (store_vr_not_routine_illegal vm_zero 0 0x08FF 7 (by decide) (by decide) (by decide)).2.2.1,
   (store_vr_not_routine_illegal (vm_with 0 1 0x0810) 0 0x0810 7 (by decide) (by decide)
      (by decide)).2.2.2 0x0000A023 (by decide) (by decide) (by decide),
   by rfl⟩

/-! ## What the calls that return leave behind -/

theorem ro_ok {α : Type} (P : α → Prop) (a : α) (h : P a) :
    returns_only P (Except.ok a : Except Exit α) := by
  intro b hb
  cases hb
  exact h

theorem ro_error {α : Type} (P : α → Prop) (e : Exit) :
    returns_only P (Except.error e : Except Exit α) := by
  intro b hb
  cases hb

theorem ro_bind {α β : Type} (Q : α → Prop) (P : β → Prop) (r : Except Exit α)
    (f : α → Except Exit β) (hr : returns_only Q r) (hf : ∀ a, Q a → returns_only P (f a)) :
    returns_only P (r.bind f) := by
  cases r with
  | error e => exact ro_error P e
  | ok a => exact hf a (hr a rfl)

theorem ro_ite {α : Type} (P : α → Prop) (c : Prop) [Decidable c] (a b : Except Exit α)
    (ha : returns_only P a) (hb : returns_only P b) : returns_only P (if c then a else b) := by
  split
  · exact ha
  · exact hb

theorem ro_array_read (size : Nat) (a : Nat → Nat) (i : Nat) :
    returns_only (fun b => b < 2 ^ 8) (array_read size a i) :=
  ro_ite _ _ _ _ (ro_ok _ _ (Nat.mod_lt _ (by decide))) (ro_error _ _)

theorem ro_console_read_routine (address : Nat) (s : VM) :
    returns_only (load_frame 32 s) (console_read_routine address s) := by
  unfold console_read_routine
  refine ro_ite _ _ _ _ ?_ (ro_ite _ _ _ _ ?_ ?_)
  · apply ro_ok
    unfold getchar
    split
    · exact ⟨(by decide : int_to_uint32 (-1) < 2 ^ 32), rfl⟩
    · exact ⟨Nat.lt_of_lt_of_le (Nat.mod_lt _ (by decide)) (by decide), rfl⟩
  · split
    · exact ro_ok _ _ ⟨Nat.mod_lt _ (by decide), rfl⟩
    · exact ro_error _ _
  · exact ro_bind _ _ _ _ (ro_array_read _ _ _) fun _ _ =>
      ro_bind _ _ _ _ (ro_array_read _ _ _) fun _ _ =>
        ro_bind _ _ _ _ (ro_array_read _ _ _) fun _ _ =>
          ro_bind _ _ _ _ (ro_array_read _ _ _) fun _ _ =>
            ro_ok _ _ ⟨Nat.mod_lt _ (by decide), rfl⟩

theorem ro_load_byte (address : Nat) (s : VM) (instruct : Nat) :
    returns_only (load_frame 8 s) (load_byte address s instruct) := by
  unfold load_byte
  exact ro_ite _ _ _ _ (ro_error _ _)
    (ro_ite _ _ _ _ (ro_ok _ _ ⟨Nat.mod_lt _ (by decide), rfl⟩)
      (ro_ite _ _ _ _ (ro_ok _ _ ⟨Nat.mod_lt _ (by decide), rfl⟩)
        (ro_ite _ _ _ _
          (ro_bind _ _ _ _ (ro_console_read_routine _ _) fun _ h =>
            ro_ok _ _ ⟨Nat.mod_lt _ (by decide), h.2⟩)
          (ro_bind _ _ _ _ (ro_array_read _ _ _) fun _ h => ro_ok _ _ ⟨h, rfl⟩))))

theorem ro_load_half_word (address : Nat) (s : VM) (instruct : Nat) :
    returns_only (load_frame 16 s) (load_half_word address s instruct) := by
  unfold load_half_word
  exact ro_ite _ _ _ _ (ro_error _ _)
    (ro_ite _ _ _ _ (ro_ok _ _ ⟨Nat.mod_lt _ (by decide), rfl⟩)
      (ro_ite _ _ _ _ (ro_ok _ _ ⟨Nat.mod_lt _ (by decide), rfl⟩)
        (ro_ite _ _ _ _
          (ro_bind _ _ _ _ (ro_console_read_routine _ _) fun _ h =>
            ro_ok _ _ ⟨Nat.mod_lt _ (by decide), h.2⟩)
          (ro_bind _ _ _ _ (ro_array_read _ _ _) fun _ _ =>
            ro_bind _ _ _ _ (ro_array_read _ _ _) fun _ _ =>
              ro_ok _ _ ⟨Nat.mod_lt _ (by decide), rfl⟩))))

theorem ro_load_word (address : Nat) (s : VM) (instruct : Nat) :
    returns_only (load_frame 32 s) (load_word address s instruct) := by
  unfold load_word
  exact ro_ite _ _ _ _ (ro_error _ _)
    (ro_ite _ _ _ _ (ro_ok _ _ ⟨Nat.mod_lt _ (by decide), rfl⟩)
      (ro_ite _ _ _ _ (ro_ok _ _ ⟨Nat.mod_lt _ (by decide), rfl⟩)
        (ro_ite _ _ _ _ (ro_console_read_routine _ _)
          (ro_bind _ _ _ _ (ro_array_read _ _ _) fun _ _ =>
            ro_bind _ _ _ _ (ro_array_read _ _ _) fun _ _ =>
              ro_bind _ _ _ _ (ro_array_read _ _ _) fun _ _ =>
                ro_bind _ _ _ _ (ro_array_read _ _ _) fun _ _ =>
                  ro_ok _ _ ⟨Nat.mod_lt _ (by decide), rfl⟩))))

/-! ## Loads -/

theorem int_to_uint32_to_int8 (v : Nat) (h : v < 2 ^ 8) : int_to_uint32 (to_int8 v) = sext8 v := by
  unfold int_to_uint32 to_int8 sext8
  split <;> split <;> omega

theorem int_to_uint32_to_int16 (v : Nat) (h : v < 2 ^ 16) :
    int_to_uint32 (to_int16 v) = sext16 v := by
  unfold int_to_uint32 to_int16 sext16
  split <;> split <;> omega

theorem sext8_lt (v : Nat) (h : v < 2 ^ 8) : sext8 v < 2 ^ 32 := by
  unfold sext8
  split <;> omega

theorem sext16_lt (v : Nat) (h : v < 2 ^ 16) : sext16 v < 2 ^ 32 := by
  unfold sext16
  split <;> omega

/-- The address a load instruction reads: R[rs1] plus the sign-extended
immediate of instruction bits 31:20, modulo 2^32. -/
theorem handle_I2_address (w : Nat) (s : VM) :
    int_to_uint32 (to_int32 (s.reg_bank (field w 15 5)) +
      to_int32 (sign_extend_imm (field w 20 12)))
      = (s.reg_bank (field w 15 5) + sext12 (field w 20 12)) % 2 ^ 32 := by
  rw [sign_extend_imm_sext12 _ (field_lt w 20 12), int_to_uint32_add]

/-- What a load instruction leaves when the state `s1` after the access is `s`
with at most console input consumed and `x` is a 32-bit value: `rd` holds `x`,
PC has advanced by 4, the other registers are those of `s`. -/
theorem load_result (s s1 : VM) (rd x : Nat) (hx : x < 2 ^ 32)
    (hs : s1 = { s with stdin := s1.stdin }) :
    (increment_pc (set_reg s1 rd x)).reg_bank rd = x ∧
    (increment_pc (set_reg s1 rd x)).pc = (s.pc + 4) % 2 ^ 32 ∧
    ∀ r, r ≠ rd → (increment_pc (set_reg s1 rd x)).reg_bank r = s.reg_bank r := by
  have hp : s1.pc = s.pc := by rw [hs]
  have hr : s1.reg_bank = s.reg_bank := by rw [hs]
  have h := set_reg_reg_bank s1 rd x hx
  refine ⟨h.1, ?_, fun r hne => ?_⟩
  · show (s1.pc + 4) % 2 ^ 32 = (s.pc + 4) % 2 ^ 32
    rw [hp]
  · show (set_reg s1 rd x).reg_bank r = s.reg_bank r
    rw [h.2 r hne, hr]

/-- C22: a load instruction whose access at R[rs1] + sext12(imm) returns the
value `v` (and the state `s1`, which differs from `s` at most in the console
input consumed) returns; `rd` then holds `v` sign-extended from bit 7 for lb
and from bit 15 for lh, and `v` itself, zero-extended, for lbu, lhu and lw; PC
has advanced by 4 and the other registers are unchanged. -/
theorem handle_I2_instruct_extends (w : Nat) (s s1 : VM) (v : Nat) :
    (field w 12 3 = 0b000 →
      load_byte ((s.reg_bank (field w 15 5) + sext12 (field w 20 12)) % 2 ^ 32) s w
        = .ok (v, s1) →
      handle_I2_instruct w s = .ok (increment_pc (set_reg s1 (field w 7 5) (sext8 v))) ∧
      (increment_pc (set_reg s1 (field w 7 5) (sext8 v))).reg_bank (field w 7 5) = sext8 v ∧
      (increment_pc (set_reg s1 (field w 7 5) (sext8 v))).pc = (s.pc + 4) % 2 ^ 32 ∧
      ∀ r, r ≠ field w 7 5 →
        (increment_pc (set_reg s1 (field w 7 5) (sext8 v))).reg_bank r = s.reg_bank r) ∧
    (field w 12 3 = 0b001 →
      load_half_word ((s.reg_bank (field w 15 5) + sext12 (field w 20 12)) % 2 ^ 32) s w
        = .ok (v, s1) →
      handle_I2_instruct w s = .ok (increment_pc (set_reg s1 (field w 7 5) (sext16 v))) ∧
      (increment_pc (set_reg s1 (field w 7 5) (sext16 v))).reg_bank (field w 7 5) = sext16 v ∧
      (increment_pc (set_reg s1 (field w 7 5) (sext16 v))).pc = (s.pc + 4) % 2 ^ 32 ∧
      ∀ r, r ≠ field w 7 5 →
        (increment_pc (set_reg s1 (field w 7 5) (sext16 v))).reg_bank r = s.reg_bank r) ∧
    (field w 12 3 = 0b010 →
      load_word ((s.reg_bank (field w 15 5) + sext12 (field w 20 12)) % 2 ^ 32) s w
        = .ok (v, s1) →
      handle_I2_instruct w s = .ok (increment_pc (set_reg s1 (field w 7 5) v)) ∧
      (increment_pc (set_reg s1 (field w 7 5) v)).reg_bank (field w 7 5) = v ∧
      (increment_pc (set_reg s1 (field w 7 5) v)).pc = (s.pc + 4) % 2 ^ 32 ∧
      ∀ r, r ≠ field w 7 5 →
        (increment_pc (set_reg s1 (field w 7 5) v)).reg_bank r = s.reg_bank r) ∧
    (field w 12 3 = 0b100 →
      load_byte ((s.reg_bank (field w 15 5) + sext12 (field w 20 12)) % 2 ^ 32) s w
        = .ok (v, s1) →
      handle_I2_instruct w s = .ok (increment_pc (set_reg s1 (field w 7 5) v)) ∧
      (increment_pc (set_reg s1 (field w 7 5) v)).reg_bank (field w 7 5) = v ∧ v < 2 ^ 8 ∧
      (increment_pc (set_reg s1 (field w 7 5) v)).pc = (s.pc + 4) % 2 ^ 32 ∧
      ∀ r, r ≠ field w 7 5 →
        (increment_pc (set_reg s1 (field w 7 5) v)).reg_bank r = s.reg_bank r) ∧
    (field w 12 3 = 0b101 →
      load_half_word ((s.reg_bank (field w 15 5) + sext12 (field w 20 12)) % 2 ^ 32) s w
        = .ok (v, s1) →
      handle_I2_instruct w s = .ok (increment_pc (set_reg s1 (field w 7 5) v)) ∧
      (increment_pc (set_reg s1 (field w 7 5) v)).reg_bank (field w 7 5) = v ∧ v < 2 ^ 16 ∧
      (increment_pc (set_reg s1 (field w 7 5) v)).pc = (s.pc + 4) % 2 ^ 32 ∧
      ∀ r, r ≠ field w 7 5 →
        (increment_pc (set_reg s1 (field w 7 5) v)).reg_bank r = s.reg_bank r) := by
  have haddr := handle_I2_address w s
  refine ⟨fun h3 hl => ?_, fun h3 hl => ?_, fun h3 hl => ?_, fun h3 hl => ?_, fun h3 hl => ?_⟩
  · obtain ⟨hv, hs⟩ := ro_load_byte _ s w _ hl
    have hres := load_result s s1 (field w 7 5) (sext8 v) (sext8_lt v hv) hs
    refine ⟨?_, hres⟩
    unfold handle_I2_instruct
    simp only [haddr, h3, if_true, hl]
    show Except.ok _ = Except.ok _
    rw [int_to_uint32_to_int8 v hv]
  · obtain ⟨hv, hs⟩ := ro_load_half_word _ s w _ hl
    have hres := load_result s s1 (field w 7 5) (sext16 v) (sext16_lt v hv) hs
    refine ⟨?_, hres⟩
    unfold handle_I2_instruct
    simp only [haddr, h3, Nat.reduceEqDiff, if_true, if_false, hl]
    show Except.ok _ = Except.ok _
    rw [int_to_uint32_to_int16 v hv]
  · obtain ⟨hv, hs⟩ := ro_load_word _ s w _ hl
    have hres := load_result s s1 (field w 7 5) v hv hs
    refine ⟨?_, hres⟩
    unfold handle_I2_instruct
    simp only [haddr, h3, Nat.reduceEqDiff, if_true, if_false, hl]
    rfl
  · obtain ⟨hv, hs⟩ := ro_load_byte _ s w _ hl
    have hres := load_result s s1 (field w 7 5) v
      (Nat.lt_of_lt_of_le hv (by decide)) hs
    refine ⟨?_, hres.1, hv, hres.2⟩
    unfold handle_I2_instruct
    simp only [haddr, h3, Nat.reduceEqDiff, if_true, if_false, hl]
    rfl
  · obtain ⟨hv, hs⟩ := ro_load_half_word _ s w _ hl
    have hres := load_result s s1 (field w 7 5) v
      (Nat.lt_of_lt_of_le hv (by decide)) hs
    refine ⟨?_, hres.1, hv, hres.2⟩
    unfold handle_I2_instruct
    simp only [haddr, h3, Nat.reduceEqDiff, if_true, if_false, hl]
    rfl

/-- C22 with the byte 0x80 at data address 0x0400 and R[1] = 0x0400:
`lb r3, 0(r1)` (0x00008183) loads the byte and yields R[3] = 0xFFFFFF80,
`lbu r3, 0(r1)` (0x0000C183) yields 0x00000080; `lh` (0x00009183) of the
half-word 0x0080 yields 0x00000080; PC becomes 4. -/
theorem handle_I2_instruct_extends_witness :
    load_byte 0x0400 (vm_data_byte 0x80) 0x00008183 = .ok (0x80, vm_data_byte 0x80) ∧
    result_reg (handle_I2_instruct 0x00008183 (vm_data_byte 0x80)) 3 = some 0xFFFFFF80 ∧
    result_reg (handle_I2_instruct 0x0000C183 (vm_data_byte 0x80)) 3 = some 0x00000080 ∧
    sext8 0x80 = 0xFFFFFF80 ∧
    result_reg (execute_instruct 0x00008183 (vm_data_byte 0x80)) 3 = some 0xFFFFFF80 ∧
    result_reg (execute_instruct 0x0000C183 (vm_data_byte 0x80)) 3 = some 0x00000080 ∧
    result_reg (execute_instruct 0x00009183 (vm_data_byte 0x80)) 3 = some 0x00000080 ∧
    result_pc (execute_instruct 0x00008183 (vm_data_byte 0x80)) = some 4 := by
  have h1 := (handle_I2_instruct_extends 0x00008183 (vm_data_byte 0x80) (vm_data_byte 0x80)
    0x80).1 (by decide) (by rfl)
  have h2 := (handle_I2_instruct_extends 0x0000C183 (vm_data_byte 0x80) (vm_data_byte 0x80)
    0x80).2.2.2.1 (by decide) (by rfl)
  refine ⟨by rfl, ?_, ?_, by decide, by rfl, by rfl, by rfl, by rfl⟩
  · rw [h1.1]
    rfl
  · rw [h2.1]
    rfl

/-! ## The scratch bytes of the virtual routine window -/

theorem ro_not_implement {α : Type} (P : α → Prop) (i : Nat) (s : VM) :
    returns_only P (instruct_not_implement i s : Except Exit α) :=
  ro_error P _

theorem ro_illegal {α : Type} (P : α → Prop) (i : Nat) (s : VM) :
    returns_only P (illegal_operation i s : Except Exit α) :=
  ro_error P _

theorem ro_console_write_routine (address value : Nat) (s : VM) (instruct : Nat) :
    returns_only (fun r => r.2.virtual_routines = s.virtual_routines)
      (console_write_routine address value s instruct) := by
  unfold console_write_routine
  refine ro_ite _ _ _ _ (ro_ok _ _ rfl) (ro_ite _ _ _ _ (ro_ok _ _ rfl)
    (ro_ite _ _ _ _ (ro_ok _ _ rfl) (ro_ite _ _ _ _ (ro_error _ _)
      (ro_ite _ _ _ _ (ro_ok _ _ rfl) (ro_ite _ _ _ _ (ro_ok _ _ rfl)
        (ro_ite _ _ _ _ (ro_bind _ _ _ _ (ro_load_word _ _ _) fun r h => ro_ok _ _ ?_)
          (ro_ite _ _ _ _ (ro_ok _ _ rfl)
            (ro_ite _ _ _ _ (ro_ite _ _ _ _ (ro_illegal _ _ _) (ro_ok _ _ rfl))
              (ro_ok _ _ rfl)))))))))
  show r.2.virtual_routines = s.virtual_routines
  rw [h.2]

theorem ro_store_byte (address value : Nat) (s : VM) (instruct : Nat) :
    returns_only (fun s' => s'.virtual_routines = s.virtual_routines)
      (store_byte address value s instruct) := by
  unfold store_byte
  exact ro_ite _ _ _ _ (ro_illegal _ _ _) (ro_ite _ _ _ _ (ro_ok _ _ rfl)
    (ro_ite _ _ _ _ (ro_illegal _ _ _)
      (ro_ite _ _ _ _
        (ro_bind _ _ _ _ (ro_console_write_routine _ _ _ _) fun _ h =>
          ro_ite _ _ _ _ (ro_illegal _ _ _) (ro_ok _ _ h))
        (ro_bind (fun _ => True) _ _ _ (fun _ _ => trivial) fun _ _ => ro_ok _ _ rfl))))

theorem ro_store_half_word (address value : Nat) (s : VM) (instruct : Nat) :
    returns_only (fun s' => s'.virtual_routines = s.virtual_routines)
      (store_half_word address value s instruct) := by
  unfold store_half_word
  exact ro_ite _ _ _ _ (ro_illegal _ _ _) (ro_ite _ _ _ _ (ro_ok _ _ rfl)
    (ro_ite _ _ _ _ (ro_illegal _ _ _)
      (ro_ite _ _ _ _
        (ro_bind _ _ _ _ (ro_console_write_routine _ _ _ _) fun _ h =>
          ro_ite _ _ _ _ (ro_illegal _ _ _) (ro_ok _ _ h))
        (ro_bind (fun _ => True) _ _ _ (fun _ _ => trivial) fun _ _ =>
          ro_bind (fun _ => True) _ _ _ (fun _ _ => trivial) fun _ _ => ro_ok _ _ rfl))))

theorem ro_store_word (address value : Nat) (s : VM) (instruct : Nat) :
    returns_only (fun s' => s'.virtual_routines = s.virtual_routines)
      (store_word address value s instruct) := by
  unfold store_word
  exact ro_ite _ _ _ _ (ro_illegal _ _ _) (ro_ite _ _ _ _ (ro_ok _ _ rfl)
    (ro_ite _ _ _ _ (ro_illegal _ _ _)
      (ro_ite _ _ _ _
        (ro_bind _ _ _ _ (ro_console_write_routine _ _ _ _) fun _ h =>
          ro_ite _ _ _ _ (ro_illegal _ _ _) (ro_ok _ _ h))
        (ro_bind (fun _ => True) _ _ _ (fun _ _ => trivial) fun _ _ =>
          ro_bind (fun _ => True) _ _ _ (fun _ _ => trivial) fun _ _ =>
            ro_bind (fun _ => True) _ _ _ (fun _ _ => trivial) fun _ _ =>
              ro_bind (fun _ => True) _ _ _ (fun _ _ => trivial) fun _ _ => ro_ok _ _ rfl))))

theorem ro_handle_R_instruct (w : Nat) (s : VM) :
    returns_only (fun s' => s'.virtual_routines = s.virtual_routines)
      (handle_R_instruct w s) := by
  unfold handle_R_instruct
  refine ro_bind (fun s1 => s1.virtual_routines = s.virtual_routines) _ _ _ ?_
    (fun a h => ro_ok _ _ h)
  repeat' first
    | exact ro_ok _ _ rfl
    | exact ro_error _ _
    | exact ro_not_implement _ _ _
    | apply ro_ite

theorem ro_handle_I1_instruct (w : Nat) (s : VM) :
    returns_only (fun s' => s'.virtual_routines = s.virtual_routines)
      (handle_I1_instruct w s) := by
  unfold handle_I1_instruct
  refine ro_bind (fun s1 => s1.virtual_routines = s.virtual_routines) _ _ _ ?_
    (fun a h => ro_ok _ _ h)
  repeat' first
    | exact ro_ok _ _ rfl
    | exact ro_not_implement _ _ _
    | apply ro_ite

theorem ro_load_scratch (bits : Nat) (s : VM) (rd : Nat) (f : Nat → Nat)
    (r : Except Exit (Nat × VM)) (h : returns_only (load_frame bits s) r) :
    returns_only (fun s' => s'.virtual_routines = s.virtual_routines)
      (r.bind fun r => .ok (set_reg r.2 rd (f r.1))) := by
  refine ro_bind _ _ _ _ h fun r hr => ro_ok _ _ ?_
  show r.2.virtual_routines = s.virtual_routines
  rw [hr.2]

theorem ro_handle_I2_instruct (w : Nat) (s : VM) :
    returns_only (fun s' => s'.virtual_routines = s.virtual_routines)
      (handle_I2_instruct w s) := by
  unfold handle_I2_instruct
  refine ro_bind (fun s1 => s1.virtual_routines = s.virtual_routines) _ _ _ ?_
    (fun a h => ro_ok _ _ h)
  refine ro_ite _ _ _ _
    (ro_load_scratch 8 s _ (fun v => int_to_uint32 (to_int8 v)) _ (ro_load_byte _ _ _))
    (ro_ite _ _ _ _
      (ro_load_scratch 16 s _ (fun v => int_to_uint32 (to_int16 v)) _ (ro_load_half_word _ _ _))
      (ro_ite _ _ _ _ (ro_load_scratch 32 s _ (fun v => v) _ (ro_load_word _ _ _))
        (ro_ite _ _ _ _ (ro_load_scratch 8 s _ (fun v => v) _ (ro_load_byte _ _ _))
          (ro_ite _ _ _ _ (ro_load_scratch 16 s _ (fun v => v) _ (ro_load_half_word _ _ _))
            (ro_not_implement _ _ _)))))

theorem ro_handle_I3_instruct (w : Nat) (s : VM) :
    returns_only (fun s' => s'.virtual_routines = s.virtual_routines)
      (handle_I3_instruct w s) := by
  unfold handle_I3_instruct
  exact ro_ite _ _ _ _ (ro_ok _ _ rfl) (ro_not_implement _ _ _)

theorem ro_handle_S_instruct (w : Nat) (s : VM) :
    returns_only (fun s' => s'.virtual_routines = s.virtual_routines)
      (handle_S_instruct w s) := by
  unfold handle_S_instruct
  refine ro_bind (fun s1 => s1.virtual_routines = s.virtual_routines) _ _ _ ?_
    (fun a h => ro_ok _ _ h)
  exact ro_ite _ _ _ _ (ro_store_byte _ _ _ _) (ro_ite _ _ _ _ (ro_store_half_word _ _ _ _)
    (ro_ite _ _ _ _ (ro_store_word _ _ _ _) (ro_not_implement _ _ _)))

theorem ro_handle_SB_instruct (w : Nat) (s : VM) :
    returns_only (fun s' => s'.virtual_routines = s.virtual_routines)
      (handle_SB_instruct w s) := by
  unfold handle_SB_instruct
  exact ro_bind (fun _ => True) _ _ _ (fun _ _ => trivial) fun _ _ =>
    ro_ite _ _ _ _ (ro_ok _ _ rfl) (ro_ok _ _ rfl)

/-- No instruction writes the scratch bytes `virtual_routines`. -/
theorem ro_execute_instruct (w : Nat) (s : VM) :
    returns_only (fun s' => s'.virtual_routines = s.virtual_routines)
      (execute_instruct w s) := by
  unfold execute_instruct
  refine ro_bind (fun s1 => s1.virtual_routines = s.virtual_routines) _ _ _ ?_
    (fun a h => ro_ok _ _ h)
  exact ro_ite _ _ _ _ (ro_handle_R_instruct _ _) (ro_ite _ _ _ _ (ro_handle_I1_instruct _ _)
    (ro_ite _ _ _ _ (ro_handle_I2_instruct _ _) (ro_ite _ _ _ _ (ro_handle_I3_instruct _ _)
      (ro_ite _ _ _ _ (ro_handle_S_instruct _ _) (ro_ite _ _ _ _ (ro_handle_SB_instruct _ _)
        (ro_ite _ _ _ _ (ro_ok _ _ rfl) (ro_ite _ _ _ _ (ro_ok _ _ rfl)
          (ro_not_implement _ _ _))))))))

theorem ro_running_vm_step (s : VM) :
    returns_only (fun s' => s'.virtual_routines = s.virtual_routines) (running_vm_step s) := by
  unfold running_vm_step
  exact ro_bind (fun _ => True) _ _ _ (fun _ _ => trivial) fun w _ => ro_execute_instruct w s

/-- The scratch bytes are zero in every state the loop of `running_vm` is in. -/
theorem loop_state_scratch (inst_mem data_mem : Nat → Nat) (stdin : List Nat)
    (scanf_d : List Nat → Option (Nat × List Nat)) (s : VM)
    (h : loop_state (startup inst_mem data_mem stdin scanf_d) s) :
    s.virtual_routines = fun _ => 0 := by
  induction h with
  | start => rfl
  | pass s s' _ _ hstep ih => rw [ro_running_vm_step s s' hstep, ih]

theorem is_valid_address_below_heap (l : List heap_node) (hc : heap_chain HEAP_START l)
    (A : Nat) (h1 : 0x08FF < A) (h2 : A < 0xB700) : is_valid_address l A = false := by
  have hnot : ¬ (A ≤ VIRTUAL_ROUTINE_END) := Nat.not_le.mpr h1
  unfold is_valid_address
  rw [if_neg hnot]
  cases hv : is_valid_address_loop A l with
  | false => rfl
  | true =>
    obtain ⟨n, hn, _, hle, _⟩ := (is_valid_address_loop_iff A l).mp hv
    have hge : 0xB700 ≤ n.address := heap_chain_ge l _ hc n hn
    omega

theorem array_read_in (size : Nat) (a : Nat → Nat) (i : Nat) (h : i < size) :
    array_read size a i = .ok (a i % 2 ^ 8) := by
  unfold array_read
  rw [if_pos h]

theorem array_read_out (size : Nat) (a : Nat → Nat) (i : Nat) (h : size ≤ i) :
    array_read size a i = .error .undefined_behaviour := by
  unfold array_read
  rw [if_neg (Nat.not_lt.mpr h)]

theorem array_read_cases (size : Nat) (a : Nat → Nat) (i : Nat) :
    array_read size a i = .ok (a i % 2 ^ 8) ∨
    array_read size a i = .error .undefined_behaviour := by
  unfold array_read
  split
  · exact Or.inl rfl
  · exact Or.inr rfl

/-- Where the default branch of `console_read_routine` stays inside the
scratch buffer: the four indices `i .. i + 3` are below 256. -/
theorem console_read_default (s : VM) (A i : Nat) (hc : A ≠ VR_READ_CHAR)
    (hs : A ≠ VR_READ_SINT) (hi : sub32 A VR_START = i) (h3 : i + 3 < 256) :
    console_read_routine A s = .ok
      (s.virtual_routines i % 2 ^ 8
        + s.virtual_routines (i + 1) % 2 ^ 8 * 2 ^ 8
        + s.virtual_routines (i + 2) % 2 ^ 8 * 2 ^ 16
        + s.virtual_routines (i + 3) % 2 ^ 8 * 2 ^ 24, s) := by
  have m1 : (i + 1) % 2 ^ 32 = i + 1 := Nat.mod_eq_of_lt (by omega)
  have m2 : (i + 2) % 2 ^ 32 = i + 2 := Nat.mod_eq_of_lt (by omega)
  have m3 : (i + 3) % 2 ^ 32 = i + 3 := Nat.mod_eq_of_lt (by omega)
  have i0 : i < VR_END - VR_START + 1 := by
    show i < 0x8ff - 0x800 + 1
    omega
  have i1 : i + 1 < VR_END - VR_START + 1 := by
    show i + 1 < 0x8ff - 0x800 + 1
    omega
  have i2 : i + 2 < VR_END - VR_START + 1 := by
    show i + 2 < 0x8ff - 0x800 + 1
    omega
  have i3 : i + 3 < VR_END - VR_START + 1 := by
    show i + 3 < 0x8ff - 0x800 + 1
    omega
  unfold console_read_routine
  rw [if_neg hc, if_neg hs]
  dsimp only
  rw [hi, m1, m2, m3, array_read_in _ _ _ i0, array_read_in _ _ _ i1, array_read_in _ _ _ i2,
    array_read_in _ _ _ i3]
  show Except.ok _ = Except.ok _
  rw [combine_word _ _ _ _ (Nat.mod_lt _ (by decide)) (Nat.mod_lt _ (by decide))
    (Nat.mod_lt _ (by decide)) (Nat.mod_lt _ (by decide))]

/-- The default branch of `console_read_routine` reads the four indices
`i .. i + 3` whatever the width of the load: with `i + 3` at 256 or more one of
them is outside the array. -/
theorem console_read_outside (s : VM) (A i : Nat) (hc : A ≠ VR_READ_CHAR)
    (hs : A ≠ VR_READ_SINT) (hi : sub32 A VR_START = i) (h3 : 256 ≤ i + 3) (h32 : i + 3 < 2 ^ 32) :
    console_read_routine A s = .error .undefined_behaviour := by
  have m1 : (i + 1) % 2 ^ 32 = i + 1 := Nat.mod_eq_of_lt (by omega)
  have m2 : (i + 2) % 2 ^ 32 = i + 2 := Nat.mod_eq_of_lt (by omega)
  have m3 : (i + 3) % 2 ^ 32 = i + 3 := Nat.mod_eq_of_lt (by omega)
  have o3 : VR_END - VR_START + 1 ≤ i + 3 := h3
  unfold console_read_routine
  rw [if_neg hc, if_neg hs]
  dsimp only
  rw [hi, m1, m2, m3, array_read_out _ _ (i + 3) o3]
  rcases array_read_cases (VR_END - VR_START + 1) s.virtual_routines i with h0 | h0 <;>
  rcases array_read_cases (VR_END - VR_START + 1) s.virtual_routines (i + 1) with h1 | h1 <;>
  rcases array_read_cases (VR_END - VR_START + 1) s.virtual_routines (i + 2) with h2 | h2 <;>
  · rw [h0, h1, h2]
    rfl

theorem sub32_VR_START (i : Nat) (h : i < 256) : sub32 (0x0800 + i) VR_START = i := by
  unfold sub32
  show (0x0800 + i + (2 ^ 32 - 0x800 % 2 ^ 32)) % 2 ^ 32 = i
  omega

/-- Loads of the three widths from the scratch part of the window, up to
address 0x08FC = 0x0800 + 252: the bytes at index `i` and behind,
little-endian, in the unchanged state. -/
theorem load_scratch_index (s : VM) (instruct i : Nat) (h3 : i + 3 < 256)
    (hc : 0x0800 + i ≠ 0x0812) (hs : 0x0800 + i ≠ 0x0816) :
    load_byte (0x0800 + i) s instruct = .ok (s.virtual_routines i % 2 ^ 8, s) ∧
    load_half_word (0x0800 + i) s instruct = .ok
      (s.virtual_routines i % 2 ^ 8 + s.virtual_routines (i + 1) % 2 ^ 8 * 2 ^ 8, s) ∧
    load_word (0x0800 + i) s instruct = .ok
      (s.virtual_routines i % 2 ^ 8
        + s.virtual_routines (i + 1) % 2 ^ 8 * 2 ^ 8
        + s.virtual_routines (i + 2) % 2 ^ 8 * 2 ^ 16
        + s.virtual_routines (i + 3) % 2 ^ 8 * 2 ^ 24, s) := by
  have v0 := is_valid_address_low s.head (0x0800 + i) (by omega)
  have v1 := is_valid_address_low s.head ((0x0800 + i + 1) % 2 ^ 32) (by omega)
  have v2 := is_valid_address_low s.head ((0x0800 + i + 2) % 2 ^ 32) (by omega)
  have v3 := is_valid_address_low s.head ((0x0800 + i + 3) % 2 ^ 32) (by omega)
  have c1 : ¬ (0x0800 + i ≥ DATA_MEM_START ∧ 0x0800 + i ≤ DATA_MEM_END) := by
    show ¬ (0x0800 + i ≥ 0x400 ∧ 0x0800 + i ≤ 0x7ff)
    omega
  have c1h : ¬ (0x0800 + i ≥ DATA_MEM_START ∧ 0x0800 + i < DATA_MEM_END) := by
    show ¬ (0x0800 + i ≥ 0x400 ∧ 0x0800 + i < 0x7ff)
    omega
  have c1w : ¬ (0x0800 + i ≥ DATA_MEM_START ∧ 0x0800 + i ≤ DATA_MEM_END - 3) := by
    show ¬ (0x0800 + i ≥ 0x400 ∧ 0x0800 + i ≤ 0x7ff - 3)
    omega
  have c2 : ¬ (0x0800 + i ≤ INST_MEM_END) := by
    show ¬ (0x0800 + i ≤ 0x3ff)
    omega
  have c2h : ¬ (0x0800 + i < INST_MEM_END) := by
    show ¬ (0x0800 + i < 0x3ff)
    omega
  have c2w : ¬ (0x0800 + i ≤ INST_MEM_END - 3) := by
    show ¬ (0x0800 + i ≤ 0x3ff - 3)
    omega
  have c3 : 0x0800 + i ≥ VR_START ∧ 0x0800 + i ≤ VR_END := by
    show 0x0800 + i ≥ 0x800 ∧ 0x0800 + i ≤ 0x8ff
    omega
  have hr := console_read_default s (0x0800 + i) i hc hs (sub32_VR_START i (by omega)) h3
  have e8 : (s.virtual_routines i % 2 ^ 8
        + s.virtual_routines (i + 1) % 2 ^ 8 * 2 ^ 8
        + s.virtual_routines (i + 2) % 2 ^ 8 * 2 ^ 16
        + s.virtual_routines (i + 3) % 2 ^ 8 * 2 ^ 24) % 2 ^ 8
      = s.virtual_routines i % 2 ^ 8 := by omega
  have e16 : (s.virtual_routines i % 2 ^ 8
        + s.virtual_routines (i + 1) % 2 ^ 8 * 2 ^ 8
        + s.virtual_routines (i + 2) % 2 ^ 8 * 2 ^ 16
        + s.virtual_routines (i + 3) % 2 ^ 8 * 2 ^ 24) % 2 ^ 16
      = s.virtual_routines i % 2 ^ 8 + s.virtual_routines (i + 1) % 2 ^ 8 * 2 ^ 8 := by omega
  refine ⟨?_, ?_, ?_⟩
  · unfold load_byte
    rw [if_neg (not_not.mpr v0), if_neg c1, if_neg c2, if_pos c3, hr]
    show Except.ok _ = Except.ok _
    dsimp only
    rw [e8]
  · unfold load_half_word
    rw [if_neg (fun h => h.elim (fun h => h v0) (fun h => h v1)), if_neg c1h, if_neg c2h,
      if_pos c3, hr]
    show Except.ok _ = Except.ok _
    dsimp only
    rw [e16]
  · unfold load_word
    rw [if_neg (fun h => h.elim (fun h => h v0) (fun h => h.elim (fun h => h v1)
      (fun h => h.elim (fun h => h v2) (fun h => h v3)))), if_neg c1w, if_neg c2w, if_pos c3, hr]

/-- The last three addresses of the window, 0x08FD = 0x0800 + 253 and behind:
the byte load passes the validity check and reads outside the array; so does
the half-word load at 0x08FD and 0x08FE. -/
theorem load_scratch_outside (s : VM) (instruct i : Nat) (h1 : 253 ≤ i) (h2 : i ≤ 255) :
    load_byte (0x0800 + i) s instruct = .error .undefined_behaviour ∧
    (i ≤ 254 → load_half_word (0x0800 + i) s instruct = .error .undefined_behaviour) := by
  have v0 := is_valid_address_low s.head (0x0800 + i) (by omega)
  have c1 : ¬ (0x0800 + i ≥ DATA_MEM_START ∧ 0x0800 + i ≤ DATA_MEM_END) := by
    show ¬ (0x0800 + i ≥ 0x400 ∧ 0x0800 + i ≤ 0x7ff)
    omega
  have c1h : ¬ (0x0800 + i ≥ DATA_MEM_START ∧ 0x0800 + i < DATA_MEM_END) := by
    show ¬ (0x0800 + i ≥ 0x400 ∧ 0x0800 + i < 0x7ff)
    omega
  have c2 : ¬ (0x0800 + i ≤ INST_MEM_END) := by
    show ¬ (0x0800 + i ≤ 0x3ff)
    omega
  have c2h : ¬ (0x0800 + i < INST_MEM_END) := by
    show ¬ (0x0800 + i < 0x3ff)
    omega
  have c3 : 0x0800 + i ≥ VR_START ∧ 0x0800 + i ≤ VR_END := by
    show 0x0800 + i ≥ 0x800 ∧ 0x0800 + i ≤ 0x8ff
    omega
  have hc : 0x0800 + i ≠ VR_READ_CHAR := by
    show 0x0800 + i ≠ 0x0812
    omega
  have hs : 0x0800 + i ≠ VR_READ_SINT := by
    show 0x0800 + i ≠ 0x0816
    omega
  have hr := console_read_outside s (0x0800 + i) i hc hs (sub32_VR_START i (by omega))
    (by omega) (by omega)
  constructor
  · unfold load_byte
    rw [if_neg (not_not.mpr v0), if_neg c1, if_neg c2, if_pos c3, hr]
    rfl
  · intro h254
    have v1 := is_valid_address_low s.head ((0x0800 + i + 1) % 2 ^ 32) (by omega)
    unfold load_half_word
    rw [if_neg (fun h => h.elim (fun h => h v0) (fun h => h v1)), if_neg c1h, if_neg c2h,
      if_pos c3, hr]
    rfl

/-- On a heap list that partitions the heap region, the half-word load at
0x08FF and the word loads from 0x08FD on touch 0x0900 or the addresses behind
it, which are not valid. -/
theorem load_scratch_illegal (s : VM) (instruct i : Nat) (hh : heap_chain HEAP_START s.head)
    (h1 : 253 ≤ i) (h2 : i ≤ 255) :
    (i = 255 →
      load_half_word (0x0800 + i) s instruct = .error (.illegal_operation instruct s)) ∧
    load_word (0x0800 + i) s instruct = .error (.illegal_operation instruct s) := by
  constructor
  · intro hi
    have v1 : is_valid_address s.head ((0x0800 + i + 1) % 2 ^ 32) = false :=
      is_valid_address_below_heap _ hh _ (by omega) (by omega)
    have hn : ¬ (is_valid_address s.head ((0x0800 + i + 1) % 2 ^ 32) = true) := by
      rw [v1]
      decide
    unfold load_half_word
    rw [if_pos (Or.inr hn)]
    rfl
  · have v3 : is_valid_address s.head ((0x0800 + i + 3) % 2 ^ 32) = false :=
      is_valid_address_below_heap _ hh _ (by omega) (by omega)
    have hn : ¬ (is_valid_address s.head ((0x0800 + i + 3) % 2 ^ 32) = true) := by
      rw [v3]
      decide
    unfold load_word
    rw [if_pos (Or.inr (Or.inr (Or.inr hn)))]
    rfl

/-- C26: loads from the addresses of the window 0x0800..0x08FF other than
0x0812 and 0x0816. From 0x08FD on a byte load, and at 0x08FD and 0x08FE a
half-word load, passes the validity check and makes `console_read_routine`
read `virtual_routines[A - 0x0800 + 3]`, an index of 256 or more, outside the
256-byte array; on a reachable heap the half-word load at 0x08FF and the word
loads from 0x08FD on end in IllegalOperation, because they touch 0x0900. Up to
0x08FC the three widths return the scratch bytes at index A - 0x0800 and
behind, little-endian, in the unchanged state, and 0 in every state of the run
loop. -/
theorem load_vr_scratch_outside (s : VM) (instruct A : Nat) (h1 : 0x0800 ≤ A)
    (h2 : A ≤ 0x08FF) (hc : A ≠ 0x0812) (hs : A ≠ 0x0816) :
    (0x08FD ≤ A →
      load_byte A s instruct = .error .undefined_behaviour ∧
      256 ≤ sub32 A VR_START + 3) ∧
    (0x08FD ≤ A → A ≤ 0x08FE → load_half_word A s instruct = .error .undefined_behaviour) ∧
    (heap_reachable s.head → A = 0x08FF →
      load_half_word A s instruct = .error (.illegal_operation instruct s)) ∧
    (heap_reachable s.head → 0x08FD ≤ A →
      load_word A s instruct = .error (.illegal_operation instruct s)) ∧
    (A ≤ 0x08FC →
      load_byte A s instruct = .ok (s.virtual_routines (A - 0x0800) % 2 ^ 8, s) ∧
      load_half_word A s instruct = .ok
        (s.virtual_routines (A - 0x0800) % 2 ^ 8
          + s.virtual_routines (A - 0x0800 + 1) % 2 ^ 8 * 2 ^ 8, s) ∧
      load_word A s instruct = .ok
        (s.virtual_routines (A - 0x0800) % 2 ^ 8
          + s.virtual_routines (A - 0x0800 + 1) % 2 ^ 8 * 2 ^ 8
          + s.virtual_routines (A - 0x0800 + 2) % 2 ^ 8 * 2 ^ 16
          + s.virtual_routines (A - 0x0800 + 3) % 2 ^ 8 * 2 ^ 24, s) ∧
      A - 0x0800 + 3 < 256) ∧
    (∀ inst_mem data_mem stdin scanf_d,
      loop_state (startup inst_mem data_mem stdin scanf_d) s → A ≤ 0x08FC →
      load_byte A s instruct = .ok (0, s) ∧ load_half_word A s instruct = .ok (0, s) ∧
      load_word A s instruct = .ok (0, s)) := by
  obtain ⟨i, rfl⟩ : ∃ i, A = 0x0800 + i := ⟨A - 0x0800, by omega⟩
  have e : 0x0800 + i - 0x0800 = i := by omega
  rw [e]
  refine ⟨fun h => ⟨?_, ?_⟩, fun h h' => ?_, fun hr hA => ?_, fun hr hA => ?_, fun hA => ?_,
    fun im dm si sc hl hA => ?_⟩
  · exact (load_scratch_outside s instruct i (by omega) (by omega)).1
  · rw [sub32_VR_START i (by omega)]
    omega
  · exact (load_scratch_outside s instruct i (by omega) (by omega)).2 (by omega)
  · exact (load_scratch_illegal s instruct i (heap_reachable_chain _ hr) (by omega)
      (by omega)).1 (by omega)
  · exact (load_scratch_illegal s instruct i (heap_reachable_chain _ hr) (by omega)
      (by omega)).2
  · have h := load_scratch_index s instruct i (by omega) hc hs
    exact ⟨h.1, h.2.1, h.2.2, by omega⟩
  · have h := load_scratch_index s instruct i (by omega) hc hs
    have hz := loop_state_scratch im dm si sc s hl
    have hv : ∀ j, s.virtual_routines j = 0 := fun j => congrFun hz j
    simp only [hv, Nat.zero_mod, Nat.zero_mul, Nat.add_zero] at h
    exact h

/-- C26 at concrete addresses: the byte load from 0x08FD on the startup state
is undefined (index 256 is read), and so is `lbu r3, 0(r1)` (0x0000C183) with
R[1] = 0x08FD; the half-word load from 0x08FF and the word load from 0x08FD
end in IllegalOperation; the word load from 0x0810 and the byte load from
0x08FC return 0. -/
theorem load_vr_scratch_outside_witness :
    load_byte 0x08FD vm_zero 0 = .error .undefined_behaviour ∧
    256 ≤ sub32 0x08FD VR_START + 3 ∧
    load_half_word 0x08FE vm_zero 0 = .error .undefined_behaviour ∧
    load_half_word 0x08FF vm_zero 0 = .error (.illegal_operation 0 vm_zero) ∧
    load_word 0x08FD vm_zero 0 = .error (.illegal_operation 0 vm_zero) ∧
    execute_instruct 0x0000C183 (vm_with 0 1 0x08FD) = .error .undefined_behaviour ∧
    load_word 0x0810 vm_zero 0 = .ok (0, vm_zero) ∧
    load_byte 0x08FC vm_zero 0 = .ok (0, vm_zero) :=
  ⟨((load_vr_scratch_outside vm_zero 0 0x08FD (by decide) (by decide) (by decide)
      (by decide)).1 (by decide)).1,
   ((load_vr_scratch_outside vm_zero 0 0x08FD (by decide) (by decide) (by decide)
      (by decide)).1 (by decide)).2,
   (load_vr_scratch_outside vm_zero 0 0x08FE (by decide) (by decide) (by decide)
      (by decide)).2.1 (by decide) (by decide),
   (load_vr_scratch_outside vm_zero 0 0x08FF (by decide) (by decide) (by decide)
      (by decide)).2.2.1 heap_reachable.init rfl,
   (load_vr_scratch_outside vm_zero 0 0x08FD (by decide) (by decide) (by decide)
      (by decide)).2.2.2.1 heap_reachable.init (by decide),
   by rfl,
   ((load_vr_scratch_outside vm_zero 0 0x0810 (by decide) (by decide) (by decide)
      (by decide)).2.2.2.2.2 _ _ _ _ loop_state.start (by decide)).2.2,
   ((load_vr_scratch_outside vm_zero 0 0x08FC (by decide) (by decide) (by decide)
      (by decide)).2.2.2.2.2 _ _ _ _ loop_state.start (by decide)).1⟩

/-! ## The program counter at fetch time -/

/-- Where `fetch_instruct` stays inside `inst_mem`: with `pc + 3` below
`INST_MEM_SIZE` it returns the little-endian word of the four bytes at `pc`. -/
theorem fetch_instruct_inside (s : VM) (h : s.pc + 3 < INST_MEM_SIZE) :
    fetch_instruct s = .ok
      (s.inst_mem s.pc % 2 ^ 8 + s.inst_mem (s.pc + 1) % 2 ^ 8 * 2 ^ 8
        + s.inst_mem (s.pc + 2) % 2 ^ 8 * 2 ^ 16 + s.inst_mem (s.pc + 3) % 2 ^ 8 * 2 ^ 24) := by
  unfold fetch_instruct
  rw [array_read_in _ _ _ (by omega : s.pc < INST_MEM_SIZE),
    array_read_in _ _ _ (by omega : s.pc + 1 < INST_MEM_SIZE),
    array_read_in _ _ _ (by omega : s.pc + 2 < INST_MEM_SIZE),
    array_read_in _ _ _ h]
  show Except.ok _ = Except.ok _
  rw [combine_word _ _ _ _ (Nat.mod_lt _ (by decide)) (Nat.mod_lt _ (by decide))
    (Nat.mod_lt _ (by decide)) (Nat.mod_lt _ (by decide))]

/-- Where it does not: the loop condition `pc < INST_MEM_SIZE` admits the
values 1021, 1022 and 1023, for which the word read at `inst_mem + pc` ends
behind the array. -/
theorem fetch_instruct_outside (s : VM) (h : INST_MEM_SIZE ≤ s.pc + 3) :
    fetch_instruct s = .error .undefined_behaviour := by
  unfold fetch_instruct
  rw [array_read_out _ _ _ h]
  rcases array_read_cases INST_MEM_SIZE s.inst_mem s.pc with h0 | h0 <;>
  rcases array_read_cases INST_MEM_SIZE s.inst_mem (s.pc + 1) with h1 | h1 <;>
  rcases array_read_cases INST_MEM_SIZE s.inst_mem (s.pc + 2) with h2 | h2 <;>
  · rw [h0, h1, h2]
    rfl

/-- C27: the loop of `running_vm` tests `pc < INST_MEM_SIZE` only. On the
program whose first word is `jalr r1, 1022(r0)` (0x3FE000E7) the first pass
leaves PC = 1022: the loop condition holds, PC is not a multiple of 4, and the
fetch reads the bytes 1022..1025, of which 1024 and 1025 are outside
`inst_mem`. The branch `beq r0, r0, +1022` (0x3E000F63) does the same, and
`beq r0, r0, +2` (0x00000163) leaves PC = 2, inside the array and not a
multiple of 4. For every state with `pc + 3 < INST_MEM_SIZE`, as all states
with PC a multiple of 4 under the loop condition are, the fetch stays inside
`inst_mem`. -/
theorem fetch_pc_unaligned_outside :
    fetch_instruct (vm_program [0x3FE000E7]) = .ok 0x3FE000E7 ∧
    (∃ s, loop_state (vm_program [0x3FE000E7]) s ∧ s.pc = 1022 ∧ s.pc < INST_MEM_SIZE ∧
      s.pc % 4 = 2 ∧ INST_MEM_SIZE ≤ s.pc + 3 ∧
      fetch_instruct s = .error .undefined_behaviour) ∧
    running_vm 2 (vm_program [0x3FE000E7]) = .error .undefined_behaviour ∧
    (∃ s, loop_state (vm_program [0x3E000F63]) s ∧ s.pc = 1022 ∧ s.pc < INST_MEM_SIZE ∧
      s.pc % 4 = 2 ∧ fetch_instruct s = .error .undefined_behaviour) ∧
    (∃ s, loop_state (vm_program [0x00000163]) s ∧ s.pc = 2 ∧ s.pc < INST_MEM_SIZE ∧
      s.pc % 4 = 2 ∧ fetch_instruct s = .ok 0) ∧
    (∀ s : VM, s.pc < INST_MEM_SIZE → s.pc % 4 = 0 → s.pc + 3 < INST_MEM_SIZE) ∧
    (∀ s : VM, s.pc + 3 < INST_MEM_SIZE → ∃ w, fetch_instruct s = .ok w) := by
  have p1 : ∃ s1, running_vm_step (vm_program [0x3FE000E7]) = .ok s1 ∧ s1.pc = 1022 :=
    ⟨_, rfl, rfl⟩
  have p2 : ∃ s1, running_vm_step (vm_program [0x3E000F63]) = .ok s1 ∧ s1.pc = 1022 :=
    ⟨_, rfl, rfl⟩
  have p3 : ∃ s1, running_vm_step (vm_program [0x00000163]) = .ok s1 ∧ s1.pc = 2 ∧
      fetch_instruct s1 = .ok 0 :=
    ⟨_, rfl, rfl, rfl⟩
  obtain ⟨s1, h1, e1⟩ := p1
  obtain ⟨s2, h2, e2⟩ := p2
  obtain ⟨s3, h3, e3, f3⟩ := p3
  refine ⟨by rfl, ⟨s1, ?_, e1, ?_, ?_, ?_, ?_⟩, by rfl, ⟨s2, ?_, e2, ?_, ?_, ?_⟩,
    ⟨s3, ?_, e3, ?_, ?_, f3⟩, ?_, ?_⟩
  · exact loop_state.pass _ _ loop_state.start (by decide) h1
  · rw [e1]
    decide
  · rw [e1]
  · rw [e1]
    decide
  · exact fetch_instruct_outside s1 (by rw [e1]; decide)
  · exact loop_state.pass _ _ loop_state.start (by decide) h2
  · rw [e2]
    decide
  · rw [e2]
  · exact fetch_instruct_outside s2 (by rw [e2]; decide)
  · exact loop_state.pass _ _ loop_state.start (by decide) h3
  · rw [e3]
    decide
  · rw [e3]
  · intro s hlt hal
    have hlt2 : s.pc < 1024 := hlt
    show s.pc + 3 < 1024
    omega
  · intro s h
    exact ⟨_, fetch_instruct_inside s h⟩

/-! ## Allocate, then free -/

theorem heap_reachable_banks_lt (l : List heap_node) (h : heap_reachable l) :
    ∀ n ∈ l, n.bank_blocks ≤ 128 := by
  intro n hn
  have h1 := le_total_banks l n hn
  have h2 : total_banks l = 128 := heap_reachable_total l h
  omega

/-- What a successful `vm_malloc` call is made of: a size of at least 1, a
bank count of at least 1 and a hit of the loop. -/
theorem vm_malloc_some (size : Nat) (l : List heap_node) (hne : (vm_malloc size l).1 ≠ 0) :
    1 ≤ size ∧ 1 ≤ (size + BANK_BLOCK_SIZE - 1) % 2 ^ 32 / BANK_BLOCK_SIZE ∧
    vm_malloc_loop size ((size + BANK_BLOCK_SIZE - 1) % 2 ^ 32 / BANK_BLOCK_SIZE) l
      = some (vm_malloc size l) := by
  by_cases hreq : (size + BANK_BLOCK_SIZE - 1) % 2 ^ 32 / BANK_BLOCK_SIZE = 0
  · exfalso
    apply hne
    unfold vm_malloc
    simp only [hreq, if_true]
  · refine ⟨?_, Nat.pos_of_ne_zero hreq, ?_⟩
    · have hreq2 : ¬ ((size + 64 - 1) % 2 ^ 32 / 64 = 0) := hreq
      omega
    · cases hl : vm_malloc_loop size
          ((size + BANK_BLOCK_SIZE - 1) % 2 ^ 32 / BANK_BLOCK_SIZE) l with
      | none =>
        exfalso
        apply hne
        unfold vm_malloc
        simp only [if_neg hreq, hl]
      | some r =>
        unfold vm_malloc
        simp only [if_neg hreq, hl]

/-- Freeing the address the loop of `vm_malloc` has just returned undoes the
allocation, on a list without two free neighbours. -/
theorem vm_malloc_free_loop (size req : Nat) (h1 : 1 ≤ size) (hreq : 1 ≤ req)
    (l : List heap_node) :
    ∀ (a0 : Nat) (prev : Option heap_node) (r : Nat × List heap_node),
      heap_chain a0 l → no_adjacent_free (prev.toList ++ l) →
      (∀ n ∈ l, n.bank_blocks < 2 ^ 32) →
      vm_malloc_loop size req l = some r →
      vm_free_loop r.1 prev r.2 = some (prev.toList ++ l) := by
  induction l with
  | nil =>
    intro a0 prev r _ _ _ h
    simp [vm_malloc_loop] at h
  | cons c next ih =>
    intro a0 prev r hch hadj hb h
    have hadj2 : no_adjacent_free (c :: next) := no_adjacent_free_of_append _ _ hadj
    have hcb : c.bank_blocks < 2 ^ 32 := hb c (List.mem_cons_self _ _)
    by_cases hfit : c.allocated_size = 0 ∧ c.bank_blocks ≥ req
    · unfold vm_malloc_loop at h
      rw [if_pos hfit] at h
      have hr := (Option.some.inj h).symm
      subst hr
      have hcond : (0 < size ∧ c.address = c.address) := ⟨h1, rfl⟩
      have hnext : coalesce_next
          { address := c.address, bank_blocks := req, allocated_size := 0 }
          (if c.bank_blocks > req then
            { address := (c.address + req * BANK_BLOCK_SIZE) % 2 ^ 32
              bank_blocks := c.bank_blocks - req
              allocated_size := 0 } :: next
          else next) = c :: next := by
        by_cases hgt : c.bank_blocks > req
        · rw [if_pos hgt]
          unfold coalesce_next
          simp only [if_true]
          have hm : (req + (c.bank_blocks - req)) % 2 ^ 32 = c.bank_blocks := by omega
          rw [hm]
          cases c
          simp only at hfit
          simp only [hfit.1]
        · rw [if_neg hgt]
          have hcb2 : req = c.bank_blocks := by omega
          have hc0 : ({ address := c.address, bank_blocks := req, allocated_size := 0 }
              : heap_node) = c := by
            cases c
            simp only at hfit hcb2
            simp only [hfit.1, hcb2]
          rw [hc0]
          cases next with
          | nil => rfl
          | cons y t =>
            have hy : ¬ (y.allocated_size = 0) := fun hy => hadj2.1 ⟨hfit.1, hy⟩
            unfold coalesce_next
            simp only [if_neg hy]
      show vm_free_loop c.address prev
        ({ address := c.address, bank_blocks := req, allocated_size := size } :: _) = _
      unfold vm_free_loop
      simp only [gt_iff_lt, hcond, and_self, if_true, hnext]
      cases prev with
      | none => rfl
      | some p =>
        have hp : ¬ (p.allocated_size = 0) := fun hp => hadj.1 ⟨hp, hfit.1⟩
        unfold coalesce_prev
        simp only [if_neg hp]
        rfl
    · unfold vm_malloc_loop at h
      rw [if_neg hfit] at h
      cases hl : vm_malloc_loop size req next with
      | none =>
        rw [hl] at h
        simp at h
      | some r1 =>
        rw [hl] at h
        have hr := (Option.some.inj h).symm
        subst hr
        have hch1 : heap_chain (a0 + c.bank_blocks * BANK_BLOCK_SIZE) r1.2 :=
          vm_malloc_loop_chain size req hreq next _ r1 hch.2.2 hl
        obtain ⟨n, hn, hna, _, _⟩ := vm_malloc_loop_node size req next r1 hl
        have hge : a0 + c.bank_blocks * 64 ≤ n.address := heap_chain_ge _ _ hch1 n hn
        have hca : c.address = a0 := hch.1
        have hc1 : 1 ≤ c.bank_blocks := hch.2.1
        have hcond : ¬ (c.allocated_size > 0 ∧ r1.1 = c.address) := by
          intro hh
          omega
        have hrec := ih _ (some c) r1 hch.2.2 hadj2
          (fun m hm => hb m (List.mem_cons_of_mem _ hm)) hl
        show vm_free_loop r1.1 prev (c :: r1.2) = _
        unfold vm_free_loop
        simp only [if_neg hcond, hrec]
        rfl

/-- C28: on every heap list reachable from `init_heap` (no two neighbours of
such a list are free), when `vm_malloc(size)` returns a non-zero address `a`,
`vm_free(a)` on the list after the allocation returns 1 and leaves the list
that was there before the allocation: the same nodes with the same addresses,
bank counts and allocated sizes, in the same order. -/
theorem vm_malloc_free_identity (l : List heap_node) (h : heap_reachable l) (size : Nat)
    (hne : (vm_malloc size l).1 ≠ 0) :
    no_adjacent_free l ∧
    vm_free (vm_malloc size l).1 (vm_malloc size l).2 = (1, l) := by
  have hadj := heap_reachable_adjacent l h
  refine ⟨hadj, ?_⟩
  obtain ⟨h1, hreq, hloop⟩ := vm_malloc_some size l hne
  have hb : ∀ n ∈ l, n.bank_blocks < 2 ^ 32 := fun n hn =>
    Nat.lt_of_le_of_lt (heap_reachable_banks_lt l h n hn) (by decide)
  have hfree := vm_malloc_free_loop size _ h1 hreq l HEAP_START none _
    (heap_reachable_chain l h) hadj hb hloop
  unfold vm_free
  rw [hfree]
  rfl

/-- C28 on the heap with a free bank at 0xB700, an allocation at 0xB740 and
126 free banks at 0xB780: `malloc(64)` takes the first node whole and
`malloc(100)` splits the last one; freeing the returned address gives the list
back in both cases. -/
theorem vm_malloc_free_identity_witness :
    (vm_malloc 64 heap_fragmented).1 = 0xB700 ∧
    (vm_malloc 100 heap_fragmented).1 = 0xB780 ∧
    (vm_malloc 100 heap_fragmented).2 =
      [{ address := 0xB700, bank_blocks := 1, allocated_size := 0 },
       { address := 0xB740, bank_blocks := 1, allocated_size := 64 },
       { address := 0xB780, bank_blocks := 2, allocated_size := 100 },
       { address := 0xB800, bank_blocks := 124, allocated_size := 0 }] ∧
    vm_free (vm_malloc 64 heap_fragmented).1 (vm_malloc 64 heap_fragmented).2
      = (1, heap_fragmented) ∧
    vm_free (vm_malloc 100 heap_fragmented).1 (vm_malloc 100 heap_fragmented).2
      = (1, heap_fragmented) := by
  have hr : heap_reachable heap_fragmented :=
    heap_reachable.free _ 0xB780
      (heap_reachable.free _ 0xB700
        (heap_reachable.malloc _ 64
          (heap_reachable.malloc _ 64
            (heap_reachable.malloc _ 64 heap_reachable.init (by decide)) (by decide))
          (by decide))
        (by decide))
      (by decide)
  exact ⟨by rfl, by rfl, by rfl,
    (vm_malloc_free_identity heap_fragmented hr 64 (by decide)).2,
    (vm_malloc_free_identity heap_fragmented hr 100 (by decide)).2⟩

/-! ## Validity of addresses across an allocation -/

/-- In a list that partitions from `a` on, the nodes before `n` end at or
before the address of `n` and the nodes behind `n` start at or behind its end. -/
theorem heap_chain_split (pre : List heap_node) (n : heap_node) (post : List heap_node) :
    ∀ a, heap_chain a (pre ++ n :: post) →
      (∀ m ∈ pre, m.address + m.bank_blocks * 64 ≤ n.address) ∧
      (∀ m ∈ post, n.address + n.bank_blocks * 64 ≤ m.address) := by
  induction pre with
  | nil =>
    intro a h
    refine ⟨fun m hm => absurd hm (List.not_mem_nil m), fun m hm => ?_⟩
    have hge := heap_chain_ge post _ h.2.2 m hm
    have ha : n.address = a := h.1
    have hge2 : a + n.bank_blocks * 64 ≤ m.address := hge
    omega
  | cons c pre ih =>
    intro a h
    obtain ⟨ih1, ih2⟩ := ih _ h.2.2
    refine ⟨fun m hm => ?_, ih2⟩
    rcases List.mem_cons.mp hm with rfl | hm
    · have hge := (heap_chain_append pre n post _ h.2.2).1
      have ha : m.address = a := h.1
      have hge2 : a + m.bank_blocks * 64 ≤ n.address := hge
      omega
    · exact ih1 m hm

/-- The list a successful `vm_malloc` leaves: the first free node `n` with
enough banks is replaced by the allocated node and, when banks are left over,
a free node behind it. -/
theorem vm_malloc_decompose (l : List heap_node) (size : Nat) (hr : heap_reachable l)
    (h32 : size < 2 ^ 32) (hne : (vm_malloc size l).1 ≠ 0) :
    ∃ pre n post new_node, l = pre ++ n :: post ∧ n.allocated_size = 0 ∧ 1 ≤ size ∧
      size ≤ n.bank_blocks * 64 ∧ new_node.allocated_size = 0 ∧
      (vm_malloc size l).1 = n.address ∧
      ∃ req, ((vm_malloc size l).2
          = pre ++ { address := n.address, bank_blocks := req, allocated_size := size } ::
              new_node :: post ∨
        (vm_malloc size l).2
          = pre ++ { address := n.address, bank_blocks := req, allocated_size := size } ::
              post) := by
  obtain ⟨h1, _, _⟩ := vm_malloc_some size l hne
  have hex := (vm_malloc_nonzero_iff l size hr h1 h32).mp hne
  obtain ⟨pre, n, post, e, ⟨hfree, hfit⟩, hpre⟩ :=
    exists_first (fun m => m.allocated_size = 0 ∧ ceil_banks size ≤ m.bank_blocks) l hex
  have hc := heap_reachable_chain l hr
  subst e
  have hb : 0xb700 ≤ n.address ∧ 1 ≤ n.bank_blocks ∧ n.address + n.bank_blocks * 64 ≤ 0xd700 :=
    heap_chain_append pre n post _ hc
  have hcs := ceil_banks_spec size
  have hreq := required_blocks_eq size (by omega)
  have hne0 : ¬ (ceil_banks size = 0) := by omega
  have hm : vm_malloc size (pre ++ n :: post) = (n.address,
      pre ++ { address := n.address, bank_blocks := ceil_banks size, allocated_size := size } ::
        (if ceil_banks size < n.bank_blocks then
          { address := (n.address + ceil_banks size * BANK_BLOCK_SIZE) % 2 ^ 32
            bank_blocks := n.bank_blocks - ceil_banks size
            allocated_size := 0 } :: post
        else post)) := by
    unfold vm_malloc
    simp only [hreq]
    rw [if_neg hne0, vm_malloc_loop_first_fit size (ceil_banks size) n post hfree hfit pre hpre]
  refine ⟨pre, n, post,
    { address := (n.address + ceil_banks size * BANK_BLOCK_SIZE) % 2 ^ 32
      bank_blocks := n.bank_blocks - ceil_banks size
      allocated_size := 0 }, rfl, hfree, h1, by omega, rfl, ?_, ceil_banks size, ?_⟩
  · rw [hm]
  · rw [hm]
    by_cases hlt : ceil_banks size < n.bank_blocks
    · left
      simp only [if_pos hlt]
    · right
      simp only [if_neg hlt]

/-- An allocated node of a reachable list covers the addresses from its
address up to less than its end, without a wrap at 2^32, and stays inside its
banks. -/
theorem heap_reachable_range (l : List heap_node) (hr : heap_reachable l) :
    ∀ m ∈ l, 0 < m.allocated_size →
      (m.address + m.allocated_size) % 2 ^ 32 = m.address + m.allocated_size ∧
      m.allocated_size ≤ m.bank_blocks * 64 := by
  intro m hm hpos
  have hb : m.allocated_size ≤ m.bank_blocks * 64 ∧ m.bank_blocks * 64 < m.allocated_size + 64 :=
    heap_reachable_bounds l hr m hm hpos
  obtain ⟨pre, post, e⟩ := List.append_of_mem hm
  have hc := heap_reachable_chain l hr
  rw [e] at hc
  have hh : 0xb700 ≤ m.address ∧ 1 ≤ m.bank_blocks ∧ m.address + m.bank_blocks * 64 ≤ 0xd700 :=
    heap_chain_append pre m post _ hc
  exact ⟨by omega, hb.1⟩

/-- C29: on every heap list reachable from `init_heap`, when `vm_malloc(size)`
returns a non-zero address `a`: no address of [a, a + size) was valid before
the call, every address of [a, a + size) is valid after it, and
`is_valid_address` gives the same answer before and after the call for every
address outside [a, a + size). -/
theorem vm_malloc_validity_frame (l : List heap_node) (hr : heap_reachable l) (size : Nat)
    (h32 : size < 2 ^ 32) (hne : (vm_malloc size l).1 ≠ 0) :
    (∀ x, (vm_malloc size l).1 ≤ x → x < (vm_malloc size l).1 + size →
      is_valid_address l x = false) ∧
    (∀ x, (vm_malloc size l).1 ≤ x → x < (vm_malloc size l).1 + size →
      is_valid_address (vm_malloc size l).2 x = true) ∧
    (∀ x, x < (vm_malloc size l).1 ∨ (vm_malloc size l).1 + size ≤ x →
      is_valid_address (vm_malloc size l).2 x = is_valid_address l x) := by
  have hr2 : heap_reachable (vm_malloc size l).2 := heap_reachable.malloc l size hr h32
  obtain ⟨pre, n, post, new_node, e, hfree, h1, hfit, hnew, ha, req, hl2⟩ :=
    vm_malloc_decompose l size hr h32 hne
  have hc := heap_reachable_chain l hr
  have hrange := heap_reachable_range l hr
  have hrange2 := heap_reachable_range _ hr2
  rw [ha]
  rw [e] at hc
  obtain ⟨hsp1, hsp2⟩ := heap_chain_split pre n post _ hc
  have hb : 0xb700 ≤ n.address ∧ 1 ≤ n.bank_blocks ∧ n.address + n.bank_blocks * 64 ≤ 0xd700 :=
    heap_chain_append pre n post _ hc
  have hmem2 : ({ address := n.address, bank_blocks := req, allocated_size := size } : heap_node)
      ∈ (vm_malloc size l).2 := by
    rcases hl2 with hl2 | hl2 <;>
    · rw [hl2]
      exact List.mem_append_right _ (List.mem_cons_self _ _)
  -- the nodes that count for validity are the same, but for the allocated one
  have hold : ∀ m ∈ l, 0 < m.allocated_size → m ∈ pre ∨ m ∈ post := by
    intro m hm hpos
    rw [e] at hm
    rcases List.mem_append.mp hm with hm | hm
    · exact Or.inl hm
    · rcases List.mem_cons.mp hm with rfl | hm
      · omega
      · exact Or.inr hm
  have hnew_mem : ∀ m ∈ (vm_malloc size l).2, 0 < m.allocated_size →
      m ∈ pre ∨ m ∈ post ∨
        m = { address := n.address, bank_blocks := req, allocated_size := size } := by
    intro m hm hpos
    rcases hl2 with hl2 | hl2
    · rw [hl2] at hm
      rcases List.mem_append.mp hm with hm | hm
      · exact Or.inl hm
      · rcases List.mem_cons.mp hm with rfl | hm
        · exact Or.inr (Or.inr rfl)
        · rcases List.mem_cons.mp hm with rfl | hm
          · omega
          · exact Or.inr (Or.inl hm)
    · rw [hl2] at hm
      rcases List.mem_append.mp hm with hm | hm
      · exact Or.inl hm
      · rcases List.mem_cons.mp hm with rfl | hm
        · exact Or.inr (Or.inr rfl)
        · exact Or.inr (Or.inl hm)
  have hpre_new : ∀ m ∈ pre, m ∈ (vm_malloc size l).2 := by
    intro m hm
    rcases hl2 with hl2 | hl2 <;>
    · rw [hl2]
      exact List.mem_append_left _ hm
  have hpost_new : ∀ m ∈ post, m ∈ (vm_malloc size l).2 := by
    intro m hm
    rcases hl2 with hl2 | hl2
    · rw [hl2]
      exact List.mem_append_right _ (List.mem_cons_of_mem _ (List.mem_cons_of_mem _ hm))
    · rw [hl2]
      exact List.mem_append_right _ (List.mem_cons_of_mem _ hm)
  have hpre_old : ∀ m ∈ pre, m ∈ l := by
    intro m hm
    rw [e]
    exact List.mem_append_left _ hm
  have hpost_old : ∀ m ∈ post, m ∈ l := by
    intro m hm
    rw [e]
    exact List.mem_append_right _ (List.mem_cons_of_mem _ hm)
  refine ⟨fun x hx1 hx2 => ?_, fun x hx1 hx2 => ?_, fun x hx => ?_⟩
  · have hnot : ¬ (x ≤ VIRTUAL_ROUTINE_END) := by
      show ¬ (x ≤ 0x8ff)
      omega
    unfold is_valid_address
    rw [if_neg hnot]
    cases hv : is_valid_address_loop x l with
    | false => rfl
    | true =>
      exfalso
      obtain ⟨m, hm, hpos, hle, hlt⟩ := (is_valid_address_loop_iff x l).mp hv
      obtain ⟨hmod, hbank⟩ := hrange m hm hpos
      rw [hmod] at hlt
      rcases hold m hm hpos with hm2 | hm2
      · have := hsp1 m hm2
        omega
      · have := hsp2 m hm2
        omega
  · have hnot : ¬ (x ≤ VIRTUAL_ROUTINE_END) := by
      show ¬ (x ≤ 0x8ff)
      omega
    unfold is_valid_address
    rw [if_neg hnot]
    apply (is_valid_address_loop_iff x _).mpr
    refine ⟨_, hmem2, h1, hx1, ?_⟩
    have hm : (n.address + size) % 2 ^ 32 = n.address + size := by omega
    show x < (n.address + size) % 2 ^ 32
    rw [hm]
    exact hx2
  · unfold is_valid_address
    by_cases hlow : x ≤ VIRTUAL_ROUTINE_END
    · rw [if_pos hlow, if_pos hlow]
    · rw [if_neg hlow, if_neg hlow]
      rw [Bool.eq_iff_iff, is_valid_address_loop_iff, is_valid_address_loop_iff]
      constructor
      · rintro ⟨m, hm, hpos, hle, hlt⟩
        rcases hnew_mem m hm hpos with hm2 | hm2 | rfl
        · exact ⟨m, hpre_old m hm2, hpos, hle, hlt⟩
        · exact ⟨m, hpost_old m hm2, hpos, hle, hlt⟩
        · exfalso
          have hm3 : (n.address + size) % 2 ^ 32 = n.address + size := by omega
          have hlt2 : x < (n.address + size) % 2 ^ 32 := hlt
          have hle2 : n.address ≤ x := hle
          rw [hm3] at hlt2
          omega
      · rintro ⟨m, hm, hpos, hle, hlt⟩
        rcases hold m hm hpos with hm2 | hm2
        · exact ⟨m, hpre_new m hm2, hpos, hle, hlt⟩
        · exact ⟨m, hpost_new m hm2, hpos, hle, hlt⟩

/-- C29 at `malloc(100)` on the heap with a free bank at 0xB700, an allocation
of 64 bytes at 0xB740 and 126 free banks at 0xB780: the call returns 0xB780;
0xB780 and 0xB7E3 were not valid before and are valid after; 0xB7E4, the first
byte behind the 100, stays invalid, 0xB740 stays valid and 0xB700 stays
invalid. -/
theorem vm_malloc_validity_frame_witness :
    (vm_malloc 100 heap_fragmented).1 = 0xB780 ∧
    is_valid_address heap_fragmented 0xB780 = false ∧
    is_valid_address heap_fragmented 0xB7E3 = false ∧
    is_valid_address (vm_malloc 100 heap_fragmented).2 0xB780 = true ∧
    is_valid_address (vm_malloc 100 heap_fragmented).2 0xB7E3 = true ∧
    is_valid_address (vm_malloc 100 heap_fragmented).2 0xB7E4
      = is_valid_address heap_fragmented 0xB7E4 ∧
    is_valid_address (vm_malloc 100 heap_fragmented).2 0xB7E4 = false ∧
    is_valid_address (vm_malloc 100 heap_fragmented).2 0xB740 = true ∧
    is_valid_address (vm_malloc 100 heap_fragmented).2 0xB700 = false := by
  have hr : heap_reachable heap_fragmented :=
    heap_reachable.free _ 0xB780
      (heap_reachable.free _ 0xB700
        (heap_reachable.malloc _ 64
          (heap_reachable.malloc _ 64
            (heap_reachable.malloc _ 64 heap_reachable.init (by decide)) (by decide))
          (by decide))
        (by decide))
      (by decide)
  have h := vm_malloc_validity_frame heap_fragmented hr 100 (by decide) (by decide)
  exact ⟨by rfl, h.1 0xB780 (by decide) (by decide), h.1 0xB7E3 (by decide) (by decide),
    h.2.1 0xB780 (by decide) (by decide), h.2.1 0xB7E3 (by decide) (by decide),
    h.2.2 0xB7E4 (Or.inr (by decide)), by rfl, by rfl, by rfl⟩

end RiskXVII
